import Mathlib

/-! RTL types and LLHD canonicalization patterns.

A shallow embedding of `lib/Dialect/RTL/RTLTypes.cpp` and
`lib/Dialect/LLHD/IR/LLHDCanonicalization.cpp`.

MLIR types are uniqued: two `Type` handles are equal exactly when their
storage keys are equal.  A type is therefore embedded as the value of its
key, and `==` on types is structural equality.
-/

namespace RTL

/-! ## Types -/

/-- Signedness semantics of a builtin `IntegerType`. -/
inductive Signedness
  | Signless
  | Signed
  | Unsigned
deriving DecidableEq, Repr

mutual
/-- The types the RTL code handles: builtin integers, the three RTL
parametric types, and any other type of the host IR (named by its text). -/
inductive Ty
  | integer (width : Nat) (sign : Signedness)
  | array (elementType : Ty) (size : Nat)
  | inout (elementType : Ty)
  | struct (elements : List FieldInfo)
  | other (name : String)
/-- A struct member, `struct FieldInfo { StringRef name; Type type; }`. -/
inductive FieldInfo
  | mk (name : String) (type : Ty)
end

/-- Member `name` of a `FieldInfo`. -/
def FieldInfo.name : FieldInfo → String
  | .mk n _ => n

/-- Member `type` of a `FieldInfo`. -/
def FieldInfo.type : FieldInfo → Ty
  | .mk _ t => t

mutual
/-- Decidable equality of types (equality of uniqued handles). -/
def Ty.decEq : (a b : Ty) → Decidable (a = b)
  | .integer w s, .integer w2 s2 =>
    if h : w = w2 ∧ s = s2 then isTrue (by rw [h.1, h.2])
    else isFalse (by intro e; cases e; exact h ⟨rfl, rfl⟩)
  | .array e n, .array e2 n2 =>
    match Ty.decEq e e2 with
    | isTrue h =>
      if h2 : n = n2 then isTrue (by rw [h, h2])
      else isFalse (by intro e; cases e; exact h2 rfl)
    | isFalse h => isFalse (by intro e; cases e; exact h rfl)
  | .inout e, .inout e2 =>
    match Ty.decEq e e2 with
    | isTrue h => isTrue (by rw [h])
    | isFalse h => isFalse (by intro e; cases e; exact h rfl)
  | .struct f, .struct f2 =>
    match FieldInfo.decEqList f f2 with
    | isTrue h => isTrue (by rw [h])
    | isFalse h => isFalse (by intro e; cases e; exact h rfl)
  | .other a, .other b =>
    if h : a = b then isTrue (by rw [h]) else isFalse (by intro e; cases e; exact h rfl)
  | .integer .., .array .. => isFalse (by intro e; cases e)
  | .integer .., .inout .. => isFalse (by intro e; cases e)
  | .integer .., .struct .. => isFalse (by intro e; cases e)
  | .integer .., .other .. => isFalse (by intro e; cases e)
  | .array .., .integer .. => isFalse (by intro e; cases e)
  | .array .., .inout .. => isFalse (by intro e; cases e)
  | .array .., .struct .. => isFalse (by intro e; cases e)
  | .array .., .other .. => isFalse (by intro e; cases e)
  | .inout .., .integer .. => isFalse (by intro e; cases e)
  | .inout .., .array .. => isFalse (by intro e; cases e)
  | .inout .., .struct .. => isFalse (by intro e; cases e)
  | .inout .., .other .. => isFalse (by intro e; cases e)
  | .struct .., .integer .. => isFalse (by intro e; cases e)
  | .struct .., .array .. => isFalse (by intro e; cases e)
  | .struct .., .inout .. => isFalse (by intro e; cases e)
  | .struct .., .other .. => isFalse (by intro e; cases e)
  | .other .., .integer .. => isFalse (by intro e; cases e)
  | .other .., .array .. => isFalse (by intro e; cases e)
  | .other .., .inout .. => isFalse (by intro e; cases e)
  | .other .., .struct .. => isFalse (by intro e; cases e)
/-- Decidable equality of struct members. -/
def FieldInfo.decEq : (a b : FieldInfo) → Decidable (a = b)
  | .mk n t, .mk n2 t2 =>
    match Ty.decEq t t2 with
    | isTrue h =>
      if h2 : n = n2 then isTrue (by rw [h, h2])
      else isFalse (by intro e; cases e; exact h2 rfl)
    | isFalse h => isFalse (by intro e; cases e; exact h rfl)
/-- Decidable equality of member sequences. -/
def FieldInfo.decEqList : (a b : List FieldInfo) → Decidable (a = b)
  | [], [] => isTrue rfl
  | [], _ :: _ => isFalse (by intro e; cases e)
  | _ :: _, [] => isFalse (by intro e; cases e)
  | a :: as, b :: bs =>
    match FieldInfo.decEq a b with
    | isTrue h =>
      match FieldInfo.decEqList as bs with
      | isTrue h2 => isTrue (by rw [h, h2])
      | isFalse h2 => isFalse (by intro e; cases e; exact h2 rfl)
    | isFalse h => isFalse (by intro e; cases e; exact h rfl)
end

instance : DecidableEq Ty := Ty.decEq

instance : DecidableEq FieldInfo := FieldInfo.decEq

/-- Host `IntegerType::isSignless`. -/
def Signedness.isSignless : Signedness → Bool
  | .Signless => true
  | .Signed => false
  | .Unsigned => false

/-- Host `type.dyn_cast<IntegerType>()`: the width and signedness when the type
is a builtin integer. -/
def Ty.dynCastInteger : Ty → Option (Nat × Signedness)
  | .integer w s => some (w, s)
  | _ => none

/-- Host `type.isa<ArrayType>()`. -/
def Ty.isaArrayType : Ty → Bool
  | .array _ _ => true
  | _ => false

/-- Host `type.isa<InOutType>()`. -/
def Ty.isaInOutType : Ty → Bool
  | .inout _ => true
  | _ => false

/-- Source `isRTLValueType`: true if the type can be used as an RTL value type. -/
def isRTLValueType (type : Ty) : Bool :=
  match type.dynCastInteger with
  | some (_, sign) => sign.isSignless
  | none =>
    if type.isaArrayType then true
    else false

/-- Source `getTypeByField`, as the source has it. -/
def getTypeByField (structVal : Ty) (_fieldName : String) : Ty := structVal

/-! ## Struct members -/

/-- Source `operator==(const FieldInfo &, const FieldInfo &)`. -/
def FieldInfo.eq (a b : FieldInfo) : Bool :=
  decide (a.name = b.name) && decide (a.type = b.type)

/-- The hash primitives of the host (`llvm::hash_value` on a string and on
a type, `llvm::hash_combine`, `llvm::hash_combine_range`). -/
structure Hashing where
  hashString : String → Nat
  hashType : Ty → Nat
  hash_combine : Nat → Nat → Nat
  hash_combine_range : List Nat → Nat

/-- Source `hash_value(const FieldInfo &)`. -/
def FieldInfo.hash_value (h : Hashing) (fi : FieldInfo) : Nat :=
  h.hash_combine (h.hashString fi.name) (h.hashType fi.type)

/-- Support library `ArrayRef<FieldInfo>::operator==`, by which struct
keys are compared: equal sizes, then `std::equal` with the member comparison. -/
def FieldInfo.arrayRefEq : List FieldInfo → List FieldInfo → Bool
  | [], [] => true
  | a :: as, b :: bs => FieldInfo.eq a b && FieldInfo.arrayRefEq as bs
  | _, _ => false

/-- Modelled from the spec: the hash of a struct key (the storage class is
generated, not in the source tree), the combined hash of the sequence:
`hash_combine_range` over the members, each hashed by `hash_value`. -/
def FieldInfo.hashKey (h : Hashing) (key : List FieldInfo) : Nat :=
  h.hash_combine_range (key.map (FieldInfo.hash_value h))

/-- The lookup the source documents in its disabled `StructType::getElement`:
the first member whose name is `name`. -/
def StructType.getElement : List FieldInfo → String → Option FieldInfo
  | [], _ => none
  | element :: rest, name =>
    if element.name = name then some element else StructType.getElement rest name

/-! ## Diagnostics and the parser interface -/

/-- A source location, as the host encodes it. -/
abbrev Location := Nat

/-- A diagnostic handed to the host: where, and the message. -/
structure Diagnostic where
  loc : Location
  message : String
deriving DecidableEq, Repr

/-- Host type `LogicalResult`. -/
inductive LogicalResult
  | success
  | failure
deriving DecidableEq, Repr

/-- Host `failed(result)`. -/
def failed : LogicalResult → Bool
  | .success => false
  | .failure => true

/-- Host `emitError(loc, message)` used as a `LogicalResult`: the diagnostic is
emitted and the result is failure. -/
def emitError (loc : Location) (message : String) (diags : List Diagnostic) :
    LogicalResult × List Diagnostic :=
  (.failure, diags ++ [⟨loc, message⟩])

/-- What a parser works on: the text still to read, the offset reached, and
the diagnostics emitted so far. -/
structure ParserState where
  input : List Char
  pos : Nat
  diags : List Diagnostic
deriving DecidableEq, Repr

/-- The `DialectAsmParser` interface as far as the type parsers use it.  A
parse primitive returns `none` when it fails (`ParseResult` failure); its
out-parameter is the value returned. -/
structure DialectAsmParser where
  getNameLoc : Location
  getCurrentLocation : ParserState → Location
  getEncodedSourceLoc : Location → Location
  parseLess : ParserState → Option Unit × ParserState
  parseGreater : ParserState → Option Unit × ParserState
  parseDimensionList : Bool → ParserState → Option (List Int) × ParserState
  parseType : ParserState → Option Ty × ParserState
  parseKeyword : ParserState → Option (List Char) × ParserState

/-- Host `p.emitError(loc, message)`: the diagnostic is added to the parse state. -/
def ParserState.emitError (s : ParserState) (loc : Location) (message : String) :
    ParserState :=
  { s with diags := s.diags ++ [⟨loc, message⟩] }

/-- The largest `int64_t`, the element type of the dimension list `dims`. -/
def int64Max : Nat := 2 ^ 63 - 1

/-- Conversion of an `int64_t` to `size_t` (64 bits). -/
def toSizeT (d : Int) : Nat := (d % 2 ^ 64).toNat

/-! ## ArrayType -/

/-- Host `ArrayType::get`: the uniqued array type with this key. -/
def ArrayType.get (elementType : Ty) (size : Nat) : Ty := .array elementType size

/-- Source `ArrayType::verifyConstructionInvariants`. -/
def ArrayType.verifyConstructionInvariants (loc : Location) (innerType : Ty)
    (_size : Nat) (diags : List Diagnostic) : LogicalResult × List Diagnostic :=
  if !isRTLValueType innerType then
    emitError loc "invalid element for rtl.array type" diags
  else (.success, diags)

/-- Host `ArrayType::getChecked` (of the type base class): verify the
construction invariants, then `get`; a null type on failure. -/
def ArrayType.getChecked (loc : Location) (innerType : Ty) (size : Nat)
    (diags : List Diagnostic) : Option Ty × List Diagnostic :=
  let checked := ArrayType.verifyConstructionInvariants loc innerType size diags
  if failed checked.1 then (none, checked.2)
  else (some (ArrayType.get innerType size), checked.2)

/-- The first statement of `ArrayType::parse`: the chain
`parseLess || parseDimensionList || parseType || parseGreater`, which stops at
the first primitive that fails; on success the dimensions and the inner type. -/
def ArrayType.parseShape (p : DialectAsmParser) (s : ParserState) :
    Option (List Int × Ty) × ParserState :=
  match p.parseLess s with
  | (none, s1) => (none, s1)
  | (some _, s1) =>
  match p.parseDimensionList false s1 with
  | (none, s2) => (none, s2)
  | (some dims, s2) =>
  match p.parseType s2 with
  | (none, s3) => (none, s3)
  | (some inner, s3) =>
  match p.parseGreater s3 with
  | (none, s4) => (none, s4)
  | (some _, s4) => (some (dims, inner), s4)

/-- Source `ArrayType::parse`.  The result `none` is the null `Type()`. -/
def ArrayType.parse (p : DialectAsmParser) (s : ParserState) : Option Ty × ParserState :=
  match ArrayType.parseShape p s with
  | (none, s1) => (none, s1)
  | (some (dims, inner), s1) =>
  if dims.length ≠ 1 then
    (none, s1.emitError p.getNameLoc "rtl.array only supports one dimension")
  else
    let loc := p.getEncodedSourceLoc (p.getCurrentLocation s1)
    let size := toSizeT (dims.headD 0)
    let checked := ArrayType.verifyConstructionInvariants loc inner size s1.diags
    if failed checked.1 then (none, { s1 with diags := checked.2 })
    else (some (ArrayType.get inner size), { s1 with diags := checked.2 })

/-! ## InOutType -/

/-- Host `InOutType::get`: the uniqued inout type with this key. -/
def InOutType.get (elementType : Ty) : Ty := .inout elementType

/-- Source `InOutType::verifyConstructionInvariants`. -/
def InOutType.verifyConstructionInvariants (loc : Location) (innerType : Ty)
    (diags : List Diagnostic) : LogicalResult × List Diagnostic :=
  if !isRTLValueType innerType then
    emitError loc "invalid element for rtl.inout type" diags
  else (.success, diags)

/-- Host `InOutType::getChecked` (of the type base class). -/
def InOutType.getChecked (loc : Location) (innerType : Ty)
    (diags : List Diagnostic) : Option Ty × List Diagnostic :=
  let checked := InOutType.verifyConstructionInvariants loc innerType diags
  if failed checked.1 then (none, checked.2)
  else (some (InOutType.get innerType), checked.2)

/-- The first statement of `InOutType::parse`: the chain
`parseLess || parseType || parseGreater`; on success the inner type. -/
def InOutType.parseShape (p : DialectAsmParser) (s : ParserState) :
    Option Ty × ParserState :=
  match p.parseLess s with
  | (none, s1) => (none, s1)
  | (some _, s1) =>
  match p.parseType s1 with
  | (none, s2) => (none, s2)
  | (some inner, s2) =>
  match p.parseGreater s2 with
  | (none, s3) => (none, s3)
  | (some _, s3) => (some inner, s3)

/-- Source `InOutType::parse`. -/
def InOutType.parse (p : DialectAsmParser) (s : ParserState) : Option Ty × ParserState :=
  match InOutType.parseShape p s with
  | (none, s1) => (none, s1)
  | (some inner, s1) =>
  let loc := p.getEncodedSourceLoc (p.getCurrentLocation s1)
  let checked := InOutType.verifyConstructionInvariants loc inner s1.diags
  if failed checked.1 then (none, { s1 with diags := checked.2 })
  else (some (InOutType.get inner), { s1 with diags := checked.2 })

/-! ## Dialect dispatch -/

/-- Modelled from the spec: the generated mnemonic dispatch
(`generatedTypeParser` of `RTLTypes.cpp.inc`, not in the source tree): the
mnemonic selects the matching parser, an unrecognised mnemonic fails.  The
spec gives the two textual forms `array<...>` and `inout<...>`. -/
def generatedTypeParser (p : DialectAsmParser) (mnemonic : List Char)
    (s : ParserState) : Option Ty × ParserState :=
  if mnemonic = ['a', 'r', 'r', 'a', 'y'] then ArrayType.parse p s
  else if mnemonic = ['i', 'n', 'o', 'u', 't'] then InOutType.parse p s
  else (none, s)

/-- Source `RTLDialect::parseType`: parse the mnemonic, then dispatch. -/
def RTLDialect.parseType (parser : DialectAsmParser) (s : ParserState) :
    Option Ty × ParserState :=
  match parser.parseKeyword s with
  | (none, s1) => (none, s1)
  | (some mnemonic, s1) => generatedTypeParser parser mnemonic s1

/-! ## Printing -/

/-- The output stream a printer writes to: the text written so far. -/
abbrev OStream := List Char

/-- The `DialectAsmPrinter` interface as far as the type printers use it.
`printType` prints a nested type; `none` stands for a print that hit
`llvm_unreachable`. -/
structure DialectAsmPrinter where
  printType : Ty → OStream → Option OStream

/-- Source `ArrayType::print`, with `getElementType()` and `getSize()` passed in;
`p << getSize()` writes the size in decimal. -/
def ArrayType.print (p : DialectAsmPrinter) (elementType : Ty) (size : Nat)
    (os : OStream) : Option OStream :=
  let os1 := os ++ ['a', 'r', 'r', 'a', 'y', '<'] ++ Nat.toDigits 10 size ++ ['x']
  match p.printType elementType os1 with
  | none => none
  | some os2 => some (os2 ++ ['>'])

/-- Source `InOutType::print`, with `getElementType()` passed in. -/
def InOutType.print (p : DialectAsmPrinter) (elementType : Ty)
    (os : OStream) : Option OStream :=
  let os1 := os ++ ['i', 'n', 'o', 'u', 't', '<']
  match p.printType elementType os1 with
  | none => none
  | some os2 => some (os2 ++ ['>'])

/-- Modelled from the spec: the generated printer dispatch
(`generatedTypePrinter` of `RTLTypes.cpp.inc`, not in the source tree): it
prints the two textual forms the spec gives and fails on any other type. -/
def generatedTypePrinter (type : Ty) (printer : DialectAsmPrinter)
    (os : OStream) : Option OStream :=
  match type with
  | .array elementType size => ArrayType.print printer elementType size os
  | .inout elementType => InOutType.print printer elementType os
  | _ => none

/-- Source `RTLDialect::printType`: the generated dispatch, `llvm_unreachable`
(here `none`) when it fails. -/
def RTLDialect.printType (type : Ty) (printer : DialectAsmPrinter)
    (os : OStream) : Option OStream :=
  match generatedTypePrinter type printer os with
  | some os1 => some os1
  | none => none

/-! ## The host parser and printer

A character-level model of the primitives of the host IR's textual format
that the RTL type codec calls, on text without white space. -/

/-- Value of a decimal digit. -/
def Host.digitValue (c : Char) : Nat := c.toNat - 48

/-- Value of a run of decimal digits. -/
def Host.decimalValue (ds : List Char) : Nat :=
  ds.foldl (fun v c => v * 10 + Host.digitValue c) 0

/-- Where the reader of a dimension list stands: before a dimension, inside
the integer of a dimension (with the value read so far), or after a `?`. -/
inductive Host.DimensionState
  | next
  | integer (value : Nat)
  | dynamic

/-- The dimension list `(<dimension> x)*` read from the text, a dimension
being an integer or, when allowed, `?` (read as -1).  An integer above `maxDim`
does not fit the parser's dimension type.  Returns the dimensions and the
text left. -/
def Host.dimensionList (allowDynamic : Bool) (maxDim : Nat) :
    List Char → Host.DimensionState → List Int → Except String (List Int × List Char)
  | [], .next, dims => .ok (dims, [])
  | [], .integer v, _ =>
    if maxDim < v then .error "invalid dimension"
    else .error "expected x in dimension list"
  | [], .dynamic, _ => .error "expected x in dimension list"
  | c :: cs, .next, dims =>
    if c.isDigit then
      Host.dimensionList allowDynamic maxDim cs (.integer (Host.digitValue c)) dims
    else if c = '?' then
      if allowDynamic then Host.dimensionList allowDynamic maxDim cs .dynamic dims
      else .error "expected static shape"
    else .ok (dims, c :: cs)
  | c :: cs, .integer v, dims =>
    if c.isDigit then
      Host.dimensionList allowDynamic maxDim cs (.integer (v * 10 + Host.digitValue c)) dims
    else if maxDim < v then .error "invalid dimension"
    else if c = 'x' then Host.dimensionList allowDynamic maxDim cs .next (dims ++ [(v : Int)])
    else .error "expected x in dimension list"
  | c :: cs, .dynamic, dims =>
    if c = 'x' then Host.dimensionList allowDynamic maxDim cs .next (dims ++ [-1])
    else .error "expected x in dimension list"

/-- Host `parseDimensionList`. -/
def Host.parseDimensionList (maxDim : Nat) (allowDynamic : Bool) (s : ParserState) :
    Option (List Int) × ParserState :=
  match Host.dimensionList allowDynamic maxDim s.input .next [] with
  | .ok (dims, rest) =>
    (some dims, { s with input := rest, pos := s.pos + (s.input.length - rest.length) })
  | .error message => (none, s.emitError s.pos message)

/-- Host `parseLess` / `parseGreater`: consume the one punctuation character. -/
def Host.parseToken (c : Char) (message : String) (s : ParserState) :
    Option Unit × ParserState :=
  match s.input with
  | d :: rest =>
    if d = c then (some (), { s with input := rest, pos := s.pos + 1 })
    else (none, s.emitError s.pos message)
  | [] => (none, s.emitError s.pos message)

/-- First character of a bare identifier. -/
def Host.isIdentStart (c : Char) : Bool := c.isAlpha || c = '_'

/-- Further character of a bare identifier. -/
def Host.isIdentChar (c : Char) : Bool := c.isAlphanum || c = '_' || c = '$' || c = '.'

/-- Host `parseKeyword`: consume a bare identifier. -/
def Host.parseKeyword (s : ParserState) : Option (List Char) × ParserState :=
  match s.input with
  | c :: cs =>
    if Host.isIdentStart c then
      let more := cs.takeWhile Host.isIdentChar
      (some (c :: more),
        { s with input := cs.dropWhile Host.isIdentChar, pos := s.pos + 1 + more.length })
    else (none, s.emitError s.pos "expected valid keyword")
  | [] => (none, s.emitError s.pos "expected valid keyword")

/-- A builtin integer type after its `i`, `si` or `ui` (of `lead`
characters): the decimal width. -/
def Host.parseIntegerType (sign : Signedness) (lead : Nat) (cs : List Char)
    (s : ParserState) : Option Ty × ParserState :=
  let ds := cs.takeWhile Char.isDigit
  if ds = [] then (none, s.emitError s.pos "expected type")
  else
    (some (.integer (Host.decimalValue ds) sign),
      { s with input := cs.dropWhile Char.isDigit, pos := s.pos + lead + ds.length })

/-- Host `parseType`, given the parser of an `!rtl.` dialect type (which
gets the location of the type's name): a builtin integer type or a dialect
type. -/
def Host.parseTypeWith
    (parseDialectType : Location → ParserState → Option Ty × ParserState)
    (s : ParserState) : Option Ty × ParserState :=
  match s.input with
  | 'i' :: cs => Host.parseIntegerType .Signless 1 cs s
  | 's' :: 'i' :: cs => Host.parseIntegerType .Signed 2 cs s
  | 'u' :: 'i' :: cs => Host.parseIntegerType .Unsigned 2 cs s
  | '!' :: 'r' :: 't' :: 'l' :: '.' :: cs =>
    parseDialectType s.pos { s with input := cs, pos := s.pos + 5 }
  | _ => (none, s.emitError s.pos "expected type")

/-- The host's `DialectAsmParser` for a dialect type named at `nameLoc`. -/
def Host.mkParser (maxDim : Nat) (nameLoc : Location)
    (parseType : ParserState → Option Ty × ParserState) : DialectAsmParser where
  getNameLoc := nameLoc
  getCurrentLocation := fun s => s.pos
  getEncodedSourceLoc := fun loc => loc
  parseLess := Host.parseToken '<' "expected <"
  parseGreater := Host.parseToken '>' "expected >"
  parseDimensionList := Host.parseDimensionList maxDim
  parseType := parseType
  parseKeyword := Host.parseKeyword

/-- The host parsing the body of an `!rtl.` type: it hands the RTL dialect a
parser whose `parseType` is the host's.  `fuel` bounds the nesting of
dialect types. -/
def Host.parseDialectType (maxDim : Nat) : Nat → Location → ParserState →
    Option Ty × ParserState
  | 0, _, s => (none, s)
  | fuel + 1, nameLoc, s =>
    RTLDialect.parseType
      (Host.mkParser maxDim nameLoc
        (Host.parseTypeWith (fun loc s1 => Host.parseDialectType maxDim fuel loc s1))) s

/-- Parse a text as an RTL type (the text after `!rtl.`); the nesting of a
text is below its length. -/
def Host.parse (maxDim : Nat) (text : List Char) : Option Ty × ParserState :=
  Host.parseDialectType maxDim (text.length + 1) 0 ⟨text, 0, []⟩

/-- Host `printType`, given the printer of an RTL dialect type: builtin
integers as `i`/`si`/`ui` and the width, another host type by its name, an
RTL type as `!rtl.` and what the dialect prints. -/
def Host.printTypeWith (printDialectType : Ty → OStream → Option OStream) :
    Ty → OStream → Option OStream
  | .integer w .Signless, os => some (os ++ 'i' :: Nat.toDigits 10 w)
  | .integer w .Signed, os => some (os ++ 's' :: 'i' :: Nat.toDigits 10 w)
  | .integer w .Unsigned, os => some (os ++ 'u' :: 'i' :: Nat.toDigits 10 w)
  | .other name, os => some (os ++ name.toList)
  | type, os => printDialectType type (os ++ ['!', 'r', 't', 'l', '.'])

/-- The host printing an RTL type: it hands the RTL dialect a printer whose
`printType` is the host's.  `fuel` bounds the nesting of dialect types. -/
def Host.printDialectType : Nat → Ty → OStream → Option OStream
  | 0, _, _ => none
  | fuel + 1, type, os =>
    RTLDialect.printType type
      ⟨Host.printTypeWith (fun t os1 => Host.printDialectType fuel t os1)⟩ os

/-- Nesting depth of RTL types in a type. -/
def Ty.depth : Ty → Nat
  | .integer _ _ => 0
  | .array e _ => e.depth + 1
  | .inout e => e.depth + 1
  | .struct _ => 1
  | .other _ => 0

/-- Print an RTL type (the text after `!rtl.`). -/
def Host.print (type : Ty) : Option OStream :=
  Host.printDialectType type.depth type []

/-- The printed form of a type as the host prints it when nested in another
type. -/
def Host.printType (type : Ty) : Option OStream :=
  Host.printTypeWith (fun t os1 => Host.printDialectType type.depth t os1) type []

/-! ## Types obtainable from the constructors -/

mutual
/-- A type that the constructors can produce: an array or inout type passed
its construction invariants (its size a `size_t`), on an element that
itself can be produced; struct construction checks nothing. -/
def Ty.constructible : Ty → Bool
  | .integer _ _ => true
  | .array e n => isRTLValueType e && e.constructible && decide (n < 2 ^ 64)
  | .inout e => isRTLValueType e && e.constructible
  | .struct fs => FieldInfo.constructibleList fs
  | .other _ => true
/-- Modelled from the spec: struct construction (`makeStruct`; the struct type
is generated, not in the source tree) does not validate the member types
against `isRTLValueType`: any member types that can be produced will do. -/
def FieldInfo.constructibleList : List FieldInfo → Bool
  | [] => true
  | .mk _ t :: rest => t.constructible && FieldInfo.constructibleList rest
end

mutual
/-- An `InOutType` occurs in the type: the type itself, an element type at
any depth, or a member type at any depth. -/
def Ty.containsInOut : Ty → Bool
  | .integer _ _ => false
  | .array e _ => e.containsInOut
  | .inout _ => true
  | .struct fs => FieldInfo.anyContainsInOut fs
  | .other _ => false
/-- An `InOutType` occurs in the type of some member. -/
def FieldInfo.anyContainsInOut : List FieldInfo → Bool
  | [] => false
  | .mk _ t :: rest => t.containsInOut || FieldInfo.anyContainsInOut rest
end

/-- An `InOutType` occurs below the outermost type: in the element type of
an array or inout type, or in a member type of a struct type. -/
def Ty.hasNestedInOut : Ty → Bool
  | .array e _ => e.containsInOut
  | .inout e => e.containsInOut
  | .struct fs => FieldInfo.anyContainsInOut fs
  | _ => false

/-- Every array size in the type is at most `maxDim`. -/
def Ty.sizesWithin (maxDim : Nat) : Ty → Bool
  | .array e n => decide (n ≤ maxDim) && e.sizesWithin maxDim
  | .inout e => e.sizesWithin maxDim
  | _ => true

/-- Modelled from the spec: `makeStruct`, struct construction (the struct type
is generated, not in the source tree): it does not validate the field types
and returns the struct type of the ordered fields. -/
def makeStruct (fields : List FieldInfo) : Ty := .struct fields

/-- The types obtainable from the constructors: the builtin integer types and
other host types; what `ArrayType::getChecked` or `ArrayType::parse` returns
on an obtainable element type, and likewise for `InOutType`; and what
`makeStruct` returns on obtainable field types. -/
inductive Ty.Obtainable : Ty → Prop
  | integer (width : Nat) (sign : Signedness) : Ty.Obtainable (.integer width sign)
  | other (name : String) : Ty.Obtainable (.other name)
  | arrayChecked (loc : Location) (inner : Ty) (size : Nat) (diags : List Diagnostic)
    (result : Ty) : Ty.Obtainable inner →
    (ArrayType.getChecked loc inner size diags).1 = some result → Ty.Obtainable result
  | arrayParsed (p : DialectAsmParser) (s s1 : ParserState) (dims : List Int)
    (inner result : Ty) :
    ArrayType.parseShape p s = (some (dims, inner), s1) → Ty.Obtainable inner →
    (ArrayType.parse p s).1 = some result → Ty.Obtainable result
  | inoutChecked (loc : Location) (inner : Ty) (diags : List Diagnostic) (result : Ty) :
    Ty.Obtainable inner →
    (InOutType.getChecked loc inner diags).1 = some result → Ty.Obtainable result
  | inoutParsed (p : DialectAsmParser) (s s1 : ParserState) (inner result : Ty) :
    InOutType.parseShape p s = (some inner, s1) → Ty.Obtainable inner →
    (InOutType.parse p s).1 = some result → Ty.Obtainable result
  | struct (fields : List FieldInfo) :
    (∀ field, field ∈ fields → Ty.Obtainable field.type) → Ty.Obtainable (makeStruct fields)

/-! ## The type registry of a context

The uniquer belongs to the host IR and is not in the source tree; it is taken
from the spec: a construction looks up or creates the canonical instance
keyed by the structural descriptor and returns the existing instance when one
with an equal descriptor exists. -/

/-- Modelled from the spec: the structural type registry of a context (the
uniquer is the host's, not in the source tree): the canonical instances in
creation order, each held under its structural descriptor.  Instances are
never destroyed. -/
structure MLIRContext where
  instances : List Ty
deriving DecidableEq

/-- The identity of a canonical instance: its place in the registry. -/
abbrev TypeInstance := Nat

/-- Modelled from the spec: look up or create the canonical instance keyed by
the structural descriptor: the existing instance when one with an equal
descriptor exists, else a new instance added to the registry. -/
def MLIRContext.getOrCreate (ctxt : MLIRContext) (descriptor : Ty) :
    TypeInstance × MLIRContext :=
  if descriptor ∈ ctxt.instances then (ctxt.instances.indexOf descriptor, ctxt)
  else (ctxt.instances.length, ⟨ctxt.instances ++ [descriptor]⟩)

/-- The descriptor under which an instance is held. -/
def MLIRContext.descriptorOf (ctxt : MLIRContext) (inst : TypeInstance) : Option Ty :=
  ctxt.instances[inst]?

/-- A later state of a context: reached by any number of constructions, of
any descriptors. -/
inductive MLIRContext.Later : MLIRContext → MLIRContext → Prop
  | refl (ctxt : MLIRContext) : MLIRContext.Later ctxt ctxt
  | step (ctxt later : MLIRContext) (descriptor : Ty) :
    MLIRContext.Later ctxt later → MLIRContext.Later ctxt (later.getOrCreate descriptor).2

/-- Source `get(ctxt, inner, size)` of `ArrayType`, with its context: the
canonical instance whose descriptor is the element type and the size. -/
def ArrayType.getIn (ctxt : MLIRContext) (elementType : Ty) (size : Nat) :
    TypeInstance × MLIRContext :=
  ctxt.getOrCreate (ArrayType.get elementType size)

/-- Source `get(ctxt, inner)` of `InOutType`, with its context. -/
def InOutType.getIn (ctxt : MLIRContext) (elementType : Ty) : TypeInstance × MLIRContext :=
  ctxt.getOrCreate (InOutType.get elementType)

/-- Host `ArrayType::getChecked` with its context: verify the construction
invariants, then `get`; no instance on failure. -/
def ArrayType.getCheckedIn (ctxt : MLIRContext) (loc : Location) (innerType : Ty)
    (size : Nat) (diags : List Diagnostic) :
    Option TypeInstance × MLIRContext × List Diagnostic :=
  let checked := ArrayType.verifyConstructionInvariants loc innerType size diags
  if failed checked.1 then (none, ctxt, checked.2)
  else (some (ArrayType.getIn ctxt innerType size).1,
    (ArrayType.getIn ctxt innerType size).2, checked.2)

/-- Host `InOutType::getChecked` with its context. -/
def InOutType.getCheckedIn (ctxt : MLIRContext) (loc : Location) (innerType : Ty)
    (diags : List Diagnostic) : Option TypeInstance × MLIRContext × List Diagnostic :=
  let checked := InOutType.verifyConstructionInvariants loc innerType diags
  if failed checked.1 then (none, ctxt, checked.2)
  else (some (InOutType.getIn ctxt innerType).1, (InOutType.getIn ctxt innerType).2,
    checked.2)

/-- Source `ArrayType::parse(ctxt, p)` with its context: as `ArrayType.parse`,
and the type returned is the canonical instance `get(ctxt, inner, dims[0])`. -/
def ArrayType.parseIn (ctxt : MLIRContext) (p : DialectAsmParser) (s : ParserState) :
    Option TypeInstance × MLIRContext × ParserState :=
  match ArrayType.parseShape p s with
  | (none, s1) => (none, ctxt, s1)
  | (some (dims, inner), s1) =>
  if dims.length ≠ 1 then
    (none, ctxt, s1.emitError p.getNameLoc "rtl.array only supports one dimension")
  else
    let loc := p.getEncodedSourceLoc (p.getCurrentLocation s1)
    let size := toSizeT (dims.headD 0)
    let checked := ArrayType.verifyConstructionInvariants loc inner size s1.diags
    if failed checked.1 then (none, ctxt, { s1 with diags := checked.2 })
    else (some (ArrayType.getIn ctxt inner size).1, (ArrayType.getIn ctxt inner size).2,
      { s1 with diags := checked.2 })

/-- Source `InOutType::parse(ctxt, p)` with its context: as `InOutType.parse`,
and the type returned is the canonical instance `get(ctxt, inner)`. -/
def InOutType.parseIn (ctxt : MLIRContext) (p : DialectAsmParser) (s : ParserState) :
    Option TypeInstance × MLIRContext × ParserState :=
  match InOutType.parseShape p s with
  | (none, s1) => (none, ctxt, s1)
  | (some inner, s1) =>
  let loc := p.getEncodedSourceLoc (p.getCurrentLocation s1)
  let checked := InOutType.verifyConstructionInvariants loc inner s1.diags
  if failed checked.1 then (none, ctxt, { s1 with diags := checked.2 })
  else (some (InOutType.getIn ctxt inner).1, (InOutType.getIn ctxt inner).2,
    { s1 with diags := checked.2 })

end RTL

namespace LLHD

/-! ## Canonicalization patterns -/

/-- The rewrite patterns the source registers (the classes generated from
the declarative rewrite rules). -/
inductive Pattern
  | XorAllBitsSet
  | NotOfEq
  | NotOfNeq
  | BooleanEqToXor
  | BooleanNeqToXor
  | DynExtractSliceWithConstantOpStart
  | DynExtractSliceWithLLHDConstOpStart
  | DynExtractElementWithConstantOpIndex
  | DynExtractElementWithLLHDConstOpIndex
deriving DecidableEq, Repr

/-- The operation kinds that have canonicalization patterns. -/
inductive OpKind
  | XorOp
  | NotOp
  | EqOp
  | NeqOp
  | DynExtractSliceOp
  | DynExtractElementOp
deriving DecidableEq, Repr

/-- Host `OwningRewritePatternList`: the patterns in insertion order;
`results.insert<A, B>(context)` appends `A` then `B`. -/
abbrev OwningRewritePatternList := List Pattern

/-- Source `llhd::XorOp::getCanonicalizationPatterns`. -/
def XorOp.getCanonicalizationPatterns (results : OwningRewritePatternList) :
    OwningRewritePatternList :=
  results ++ [.XorAllBitsSet]

/-- Source `llhd::NotOp::getCanonicalizationPatterns`. -/
def NotOp.getCanonicalizationPatterns (results : OwningRewritePatternList) :
    OwningRewritePatternList :=
  results ++ [.NotOfEq, .NotOfNeq]

/-- Source `llhd::EqOp::getCanonicalizationPatterns`. -/
def EqOp.getCanonicalizationPatterns (results : OwningRewritePatternList) :
    OwningRewritePatternList :=
  results ++ [.BooleanEqToXor]

/-- Source `llhd::NeqOp::getCanonicalizationPatterns`. -/
def NeqOp.getCanonicalizationPatterns (results : OwningRewritePatternList) :
    OwningRewritePatternList :=
  results ++ [.BooleanNeqToXor]

/-- Source `llhd::DynExtractSliceOp::getCanonicalizationPatterns`. -/
def DynExtractSliceOp.getCanonicalizationPatterns (results : OwningRewritePatternList) :
    OwningRewritePatternList :=
  results ++ [.DynExtractSliceWithConstantOpStart, .DynExtractSliceWithLLHDConstOpStart]

/-- Source `llhd::DynExtractElementOp::getCanonicalizationPatterns`. -/
def DynExtractElementOp.getCanonicalizationPatterns (results : OwningRewritePatternList) :
    OwningRewritePatternList :=
  results ++ [.DynExtractElementWithConstantOpIndex, .DynExtractElementWithLLHDConstOpIndex]

/-- The rule list a kind exposes: what its `getCanonicalizationPatterns`
inserts into an empty list. -/
def getCanonicalizationPatterns : OpKind → OwningRewritePatternList
  | .XorOp => XorOp.getCanonicalizationPatterns []
  | .NotOp => NotOp.getCanonicalizationPatterns []
  | .EqOp => EqOp.getCanonicalizationPatterns []
  | .NeqOp => NeqOp.getCanonicalizationPatterns []
  | .DynExtractSliceOp => DynExtractSliceOp.getCanonicalizationPatterns []
  | .DynExtractElementOp => DynExtractElementOp.getCanonicalizationPatterns []

/-- The six operation kinds. -/
def OpKind.all : List OpKind :=
  [.XorOp, .NotOp, .EqOp, .NeqOp, .DynExtractSliceOp, .DynExtractElementOp]

/-- Modelled from the spec: the rule table of the canonicalization rule set
(the pattern definitions, `LLHDCanonicalization.inc`, are not in the source
tree): row by row, the operation kind a rule rewrites and the rule's name. -/
def specRuleTable : List (OpKind × String) :=
  [(.XorOp, "all-bits-set elimination"),
   (.NotOp, "not-of-equality"),
   (.NotOp, "not-of-inequality"),
   (.EqOp, "boolean-equality-to-xor"),
   (.NeqOp, "boolean-inequality-to-xor"),
   (.DynExtractSliceOp, "constant-start folding (generic constant)"),
   (.DynExtractSliceOp, "constant-start folding (dialect constant)"),
   (.DynExtractElementOp, "constant-index folding (generic constant)"),
   (.DynExtractElementOp, "constant-index folding (dialect constant)")]

/-- Modelled from the spec: the rule of the spec's table that each pattern
class implements. -/
def Pattern.ruleName : Pattern → String
  | .XorAllBitsSet => "all-bits-set elimination"
  | .NotOfEq => "not-of-equality"
  | .NotOfNeq => "not-of-inequality"
  | .BooleanEqToXor => "boolean-equality-to-xor"
  | .BooleanNeqToXor => "boolean-inequality-to-xor"
  | .DynExtractSliceWithConstantOpStart => "constant-start folding (generic constant)"
  | .DynExtractSliceWithLLHDConstOpStart => "constant-start folding (dialect constant)"
  | .DynExtractElementWithConstantOpIndex => "constant-index folding (generic constant)"
  | .DynExtractElementWithLLHDConstOpIndex => "constant-index folding (dialect constant)"

/-- The operation kind a pattern rewrites: the kind of its rule's row in the
spec's table. -/
def Pattern.rootKind (pattern : Pattern) : Option OpKind :=
  (specRuleTable.find? (fun row => decide (row.2 = pattern.ruleName))).map (fun row => row.1)

/-- The rules of the spec's table for one kind, in table order. -/
def specRulesOf (kind : OpKind) : List String :=
  (specRuleTable.filter (fun row => decide (row.1 = kind))).map (fun row => row.2)

/-! ## The IR the rules work on

The operation definitions and the rewrite patterns are generated from
declarative files that are not in the source tree; they are taken from the
spec.  A value is embedded with the operations that define it, as an
expression: an operand shows its defining operation, which is all that a rule
looks at.  A rule application rewrites one operation. -/

/-- Modelled from the spec: the types of IR values as far as the rules look
at them: an integer of some bit width, or any other type. -/
inductive IRType
  | integer (width : Nat)
  | other (name : String)
deriving DecidableEq, Repr

/-- Modelled from the spec: the two constant-producing operation kinds, the
generic `ConstantOp` and the dialect's own `ConstOp`. -/
inductive ConstantKind
  | ConstantOp
  | LLHDConstOp
deriving DecidableEq, Repr

/-- Modelled from the spec: a value of the IR graph with the operations that
define it (the operation definitions behind `LLHDOps.h` are generated, not
in the source tree): a block argument (or the result of an operation of no handled
kind), a constant with its literal value, the six operation kinds that have
rules, and the static-start slice and static-index element extractions. -/
inductive Value
  | blockArgument (index : Nat) (type : IRType)
  | constant (kind : ConstantKind) (value : Nat) (type : IRType)
  | xor (lhs rhs : Value)
  | not (operand : Value)
  | eq (lhs rhs : Value)
  | neq (lhs rhs : Value)
  | dynExtractSlice (target start : Value) (resultType : IRType)
  | dynExtractElement (target index : Value) (resultType : IRType)
  | extractSlice (target : Value) (start : Nat) (resultType : IRType)
  | extractElement (target : Value) (index : Nat) (resultType : IRType)
deriving DecidableEq, Repr

/-- Modelled from the spec: the type of a value.  XOR and NOT have the type
of their operand, EQ and NEQ are single-bit, an extraction has its declared
result type. -/
def Value.getType : Value → IRType
  | .blockArgument _ type => type
  | .constant _ _ type => type
  | .xor lhs _ => lhs.getType
  | .not operand => operand.getType
  | .eq _ _ => .integer 1
  | .neq _ _ => .integer 1
  | .dynExtractSlice _ _ resultType => resultType
  | .dynExtractElement _ _ resultType => resultType
  | .extractSlice _ _ resultType => resultType
  | .extractElement _ _ resultType => resultType

/-- The kind of the operation that defines a value, when it is one of the six
kinds with rules. -/
def Value.opKind : Value → Option OpKind
  | .xor _ _ => some .XorOp
  | .not _ => some .NotOp
  | .eq _ _ => some .EqOp
  | .neq _ _ => some .NeqOp
  | .dynExtractSlice _ _ _ => some .DynExtractSliceOp
  | .dynExtractElement _ _ _ => some .DynExtractElementOp
  | _ => none

/-- Modelled from the spec: a constant with every bit set: an integer
constant of width `w` whose literal is `2^w - 1`. -/
def Value.isAllBitsSetConstant : Value → Bool
  | .constant _ value (.integer width) => decide (value = 2 ^ width - 1)
  | _ => false

/-- The value is the result of an EQ or of a NEQ. -/
def Value.isEqOrNeq : Value → Bool
  | .eq _ _ => true
  | .neq _ _ => true
  | _ => false

/-! ## The rules -/

/-- Modelled from the spec: the pattern `XorAllBitsSet` (generated
`LLHDCanonicalization.inc`, not in the source tree), all-bits-set
elimination: a XOR one operand of which is a constant with every bit set
becomes a NOT of the other operand. -/
def XorAllBitsSet.matchAndRewrite : Value → Option Value
  | .xor lhs rhs =>
    if rhs.isAllBitsSetConstant then some (.not lhs)
    else if lhs.isAllBitsSetConstant then some (.not rhs)
    else none
  | _ => none

/-- Modelled from the spec: the pattern `NotOfEq` (generated, not in the source
tree), not-of-equality: a NOT whose operand is the result of an EQ becomes
the NEQ on the same two operands. -/
def NotOfEq.matchAndRewrite : Value → Option Value
  | .not operand =>
    match operand with
    | .eq lhs rhs => some (.neq lhs rhs)
    | _ => none
  | _ => none

/-- Modelled from the spec: the pattern `NotOfNeq` (generated, not in the
source tree), not-of-inequality: a NOT whose operand is the result of a NEQ
becomes the EQ on the same two operands. -/
def NotOfNeq.matchAndRewrite : Value → Option Value
  | .not operand =>
    match operand with
    | .neq lhs rhs => some (.eq lhs rhs)
    | _ => none
  | _ => none

/-- Modelled from the spec: the pattern `BooleanEqToXor` (generated, not in the
source tree), boolean-equality-to-xor: an EQ on single-bit operands becomes
NOT(XOR(a, b)). -/
def BooleanEqToXor.matchAndRewrite : Value → Option Value
  | .eq lhs rhs =>
    if lhs.getType = .integer 1 ∧ rhs.getType = .integer 1 then some (.not (.xor lhs rhs))
    else none
  | _ => none

/-- Modelled from the spec: the pattern `BooleanNeqToXor` (generated, not in
the source tree), boolean-inequality-to-xor: a NEQ on single-bit operands
becomes XOR(a, b). -/
def BooleanNeqToXor.matchAndRewrite : Value → Option Value
  | .neq lhs rhs =>
    if lhs.getType = .integer 1 ∧ rhs.getType = .integer 1 then some (.xor lhs rhs)
    else none
  | _ => none

/-- Modelled from the spec: the patterns `DynExtractSliceWithConstantOpStart`
and `DynExtractSliceWithLLHDConstOpStart` (generated, not in the source tree),
constant-start folding: a dynamic slice extraction whose start operand is a
constant of the given kind becomes the static-start slice extraction at the
literal value. -/
def DynExtractSliceWithStart.matchAndRewrite (kind : ConstantKind) : Value → Option Value
  | .dynExtractSlice target start resultType =>
    match start with
    | .constant kind1 value _ =>
      if kind1 = kind then some (.extractSlice target value resultType) else none
    | _ => none
  | _ => none

/-- Modelled from the spec: the patterns `DynExtractElementWithConstantOpIndex`
and `DynExtractElementWithLLHDConstOpIndex` (generated, not in the source
tree), constant-index folding: a dynamic element extraction whose index
operand is a constant of the given kind becomes the static-index element
extraction at the literal value. -/
def DynExtractElementWithIndex.matchAndRewrite (kind : ConstantKind) : Value → Option Value
  | .dynExtractElement target index resultType =>
    match index with
    | .constant kind1 value _ =>
      if kind1 = kind then some (.extractElement target value resultType) else none
    | _ => none
  | _ => none

/-- The `matchAndRewrite` of a pattern: the replacement of the operation when
the pattern matches it. -/
def Pattern.matchAndRewrite : Pattern → Value → Option Value
  | .XorAllBitsSet => XorAllBitsSet.matchAndRewrite
  | .NotOfEq => NotOfEq.matchAndRewrite
  | .NotOfNeq => NotOfNeq.matchAndRewrite
  | .BooleanEqToXor => BooleanEqToXor.matchAndRewrite
  | .BooleanNeqToXor => BooleanNeqToXor.matchAndRewrite
  | .DynExtractSliceWithConstantOpStart => DynExtractSliceWithStart.matchAndRewrite .ConstantOp
  | .DynExtractSliceWithLLHDConstOpStart => DynExtractSliceWithStart.matchAndRewrite .LLHDConstOp
  | .DynExtractElementWithConstantOpIndex =>
    DynExtractElementWithIndex.matchAndRewrite .ConstantOp
  | .DynExtractElementWithLLHDConstOpIndex =>
    DynExtractElementWithIndex.matchAndRewrite .LLHDConstOp

/-- Modelled from the spec: the rewrite driver (an external collaborator)
offers an operation to a rule list in the listed order and applies the first
rule that matches. -/
def applyPatterns (patterns : OwningRewritePatternList) (op : Value) : Option Value :=
  patterns.findSome? (fun pattern => pattern.matchAndRewrite op)

/-- One visit of an operation: the rule list of its kind is applied to it;
`none` when no rule matches. -/
def canonicalize (op : Value) : Option Value :=
  match op.opKind with
  | some kind => applyPatterns (getCanonicalizationPatterns kind) op
  | none => none

/-- One rule application somewhere in the graph of a value: a rule of the
kind's list rewrites the operation itself, or an operation among those that
define its operands is rewritten. -/
inductive Step : Value → Value → Prop
  | root (kind : OpKind) (pattern : Pattern) (op op2 : Value) :
    op.opKind = some kind → pattern ∈ getCanonicalizationPatterns kind →
    pattern.matchAndRewrite op = some op2 → Step op op2
  | xorLhs (a a2 b : Value) : Step a a2 → Step (.xor a b) (.xor a2 b)
  | xorRhs (a b b2 : Value) : Step b b2 → Step (.xor a b) (.xor a b2)
  | notOperand (a a2 : Value) : Step a a2 → Step (.not a) (.not a2)
  | eqLhs (a a2 b : Value) : Step a a2 → Step (.eq a b) (.eq a2 b)
  | eqRhs (a b b2 : Value) : Step b b2 → Step (.eq a b) (.eq a b2)
  | neqLhs (a a2 b : Value) : Step a a2 → Step (.neq a b) (.neq a2 b)
  | neqRhs (a b b2 : Value) : Step b b2 → Step (.neq a b) (.neq a b2)
  | dynSliceTarget (t t2 s : Value) (ty : IRType) :
    Step t t2 → Step (.dynExtractSlice t s ty) (.dynExtractSlice t2 s ty)
  | dynSliceStart (t s s2 : Value) (ty : IRType) :
    Step s s2 → Step (.dynExtractSlice t s ty) (.dynExtractSlice t s2 ty)
  | dynElementTarget (t t2 s : Value) (ty : IRType) :
    Step t t2 → Step (.dynExtractElement t s ty) (.dynExtractElement t2 s ty)
  | dynElementIndex (t s s2 : Value) (ty : IRType) :
    Step s s2 → Step (.dynExtractElement t s ty) (.dynExtractElement t s2 ty)
  | sliceTarget (t t2 : Value) (k : Nat) (ty : IRType) :
    Step t t2 → Step (.extractSlice t k ty) (.extractSlice t2 k ty)
  | elementTarget (t t2 : Value) (k : Nat) (ty : IRType) :
    Step t t2 → Step (.extractElement t k ty) (.extractElement t2 k ty)

/-- A sequence of rule applications. -/
inductive Steps : Value → Value → Prop
  | refl (a : Value) : Steps a a
  | step (a b c : Value) : Step a b → Steps b c → Steps a c

/-- No rule matches the operation or any operation among those that define
its operands: the graph of the value is canonical. -/
def Value.isCanonical : Value → Bool
  | .blockArgument _ _ => true
  | .constant _ _ _ => true
  | .xor a b => (canonicalize (.xor a b)).isNone && a.isCanonical && b.isCanonical
  | .not a => (canonicalize (.not a)).isNone && a.isCanonical
  | .eq a b => (canonicalize (.eq a b)).isNone && a.isCanonical && b.isCanonical
  | .neq a b => (canonicalize (.neq a b)).isNone && a.isCanonical && b.isCanonical
  | .dynExtractSlice t s ty =>
    (canonicalize (.dynExtractSlice t s ty)).isNone && t.isCanonical && s.isCanonical
  | .dynExtractElement t s ty =>
    (canonicalize (.dynExtractElement t s ty)).isNone && t.isCanonical && s.isCanonical
  | .extractSlice t _ _ => t.isCanonical
  | .extractElement t _ _ => t.isCanonical

/-- The weight of a graph: every operation and leaf counts one, an EQ or NEQ
three. -/
def Value.weight : Value → Nat
  | .blockArgument _ _ => 1
  | .constant _ _ _ => 1
  | .xor a b => 1 + a.weight + b.weight
  | .not a => 1 + a.weight
  | .eq a b => 3 + a.weight + b.weight
  | .neq a b => 3 + a.weight + b.weight
  | .dynExtractSlice t s _ => 1 + t.weight + s.weight
  | .dynExtractElement t s _ => 1 + t.weight + s.weight
  | .extractSlice t _ _ => 1 + t.weight
  | .extractElement t _ _ => 1 + t.weight

/-! ## What the operations compute -/

/-- Modelled from the spec: bitwise XOR of two bit-vectors. -/
def evalXor (a b : Nat) : Nat := a ^^^ b

/-- Modelled from the spec: bitwise NOT of a bit-vector of `width` bits. -/
def evalNot (width : Nat) (a : Nat) : Nat := 2 ^ width - 1 - a

/-- Modelled from the spec: EQ, the single bit that is set when the operands
are equal. -/
def evalEq (a b : Nat) : Nat := if a = b then 1 else 0

/-- Modelled from the spec: NEQ, the single bit that is set when the operands
differ. -/
def evalNeq (a b : Nat) : Nat := if a = b then 0 else 1

/-- The bit width of a type (0 for a type that is not an integer). -/
def IRType.width : IRType → Nat
  | .integer width => width
  | .other _ => 0

/-- A number as a value of the type: cut to the width of an integer type. -/
def IRType.truncate : IRType → Nat → Nat
  | .integer width, v => v % 2 ^ width
  | .other _, v => v

/-- What slice and element extraction compute, left open: a function of the
value of the target, the start or index, and the result type.  The dynamic
and the static operation compute the same function. -/
structure ExtractSemantics where
  slice : Nat → Nat → IRType → Nat
  element : Nat → Nat → IRType → Nat

/-- Modelled from the spec: the number a value computes (the operations are
the bitwise and comparison operations their names say), given the numbers of
the block arguments. -/
def Value.eval (sem : ExtractSemantics) (env : Nat → Nat) : Value → Nat
  | .blockArgument index type => type.truncate (env index)
  | .constant _ value _ => value
  | .xor lhs rhs => evalXor (lhs.eval sem env) (rhs.eval sem env)
  | .not operand => evalNot operand.getType.width (operand.eval sem env)
  | .eq lhs rhs => evalEq (lhs.eval sem env) (rhs.eval sem env)
  | .neq lhs rhs => evalNeq (lhs.eval sem env) (rhs.eval sem env)
  | .dynExtractSlice target start resultType =>
    resultType.truncate (sem.slice (target.eval sem env) (start.eval sem env) resultType)
  | .dynExtractElement target index resultType =>
    resultType.truncate (sem.element (target.eval sem env) (index.eval sem env) resultType)
  | .extractSlice target start resultType =>
    resultType.truncate (sem.slice (target.eval sem env) start resultType)
  | .extractElement target index resultType =>
    resultType.truncate (sem.element (target.eval sem env) index resultType)

/-- The graph of a value is well typed: the operands of a XOR, EQ or NEQ have
the same type, and the literal of an integer constant fits its width. -/
def Value.wellTyped : Value → Bool
  | .blockArgument _ _ => true
  | .constant _ value type =>
    match type with
    | .integer width => decide (value < 2 ^ width)
    | .other _ => true
  | .xor lhs rhs => decide (lhs.getType = rhs.getType) && lhs.wellTyped && rhs.wellTyped
  | .not operand => operand.wellTyped
  | .eq lhs rhs => decide (lhs.getType = rhs.getType) && lhs.wellTyped && rhs.wellTyped
  | .neq lhs rhs => decide (lhs.getType = rhs.getType) && lhs.wellTyped && rhs.wellTyped
  | .dynExtractSlice target start _ => target.wellTyped && start.wellTyped
  | .dynExtractElement target index _ => target.wellTyped && index.wellTyped
  | .extractSlice target _ _ => target.wellTyped
  | .extractElement target _ _ => target.wellTyped

end LLHD

/-! # Theorems -/

namespace RTL

/-- C1: on an integer type `isRTLValueType` is true exactly when the type is
signless; signed and unsigned integer types are rejected at every width. -/
theorem isRTLValueType_integer_iff_signless (w : Nat) (sign : Signedness) :
    (isRTLValueType (.integer w sign) = true ↔ sign = .Signless) ∧
    isRTLValueType (.integer w .Signless) = true ∧
    isRTLValueType (.integer w .Signed) = false ∧
    isRTLValueType (.integer w .Unsigned) = false := by
  refine ⟨?_, rfl, rfl, rfl⟩
  cases sign <;> simp [isRTLValueType, Ty.dynCastInteger, Signedness.isSignless]

/-- C2: on a type that is not an integer type `isRTLValueType` is true
exactly when the type is an `ArrayType`, whatever its element type and size;
it is false on every `InOutType`, every struct type and every other type. -/
theorem isRTLValueType_non_integer (t : Ty) (h : t.dynCastInteger = none) :
    (isRTLValueType t = true ↔ ∃ e n, t = .array e n) ∧
    (isRTLValueType t = true ↔ t.isaArrayType = true) ∧
    (t.isaInOutType = true → isRTLValueType t = false) ∧
    (∀ e n, isRTLValueType (.array e n) = true) ∧
    (∀ e, isRTLValueType (.inout e) = false) ∧
    (∀ fs, isRTLValueType (.struct fs) = false) ∧
    (∀ name, isRTLValueType (.other name) = false) := by
  refine ⟨?_, ?_, ?_, fun _ _ => rfl, fun _ => rfl, fun _ => rfl, fun _ => rfl⟩
  · cases t <;> simp [isRTLValueType, Ty.dynCastInteger, Ty.isaArrayType] at h ⊢
  · cases t <;> simp [isRTLValueType, Ty.dynCastInteger, Ty.isaArrayType] at h ⊢
  · cases t <;> simp [isRTLValueType, Ty.dynCastInteger, Ty.isaArrayType, Ty.isaInOutType] at h ⊢

/-- Witness of C2 at an array type whose element is an inout type. -/
theorem isRTLValueType_non_integer_witness :
    (Ty.array (.inout (.integer 8 .Signless)) 3).dynCastInteger = none ∧
    (isRTLValueType (.array (.inout (.integer 8 .Signless)) 3) = true ↔
      ∃ e n, Ty.array (.inout (.integer 8 .Signless)) 3 = .array e n) ∧
    (isRTLValueType (.array (.inout (.integer 8 .Signless)) 3) = true ↔
      (Ty.array (.inout (.integer 8 .Signless)) 3).isaArrayType = true) :=
  ⟨rfl,
   (isRTLValueType_non_integer (.array (.inout (.integer 8 .Signless)) 3) rfl).1,
   (isRTLValueType_non_integer (.array (.inout (.integer 8 .Signless)) 3) rfl).2.1⟩

/-- C3: validated construction of an array or inout type, direct
(`getChecked`) or through `parse` once the raw shape is read, yields the type
exactly when `isRTLValueType inner` holds; otherwise the invalid-element
diagnostic is emitted and the result is the null type.  An array of 4
elements of `inout<i8>` is refused. -/
theorem validated_construction_iff_value_type (p : DialectAsmParser)
    (sA sA1 sI sI1 : ParserState) (d : Int) (inner : Ty) (size : Nat)
    (loc : Location) (diags : List Diagnostic)
    (hA : ArrayType.parseShape p sA = (some ([d], inner), sA1))
    (hI : InOutType.parseShape p sI = (some inner, sI1)) :
    (failed (ArrayType.verifyConstructionInvariants loc inner size diags).1 = false ↔
      isRTLValueType inner = true) ∧
    (failed (InOutType.verifyConstructionInvariants loc inner diags).1 = false ↔
      isRTLValueType inner = true) ∧
    ArrayType.getChecked loc inner size diags =
      (if isRTLValueType inner = true then (some (.array inner size), diags)
       else (none, diags ++ [⟨loc, "invalid element for rtl.array type"⟩])) ∧
    InOutType.getChecked loc inner diags =
      (if isRTLValueType inner = true then (some (.inout inner), diags)
       else (none, diags ++ [⟨loc, "invalid element for rtl.inout type"⟩])) ∧
    ArrayType.parse p sA =
      (if isRTLValueType inner = true then (some (.array inner (toSizeT d)), sA1)
       else (none, sA1.emitError (p.getEncodedSourceLoc (p.getCurrentLocation sA1))
              "invalid element for rtl.array type")) ∧
    InOutType.parse p sI =
      (if isRTLValueType inner = true then (some (.inout inner), sI1)
       else (none, sI1.emitError (p.getEncodedSourceLoc (p.getCurrentLocation sI1))
              "invalid element for rtl.inout type")) ∧
    ArrayType.getChecked loc (.inout (.integer 8 .Signless)) 4 diags =
      (none, diags ++ [⟨loc, "invalid element for rtl.array type"⟩]) := by
  refine ⟨?_, ?_, ?_, ?_, ?_, ?_, rfl⟩
  · cases hv : isRTLValueType inner <;>
      simp [ArrayType.verifyConstructionInvariants, hv, emitError, failed]
  · cases hv : isRTLValueType inner <;>
      simp [InOutType.verifyConstructionInvariants, hv, emitError, failed]
  · cases hv : isRTLValueType inner <;>
      simp [ArrayType.getChecked, ArrayType.verifyConstructionInvariants, hv, emitError,
        failed, ArrayType.get]
  · cases hv : isRTLValueType inner <;>
      simp [InOutType.getChecked, InOutType.verifyConstructionInvariants, hv, emitError,
        failed, InOutType.get]
  · cases hv : isRTLValueType inner <;>
      simp [ArrayType.parse, hA, ArrayType.verifyConstructionInvariants, hv, emitError,
        failed, ArrayType.get, ParserState.emitError]
  · cases hv : isRTLValueType inner <;>
      simp [InOutType.parse, hI, InOutType.verifyConstructionInvariants, hv, emitError,
        failed, InOutType.get, ParserState.emitError]

/-- Witness of C3: the host parser on `<4x!rtl.inout<i8>>` and on
`<!rtl.inout<i8>>`; the shape is read, the element `inout<i8>` is refused. -/
theorem validated_construction_iff_value_type_witness :
    ArrayType.parseShape
        (Host.mkParser int64Max 0 (Host.parseTypeWith (Host.parseDialectType int64Max 3)))
        ⟨"<4x!rtl.inout<i8>>".toList, 5, []⟩ =
      (some ([4], .inout (.integer 8 .Signless)), ⟨[], 23, []⟩) ∧
    InOutType.parseShape
        (Host.mkParser int64Max 0 (Host.parseTypeWith (Host.parseDialectType int64Max 3)))
        ⟨"<!rtl.inout<i8>>".toList, 5, []⟩ =
      (some (.inout (.integer 8 .Signless)), ⟨[], 21, []⟩) ∧
    ArrayType.parse
        (Host.mkParser int64Max 0 (Host.parseTypeWith (Host.parseDialectType int64Max 3)))
        ⟨"<4x!rtl.inout<i8>>".toList, 5, []⟩ =
      (none, ⟨[], 23, [⟨23, "invalid element for rtl.array type"⟩]⟩) ∧
    InOutType.parse
        (Host.mkParser int64Max 0 (Host.parseTypeWith (Host.parseDialectType int64Max 3)))
        ⟨"<!rtl.inout<i8>>".toList, 5, []⟩ =
      (none, ⟨[], 21, [⟨21, "invalid element for rtl.inout type"⟩]⟩) :=
  have h := validated_construction_iff_value_type
    (Host.mkParser int64Max 0 (Host.parseTypeWith (Host.parseDialectType int64Max 3)))
    ⟨"<4x!rtl.inout<i8>>".toList, 5, []⟩ ⟨[], 23, []⟩
    ⟨"<!rtl.inout<i8>>".toList, 5, []⟩ ⟨[], 21, []⟩
    4 (.inout (.integer 8 .Signless)) 4 0 [] (by decide) (by decide)
  ⟨by decide, by decide, h.2.2.2.2.1, h.2.2.2.2.2.1⟩

/-- C4: when the raw shape of an array type is read and its dimension list
does not have exactly one entry, `ArrayType::parse` emits the
one-dimension diagnostic at the name location and returns the null type. -/
theorem parse_rejects_dimension_count (p : DialectAsmParser) (s s1 : ParserState)
    (dims : List Int) (inner : Ty)
    (hShape : ArrayType.parseShape p s = (some (dims, inner), s1))
    (hDims : dims.length ≠ 1) :
    ArrayType.parse p s =
      (none, s1.emitError p.getNameLoc "rtl.array only supports one dimension") ∧
    (ArrayType.parse p s).1 ≠ some (ArrayType.get inner (toSizeT (dims.headD 0))) := by
  have h : ArrayType.parse p s =
      (none, s1.emitError p.getNameLoc "rtl.array only supports one dimension") := by
    simp [ArrayType.parse, hShape, hDims]
  exact ⟨h, by simp [h]⟩

/-- Witness of C4: the host parser on `array<2x3xi8>` (two dimensions) and on
`array<i8>` (none). -/
theorem parse_rejects_dimension_count_witness :
    ArrayType.parseShape
        (Host.mkParser int64Max 0 (Host.parseTypeWith (Host.parseDialectType int64Max 3)))
        ⟨"<2x3xi8>".toList, 5, []⟩ =
      (some ([2, 3], .integer 8 .Signless), ⟨[], 13, []⟩) ∧
    [(2 : Int), 3].length ≠ 1 ∧
    (ArrayType.parse
        (Host.mkParser int64Max 0 (Host.parseTypeWith (Host.parseDialectType int64Max 3)))
        ⟨"<2x3xi8>".toList, 5, []⟩ =
      (none, ⟨[], 13, [⟨0, "rtl.array only supports one dimension"⟩]⟩)) ∧
    Host.parse int64Max "array<2x3xi8>".toList =
      (none, ⟨[], 13, [⟨0, "rtl.array only supports one dimension"⟩]⟩) ∧
    Host.parse int64Max "array<i8>".toList =
      (none, ⟨[], 9, [⟨0, "rtl.array only supports one dimension"⟩]⟩) :=
  ⟨by decide, by decide,
   (parse_rejects_dimension_count
      (Host.mkParser int64Max 0 (Host.parseTypeWith (Host.parseDialectType int64Max 3)))
      ⟨"<2x3xi8>".toList, 5, []⟩ ⟨[], 13, []⟩ [2, 3] (.integer 8 .Signless)
      (by decide) (by decide)).1,
   by decide, by decide⟩

/-! ### Round trip through the textual form -/

/-- The digit characters are digits, with their value. -/
theorem Host.digitChar_facts : ∀ m, m < 10 →
    (Nat.digitChar m).isDigit = true ∧ Host.digitValue (Nat.digitChar m) = m := by
  decide

/-- The decimal digits of a number: a non-empty run of digits whose value is
the number. -/
theorem Host.toDigitsCore_spec (fuel : Nat) :
    ∀ (n : Nat) (ds : List Char), n < fuel →
      ∃ pre, Nat.toDigitsCore 10 fuel n ds = pre ++ ds ∧ pre ≠ [] ∧
        (∀ c ∈ pre, c.isDigit = true) ∧
        (∀ v, pre.foldl (fun v c => v * 10 + Host.digitValue c) v = v * 10 ^ pre.length + n) := by
  induction fuel with
  | zero => intro n ds h; omega
  | succ k ih =>
    intro n ds h
    have hd := Host.digitChar_facts (n % 10) (Nat.mod_lt _ (by decide))
    by_cases h0 : n / 10 = 0
    · refine ⟨[Nat.digitChar (n % 10)], ?_, by simp, ?_, ?_⟩
      · simp [Nat.toDigitsCore, h0]
      · intro c hc
        simp at hc
        rw [hc]; exact hd.1
      · intro v
        simp [hd.2]
        omega
    · obtain ⟨pre, h1, _, h3, h4⟩ := ih (n / 10) (Nat.digitChar (n % 10) :: ds) (by omega)
      refine ⟨pre ++ [Nat.digitChar (n % 10)], ?_, by simp, ?_, ?_⟩
      · simp [Nat.toDigitsCore, h0, h1]
      · intro c hc
        rw [List.mem_append] at hc
        rcases hc with hc | hc
        · exact h3 c hc
        · simp at hc
          rw [hc]; exact hd.1
      · intro v
        rw [List.foldl_append, h4 v]
        simp [hd.2, pow_succ]
        have := Nat.div_add_mod n 10
        ring_nf
        omega

/-- The decimal text of a number is a non-empty run of digits of that value. -/
theorem Host.toDigits_spec (n : Nat) :
    Nat.toDigits 10 n ≠ [] ∧ (∀ c ∈ Nat.toDigits 10 n, c.isDigit = true) ∧
      (∀ v, (Nat.toDigits 10 n).foldl (fun v c => v * 10 + Host.digitValue c) v =
        v * 10 ^ (Nat.toDigits 10 n).length + n) := by
  obtain ⟨pre, h1, h2, h3, h4⟩ := Host.toDigitsCore_spec (n + 1) n [] (by omega)
  have : Nat.toDigits 10 n = pre := by simp [Nat.toDigits, h1]
  rw [this]
  exact ⟨h2, h3, h4⟩

/-- Reading digits: the machine accumulates their value. -/
theorem Host.dimensionList_digits (allowDynamic : Bool) (maxDim : Nat) (ds : List Char) :
    ∀ (tail : List Char) (v : Nat) (dims : List Int), (∀ c ∈ ds, c.isDigit = true) →
      Host.dimensionList allowDynamic maxDim (ds ++ tail) (.integer v) dims =
        Host.dimensionList allowDynamic maxDim tail
          (.integer (ds.foldl (fun v c => v * 10 + Host.digitValue c) v)) dims := by
  induction ds with
  | nil => intro tail v dims _; rfl
  | cons c cs ih =>
    intro tail v dims h
    have hc : c.isDigit = true := h c (by simp)
    have hcs : ∀ c ∈ cs, c.isDigit = true := fun x hx => h x (by simp [hx])
    simp only [List.cons_append, Host.dimensionList, hc, if_true, List.foldl_cons]
    exact ih tail _ dims hcs

/-- One dimension `n x` in front of a text that starts neither with a digit
nor with `?` is read as the dimension list `[n]`. -/
theorem Host.dimensionList_one (maxDim n : Nat) (c0 : Char) (tail : List Char)
    (hn : n ≤ maxDim) (hc0 : c0.isDigit = false) (hq : c0 ≠ '?') :
    Host.dimensionList false maxDim (Nat.toDigits 10 n ++ 'x' :: c0 :: tail) .next [] =
      .ok ([(n : Int)], c0 :: tail) := by
  obtain ⟨hne, hdig, hval⟩ := Host.toDigits_spec n
  cases hds : Nat.toDigits 10 n with
  | nil => exact absurd hds hne
  | cons c cs =>
    rw [hds] at hdig hval
    have hc : c.isDigit = true := hdig c (by simp)
    have hcs : ∀ c ∈ cs, c.isDigit = true := fun x hx => hdig x (by simp [hx])
    have hv := hval 0
    simp only [List.foldl_cons, Nat.zero_mul, Nat.zero_add] at hv
    have hx : ('x' : Char).isDigit = false := by decide
    rw [List.cons_append]
    simp only [Host.dimensionList, hc, if_true]
    rw [Host.dimensionList_digits false maxDim cs _ _ _ hcs, hv]
    simp [Host.dimensionList, hx, hc0, hq, Nat.not_lt.2 hn]

/-- A run of digits ends at the first character that is not a digit. -/
theorem Host.takeWhile_digits (pre : List Char) (x : Char) (rest : List Char)
    (hpre : ∀ c ∈ pre, c.isDigit = true) (hx : x.isDigit = false) :
    (pre ++ x :: rest).takeWhile Char.isDigit = pre ∧
      (pre ++ x :: rest).dropWhile Char.isDigit = x :: rest := by
  induction pre with
  | nil => simp [List.takeWhile, List.dropWhile, hx]
  | cons c cs ih =>
    have hc : c.isDigit = true := hpre c (by simp)
    have hcs : ∀ c ∈ cs, c.isDigit = true := fun y hy => hpre y (by simp [hy])
    simp [List.takeWhile, List.dropWhile, hc, ih hcs]

/-- The width of an integer type is read back from its decimal text. -/
theorem Host.parseIntegerType_digits (sign : Signedness) (lead w : Nat) (x : Char)
    (rest : List Char) (s : ParserState) (hx : x.isDigit = false) :
    Host.parseIntegerType sign lead (Nat.toDigits 10 w ++ x :: rest) s =
      (some (.integer w sign),
        { s with input := x :: rest, pos := s.pos + lead + (Nat.toDigits 10 w).length }) := by
  obtain ⟨hne, hdig, hval⟩ := Host.toDigits_spec w
  obtain ⟨h1, h2⟩ := Host.takeWhile_digits _ x rest hdig hx
  have hv := hval 0
  simp only [Nat.zero_mul, Nat.zero_add] at hv
  simp [Host.parseIntegerType, h1, h2, hne, Host.decimalValue, hv]

/-- The mnemonic `array` is read up to the `<`. -/
theorem Host.parseKeyword_array (rest : List Char) (pos : Nat) (dg : List Diagnostic) :
    Host.parseKeyword ⟨'a' :: 'r' :: 'r' :: 'a' :: 'y' :: '<' :: rest, pos, dg⟩ =
      (some ['a', 'r', 'r', 'a', 'y'], ⟨'<' :: rest, pos + 5, dg⟩) := by
  have h1 : Host.isIdentStart 'a' = true := by decide
  have h2 : Host.isIdentChar 'r' = true := by decide
  have h3 : Host.isIdentChar 'a' = true := by decide
  have h4 : Host.isIdentChar 'y' = true := by decide
  have h5 : Host.isIdentChar '<' = false := by decide
  simp [Host.parseKeyword, List.takeWhile, List.dropWhile, h1, h2, h3, h4, h5]

/-- The mnemonic `inout` is read up to the `<`. -/
theorem Host.parseKeyword_inout (rest : List Char) (pos : Nat) (dg : List Diagnostic) :
    Host.parseKeyword ⟨'i' :: 'n' :: 'o' :: 'u' :: 't' :: '<' :: rest, pos, dg⟩ =
      (some ['i', 'n', 'o', 'u', 't'], ⟨'<' :: rest, pos + 5, dg⟩) := by
  have h1 : Host.isIdentStart 'i' = true := by decide
  have h2 : Host.isIdentChar 'n' = true := by decide
  have h3 : Host.isIdentChar 'o' = true := by decide
  have h4 : Host.isIdentChar 'u' = true := by decide
  have h6 : Host.isIdentChar 't' = true := by decide
  have h5 : Host.isIdentChar '<' = false := by decide
  simp [Host.parseKeyword, List.takeWhile, List.dropWhile, h1, h2, h3, h4, h5, h6]

/-- A non-negative `int64_t` converts to the same `size_t`. -/
theorem toSizeT_natCast (n : Nat) (h : n < 2 ^ 64) : toSizeT (n : Int) = n := by
  unfold toSizeT
  have h1 : ((n : Int) % 2 ^ 64) = (n : Int) := by
    apply Int.emod_eq_of_lt <;> omega
  rw [h1]
  exact Int.toNat_natCast n

/-- Host `parseDimensionList` on one dimension in front of an element type. -/
theorem Host.parseDimensionList_one (maxDim n : Nat) (c0 : Char) (tail : List Char)
    (pos : Nat) (dg : List Diagnostic)
    (hn : n ≤ maxDim) (hc0 : c0.isDigit = false) (hq : c0 ≠ '?') :
    Host.parseDimensionList maxDim false
        ⟨Nat.toDigits 10 n ++ 'x' :: c0 :: tail, pos, dg⟩ =
      (some [(n : Int)], ⟨c0 :: tail, pos + ((Nat.toDigits 10 n).length + 1), dg⟩) := by
  simp only [Host.parseDimensionList, Host.dimensionList_one maxDim n c0 tail hn hc0 hq]
  have : (Nat.toDigits 10 n ++ 'x' :: c0 :: tail).length - (c0 :: tail).length =
      (Nat.toDigits 10 n).length + 1 := by
    simp only [List.length_append, List.length_cons]
    omega
  rw [this]

/-- The body of an array type parses to the array type, given that its
element text parses to the element type. -/
theorem Host.parseDialectType_array (maxDim j : Nat) (e : Ty) (n : Nat) (c0 : Char)
    (tl : List Char)
    (hv : isRTLValueType e = true) (hn : n ≤ maxDim) (hn64 : n < 2 ^ 64)
    (hc0 : c0.isDigit = false) (hq : c0 ≠ '?')
    (hparse : ∀ rest pos dg,
      Host.parseTypeWith (fun loc s1 => Host.parseDialectType maxDim j loc s1)
        ⟨c0 :: tl ++ '>' :: rest, pos, dg⟩ =
        (some e, ⟨'>' :: rest, pos + (c0 :: tl).length, dg⟩))
    (rest : List Char) (pos : Nat) (dg : List Diagnostic) (loc : Location) :
    Host.parseDialectType maxDim (j + 1) loc
        ⟨['a', 'r', 'r', 'a', 'y', '<'] ++ Nat.toDigits 10 n ++ ['x'] ++ c0 :: tl ++ ['>']
          ++ rest, pos, dg⟩ =
      (some (.array e n),
        ⟨rest, pos + (['a', 'r', 'r', 'a', 'y', '<'] ++ Nat.toDigits 10 n ++ ['x'] ++ c0 :: tl
          ++ ['>']).length, dg⟩) := by
  have hin : ['a', 'r', 'r', 'a', 'y', '<'] ++ Nat.toDigits 10 n ++ ['x'] ++ c0 :: tl ++ ['>']
      ++ rest = 'a' :: 'r' :: 'r' :: 'a' :: 'y' :: '<' ::
        (Nat.toDigits 10 n ++ 'x' :: c0 :: (tl ++ '>' :: rest)) := by simp
  rw [hin]
  have hdim := fun p d => Host.parseDimensionList_one maxDim n c0 (tl ++ '>' :: rest) p d hn hc0 hq
  have hp := hparse rest (pos + 5 + 1 + ((Nat.toDigits 10 n).length + 1)) dg
  simp only [List.cons_append] at hp
  simp only [Host.parseDialectType, RTLDialect.parseType, Host.mkParser,
    Host.parseKeyword_array, generatedTypeParser, if_true, ArrayType.parse,
    ArrayType.parseShape, Host.parseToken, if_true, hdim, hp]
  simp [ArrayType.verifyConstructionInvariants, hv, failed,
    ArrayType.get, toSizeT_natCast n hn64]
  omega

/-- The body of an inout type parses to the inout type, given that its
element text parses to the element type. -/
theorem Host.parseDialectType_inout (maxDim j : Nat) (e : Ty) (c0 : Char)
    (tl : List Char) (hv : isRTLValueType e = true)
    (hparse : ∀ rest pos dg,
      Host.parseTypeWith (fun loc s1 => Host.parseDialectType maxDim j loc s1)
        ⟨c0 :: tl ++ '>' :: rest, pos, dg⟩ =
        (some e, ⟨'>' :: rest, pos + (c0 :: tl).length, dg⟩))
    (rest : List Char) (pos : Nat) (dg : List Diagnostic) (loc : Location) :
    Host.parseDialectType maxDim (j + 1) loc
        ⟨['i', 'n', 'o', 'u', 't', '<'] ++ c0 :: tl ++ ['>'] ++ rest, pos, dg⟩ =
      (some (.inout e),
        ⟨rest, pos + (['i', 'n', 'o', 'u', 't', '<'] ++ c0 :: tl ++ ['>']).length, dg⟩) := by
  have hin : ['i', 'n', 'o', 'u', 't', '<'] ++ c0 :: tl ++ ['>'] ++ rest =
      'i' :: 'n' :: 'o' :: 'u' :: 't' :: '<' :: c0 :: (tl ++ '>' :: rest) := by simp
  rw [hin]
  have hp := hparse rest (pos + 5 + 1) dg
  simp only [List.cons_append] at hp
  have hne : (['i', 'n', 'o', 'u', 't'] : List Char) ≠ ['a', 'r', 'r', 'a', 'y'] := by decide
  simp only [Host.parseDialectType, RTLDialect.parseType, Host.mkParser,
    Host.parseKeyword_inout, generatedTypeParser, if_true, if_neg hne, InOutType.parse,
    InOutType.parseShape, Host.parseToken, hp]
  simp [InOutType.verifyConstructionInvariants, hv, failed, InOutType.get]
  omega

/-- The body an array type prints as, given the text of its element. -/
theorem Host.printDialectType_array (j : Nat) (e : Ty) (n : Nat) (text : List Char)
    (hp : ∀ os, Host.printTypeWith (fun t os1 => Host.printDialectType j t os1) e os =
      some (os ++ text)) (os : OStream) :
    Host.printDialectType (j + 1) (.array e n) os =
      some (os ++ (['a', 'r', 'r', 'a', 'y', '<'] ++ Nat.toDigits 10 n ++ ['x'] ++ text
        ++ ['>'])) := by
  simp [Host.printDialectType, RTLDialect.printType, generatedTypePrinter, ArrayType.print, hp]

/-- The body an inout type prints as, given the text of its element. -/
theorem Host.printDialectType_inout (j : Nat) (e : Ty) (text : List Char)
    (hp : ∀ os, Host.printTypeWith (fun t os1 => Host.printDialectType j t os1) e os =
      some (os ++ text)) (os : OStream) :
    Host.printDialectType (j + 1) (.inout e) os =
      some (os ++ (['i', 'n', 'o', 'u', 't', '<'] ++ text ++ ['>'])) := by
  simp [Host.printDialectType, RTLDialect.printType, generatedTypePrinter, InOutType.print, hp]

/-- A value type that the constructors can produce, with sizes the dimension
parser accepts, prints as a text that the host parses back to the type. -/
theorem Host.valueType_roundtrip (maxDim : Nat) :
    ∀ (m : Nat) (e : Ty), e.depth ≤ m → isRTLValueType e = true →
      e.constructible = true → e.sizesWithin maxDim = true →
      ∃ c0 tl, c0.isDigit = false ∧ c0 ≠ '?' ∧ e.depth ≤ (c0 :: tl).length ∧
        (∀ j, e.depth ≤ j → ∀ os,
          Host.printTypeWith (fun t os1 => Host.printDialectType j t os1) e os =
            some (os ++ c0 :: tl)) ∧
        (∀ j, e.depth ≤ j → ∀ rest pos dg,
          Host.parseTypeWith (fun loc s1 => Host.parseDialectType maxDim j loc s1)
            ⟨c0 :: tl ++ '>' :: rest, pos, dg⟩ =
            (some e, ⟨'>' :: rest, pos + (c0 :: tl).length, dg⟩)) := by
  intro m
  induction m with
  | zero =>
    intro e hd hv hc hs
    cases e with
    | integer w sign =>
      cases sign <;> simp [isRTLValueType, Ty.dynCastInteger, Signedness.isSignless] at hv
      refine ⟨'i', Nat.toDigits 10 w, by decide, by decide, by simp [Ty.depth], ?_, ?_⟩
      · intro j _ os; simp [Host.printTypeWith]
      · intro j _ rest pos dg
        have hx : ('>' : Char).isDigit = false := by decide
        simp [Host.parseTypeWith, Host.parseIntegerType_digits _ _ _ _ _ _ hx]
        omega
    | array e n => simp [Ty.depth] at hd
    | inout e => simp [isRTLValueType, Ty.dynCastInteger, Ty.isaArrayType] at hv
    | struct fs => simp [isRTLValueType, Ty.dynCastInteger, Ty.isaArrayType] at hv
    | other name => simp [isRTLValueType, Ty.dynCastInteger, Ty.isaArrayType] at hv
  | succ k ih =>
    intro e hd hv hc hs
    cases e with
    | integer w sign =>
      cases sign <;> simp [isRTLValueType, Ty.dynCastInteger, Signedness.isSignless] at hv
      refine ⟨'i', Nat.toDigits 10 w, by decide, by decide, by simp [Ty.depth], ?_, ?_⟩
      · intro j _ os; simp [Host.printTypeWith]
      · intro j _ rest pos dg
        have hx : ('>' : Char).isDigit = false := by decide
        simp [Host.parseTypeWith, Host.parseIntegerType_digits _ _ _ _ _ _ hx]
        omega
    | inout e => simp [isRTLValueType, Ty.dynCastInteger, Ty.isaArrayType] at hv
    | struct fs => simp [isRTLValueType, Ty.dynCastInteger, Ty.isaArrayType] at hv
    | other name => simp [isRTLValueType, Ty.dynCastInteger, Ty.isaArrayType] at hv
    | array e n =>
      simp only [Ty.depth, Nat.add_le_add_iff_right] at hd
      simp only [Ty.constructible, Bool.and_eq_true, decide_eq_true_eq] at hc
      simp only [Ty.sizesWithin, Bool.and_eq_true, decide_eq_true_eq] at hs
      obtain ⟨c0, tl, hc0, hq, hlen, hprint, hparse⟩ := ih e hd hc.1.1 hc.1.2 hs.2
      refine ⟨'!', ['r', 't', 'l', '.'] ++ (['a', 'r', 'r', 'a', 'y', '<'] ++ Nat.toDigits 10 n
        ++ ['x'] ++ c0 :: tl ++ ['>']), by decide, by decide, ?_, ?_, ?_⟩
      · simp only [Ty.depth, List.length_cons, List.length_append] at hlen ⊢
        omega
      · intro j hj os
        obtain ⟨j1, rfl⟩ : ∃ j1, j = j1 + 1 := ⟨j - 1, by simp only [Ty.depth] at hj; omega⟩
        simp only [Ty.depth, Nat.add_le_add_iff_right] at hj
        simp only [Host.printTypeWith]
        rw [Host.printDialectType_array j1 e n (c0 :: tl) (hprint j1 hj)]
        simp
      · intro j hj rest pos dg
        obtain ⟨j1, rfl⟩ : ∃ j1, j = j1 + 1 := ⟨j - 1, by simp only [Ty.depth] at hj; omega⟩
        simp only [Ty.depth, Nat.add_le_add_iff_right] at hj
        have hbody := Host.parseDialectType_array maxDim j1 e n c0 tl hc.1.1 hs.1 hc.2 hc0 hq
          (hparse j1 hj) ('>' :: rest) (pos + 5) dg pos
        simp only [Host.parseTypeWith, List.cons_append, List.append_assoc, List.nil_append,
          List.singleton_append] at hbody ⊢
        rw [hbody]
        simp only [List.length_cons, List.length_append, List.length_nil, Prod.mk.injEq,
          ParserState.mk.injEq, true_and, and_true]
        omega

/-- A dimension above the parser's range is refused. -/
theorem Host.parseDimensionList_too_large (maxDim n : Nat) (tail : List Char)
    (pos : Nat) (dg : List Diagnostic) (hn : maxDim < n) :
    Host.parseDimensionList maxDim false ⟨Nat.toDigits 10 n ++ 'x' :: tail, pos, dg⟩ =
      (none, ⟨Nat.toDigits 10 n ++ 'x' :: tail, pos, dg ++ [⟨pos, "invalid dimension"⟩]⟩) := by
  obtain ⟨hne, hdig, hval⟩ := Host.toDigits_spec n
  have hdim : Host.dimensionList false maxDim (Nat.toDigits 10 n ++ 'x' :: tail) .next [] =
      .error "invalid dimension" := by
    cases hds : Nat.toDigits 10 n with
    | nil => exact absurd hds hne
    | cons c cs =>
      rw [hds] at hdig hval
      have hc : c.isDigit = true := hdig c (by simp)
      have hcs : ∀ c ∈ cs, c.isDigit = true := fun x hx => hdig x (by simp [hx])
      have hv := hval 0
      simp only [List.foldl_cons, Nat.zero_mul, Nat.zero_add] at hv
      have hx : ('x' : Char).isDigit = false := by decide
      rw [List.cons_append]
      simp only [Host.dimensionList, hc, if_true]
      rw [Host.dimensionList_digits false maxDim cs _ _ _ hcs, hv]
      simp [Host.dimensionList, hx, hn]
  simp [Host.parseDimensionList, hdim, ParserState.emitError]

/-- An array text whose size is above the parser's range does not parse. -/
theorem Host.parse_array_too_large (maxDim n : Nat) (tail : List Char) (hn : maxDim < n) :
    (Host.parse maxDim
      ('a' :: 'r' :: 'r' :: 'a' :: 'y' :: '<' :: (Nat.toDigits 10 n ++ 'x' :: tail))).1 =
      none := by
  simp only [Host.parse, Host.parseDialectType, RTLDialect.parseType, Host.mkParser,
    Host.parseKeyword_array, generatedTypeParser, if_true, ArrayType.parse,
    ArrayType.parseShape, Host.parseToken, if_true,
    Host.parseDimensionList_too_large maxDim n _ _ _ hn]

/-- C5, as the code has it: an array or inout type that the constructors can
produce and whose array sizes, at every depth, are within the range of the
host's dimension parser prints as a text that parses back to the same type,
consuming the whole text and emitting no diagnostic. -/
theorem roundtrip_within_dimension_range (maxDim : Nat) (t : Ty)
    (hkind : t.isaArrayType = true ∨ t.isaInOutType = true)
    (hvalid : t.constructible = true) (hsizes : t.sizesWithin maxDim = true) :
    ∃ text, Host.print t = some text ∧
      Host.parse maxDim text = (some t, ⟨[], text.length, []⟩) := by
  cases t with
  | integer w sign => simp [Ty.isaArrayType, Ty.isaInOutType] at hkind
  | struct fs => simp [Ty.isaArrayType, Ty.isaInOutType] at hkind
  | other name => simp [Ty.isaArrayType, Ty.isaInOutType] at hkind
  | array e n =>
    simp only [Ty.constructible, Bool.and_eq_true, decide_eq_true_eq] at hvalid
    simp only [Ty.sizesWithin, Bool.and_eq_true, decide_eq_true_eq] at hsizes
    obtain ⟨c0, tl, hc0, hq, hlen, hprint, hparse⟩ :=
      Host.valueType_roundtrip maxDim e.depth e (Nat.le_refl _) hvalid.1.1 hvalid.1.2 hsizes.2
    refine ⟨['a', 'r', 'r', 'a', 'y', '<'] ++ Nat.toDigits 10 n ++ ['x'] ++ c0 :: tl ++ ['>'],
      ?_, ?_⟩
    · simp only [Host.print, Ty.depth]
      rw [Host.printDialectType_array e.depth e n (c0 :: tl) (hprint e.depth (Nat.le_refl _))]
      simp
    · have hfuel : e.depth ≤ (['a', 'r', 'r', 'a', 'y', '<'] ++ Nat.toDigits 10 n ++ ['x']
          ++ c0 :: tl ++ ['>']).length := by
        simp only [List.length_cons, List.length_append] at hlen ⊢
        omega
      have h := Host.parseDialectType_array maxDim _ e n c0 tl hvalid.1.1 hsizes.1 hvalid.2
        hc0 hq (hparse _ hfuel) [] 0 [] 0
      simp only [List.append_nil, Nat.zero_add] at h
      exact h
  | inout e =>
    simp only [Ty.constructible, Bool.and_eq_true] at hvalid
    simp only [Ty.sizesWithin] at hsizes
    obtain ⟨c0, tl, hc0, hq, hlen, hprint, hparse⟩ :=
      Host.valueType_roundtrip maxDim e.depth e (Nat.le_refl _) hvalid.1 hvalid.2 hsizes
    refine ⟨['i', 'n', 'o', 'u', 't', '<'] ++ c0 :: tl ++ ['>'], ?_, ?_⟩
    · simp only [Host.print, Ty.depth]
      rw [Host.printDialectType_inout e.depth e (c0 :: tl) (hprint e.depth (Nat.le_refl _))]
      simp
    · have hfuel : e.depth ≤ (['i', 'n', 'o', 'u', 't', '<'] ++ c0 :: tl ++ ['>']).length := by
        simp only [List.length_cons, List.length_append] at hlen ⊢
        omega
      have h := Host.parseDialectType_inout maxDim _ e c0 tl hvalid.1
        (hparse _ hfuel) [] 0 [] 0
      simp only [List.append_nil, Nat.zero_add] at h
      exact h

/-- Witness of C5 (amended) at `inout<array<12 x array<0 x i8>>>` with the
dimension range of `int64_t`. -/
theorem roundtrip_within_dimension_range_witness :
    ((Ty.inout (.array (.array (.integer 8 .Signless) 0) 12)).isaArrayType = true ∨
      (Ty.inout (.array (.array (.integer 8 .Signless) 0) 12)).isaInOutType = true) ∧
    (Ty.inout (.array (.array (.integer 8 .Signless) 0) 12)).constructible = true ∧
    (Ty.inout (.array (.array (.integer 8 .Signless) 0) 12)).sizesWithin int64Max = true ∧
    ∃ text, Host.print (.inout (.array (.array (.integer 8 .Signless) 0) 12)) = some text ∧
      Host.parse int64Max text =
        (some (.inout (.array (.array (.integer 8 .Signless) 0) 12)), ⟨[], text.length, []⟩) :=
  ⟨by decide, by decide, by decide,
   roundtrip_within_dimension_range int64Max
     (.inout (.array (.array (.integer 8 .Signless) 0) 12)) (by decide) (by decide) (by decide)⟩

/-- C5 fails as stated: `array<9223372036854775808 x i8>` (size 2^63, a
`size_t`) passes the construction invariants and prints, but its text does
not parse: the size does not fit the `int64_t` dimension list, whatever
range at most `int64Max` the host's dimension parser has. -/
theorem roundtrip_fails_beyond_int64 :
    (Ty.array (.integer 8 .Signless) (2 ^ 63)).isaArrayType = true ∧
    (Ty.array (.integer 8 .Signless) (2 ^ 63)).constructible = true ∧
    (ArrayType.getChecked 0 (.integer 8 .Signless) (2 ^ 63) []).1 =
      some (.array (.integer 8 .Signless) (2 ^ 63)) ∧
    Host.print (.array (.integer 8 .Signless) (2 ^ 63)) =
      some "array<9223372036854775808xi8>".toList ∧
    (Host.parse int64Max "array<9223372036854775808xi8>".toList).1 = none ∧
    (∀ maxDim, maxDim ≤ int64Max →
      (Host.parse maxDim "array<9223372036854775808xi8>".toList).1 = none) := by
  refine ⟨by decide, by decide, by decide, by decide, by decide, ?_⟩
  intro maxDim hmax
  have htext : "array<9223372036854775808xi8>".toList =
      'a' :: 'r' :: 'r' :: 'a' :: 'y' :: '<' :: (Nat.toDigits 10 (2 ^ 63) ++ 'x' :: ['i', '8', '>']) := by
    decide
  have hlt : maxDim < 2 ^ 63 := by
    have : int64Max = 2 ^ 63 - 1 := rfl
    omega
  rw [htext]
  exact Host.parse_array_too_large maxDim (2 ^ 63) _ hlt

/-! ### Printing -/

/-- What a printer writes does not depend on what the stream already holds. -/
theorem Host.printDialectType_appends (fuel : Nat) :
    ∀ (t : Ty) (os : OStream),
      Host.printDialectType fuel t os =
        (Host.printDialectType fuel t []).map (fun out => os ++ out) := by
  induction fuel with
  | zero => intro t os; simp [Host.printDialectType]
  | succ k ih =>
    have hB : ∀ (t : Ty) (os : OStream),
        Host.printTypeWith (fun t os1 => Host.printDialectType k t os1) t os =
          (Host.printTypeWith (fun t os1 => Host.printDialectType k t os1) t []).map
            (fun out => os ++ out) := by
      intro t os
      cases t with
      | integer w sign => cases sign <;> simp [Host.printTypeWith]
      | other name => simp [Host.printTypeWith]
      | array e n =>
        simp only [Host.printTypeWith]
        rw [ih _ (os ++ _), ih _ ([] ++ _)]
        cases Host.printDialectType k (.array e n) [] <;> simp
      | inout e =>
        simp only [Host.printTypeWith]
        rw [ih _ (os ++ _), ih _ ([] ++ _)]
        cases Host.printDialectType k (.inout e) [] <;> simp
      | struct fs =>
        simp only [Host.printTypeWith]
        rw [ih _ (os ++ _), ih _ ([] ++ _)]
        cases Host.printDialectType k (.struct fs) [] <;> simp
    intro t os
    cases t with
    | integer w sign =>
      simp [Host.printDialectType, RTLDialect.printType, generatedTypePrinter]
    | other name =>
      simp [Host.printDialectType, RTLDialect.printType, generatedTypePrinter]
    | struct fs =>
      simp [Host.printDialectType, RTLDialect.printType, generatedTypePrinter]
    | array e n =>
      simp only [Host.printDialectType, RTLDialect.printType, generatedTypePrinter,
        ArrayType.print]
      rw [hB e (os ++ _ ++ _ ++ _), hB e ([] ++ _ ++ _ ++ _)]
      cases Host.printTypeWith (fun t os1 => Host.printDialectType k t os1) e [] <;> simp
    | inout e =>
      simp only [Host.printDialectType, RTLDialect.printType, generatedTypePrinter,
        InOutType.print]
      rw [hB e (os ++ _), hB e ([] ++ _)]
      cases Host.printTypeWith (fun t os1 => Host.printDialectType k t os1) e [] <;> simp

/-- The host's `printType` likewise only appends. -/
theorem Host.printTypeWith_appends (fuel : Nat) (t : Ty) (os : OStream) :
    Host.printTypeWith (fun t os1 => Host.printDialectType fuel t os1) t os =
      (Host.printTypeWith (fun t os1 => Host.printDialectType fuel t os1) t []).map
        (fun out => os ++ out) := by
  cases t with
  | integer w sign => cases sign <;> simp [Host.printTypeWith]
  | other name => simp [Host.printTypeWith]
  | array e n =>
    simp only [Host.printTypeWith]
    rw [Host.printDialectType_appends fuel _ (os ++ _),
      Host.printDialectType_appends fuel _ ([] ++ _)]
    cases Host.printDialectType fuel (.array e n) [] <;> simp
  | inout e =>
    simp only [Host.printTypeWith]
    rw [Host.printDialectType_appends fuel _ (os ++ _),
      Host.printDialectType_appends fuel _ ([] ++ _)]
    cases Host.printDialectType fuel (.inout e) [] <;> simp
  | struct fs =>
    simp only [Host.printTypeWith]
    rw [Host.printDialectType_appends fuel _ (os ++ _),
      Host.printDialectType_appends fuel _ ([] ++ _)]
    cases Host.printDialectType fuel (.struct fs) [] <;> simp

/-- C6: `ArrayType::print` writes `array<`, the size in decimal, `x`, the
printed form of the element type and `>`; `InOutType::print` writes `inout<`,
the printed form of the element type and `>`.  This holds for every printer,
and so for the host printer. -/
theorem print_emits_textual_form (p : DialectAsmPrinter) (e : Ty) (n : Nat)
    (os : OStream) :
    ArrayType.print p e n os =
      (p.printType e (os ++ "array<".toList ++ (Nat.repr n).toList ++ "x".toList)).map
        (fun out => out ++ ">".toList) ∧
    InOutType.print p e os =
      (p.printType e (os ++ "inout<".toList)).map (fun out => out ++ ">".toList) ∧
    Host.print (.array e n) =
      (Host.printType e).map
        (fun inner => "array<".toList ++ (Nat.repr n).toList ++ "x".toList ++ inner
          ++ ">".toList) ∧
    Host.print (.inout e) =
      (Host.printType e).map (fun inner => "inout<".toList ++ inner ++ ">".toList) := by
  have hrepr : (Nat.repr n).toList = Nat.toDigits 10 n := rfl
  have h1 : "array<".toList = ['a', 'r', 'r', 'a', 'y', '<'] := rfl
  have h2 : "inout<".toList = ['i', 'n', 'o', 'u', 't', '<'] := rfl
  have h3 : "x".toList = ['x'] := rfl
  have h4 : ">".toList = ['>'] := rfl
  rw [hrepr, h1, h2, h3, h4]
  refine ⟨?_, ?_, ?_, ?_⟩
  · simp only [ArrayType.print]
    cases p.printType e (os ++ ['a', 'r', 'r', 'a', 'y', '<'] ++ Nat.toDigits 10 n ++ ['x']) <;>
      rfl
  · simp only [InOutType.print]
    cases p.printType e (os ++ ['i', 'n', 'o', 'u', 't', '<']) <;> rfl
  · simp only [Host.print, Host.printType, Ty.depth, Host.printDialectType,
      RTLDialect.printType, generatedTypePrinter, ArrayType.print]
    rw [Host.printTypeWith_appends e.depth e ([] ++ _ ++ _ ++ _)]
    cases Host.printTypeWith (fun t os1 => Host.printDialectType e.depth t os1) e [] <;> simp
  · simp only [Host.print, Host.printType, Ty.depth, Host.printDialectType,
      RTLDialect.printType, generatedTypePrinter, InOutType.print]
    rw [Host.printTypeWith_appends e.depth e ([] ++ _)]
    cases Host.printTypeWith (fun t os1 => Host.printDialectType e.depth t os1) e [] <;> simp

/-! ### Identity of constructed types -/

/-- A successful `ArrayType::getChecked` returns the array type of its key. -/
theorem ArrayType.getChecked_some_array (loc : Location) (e : Ty) (n : Nat)
    (diags : List Diagnostic) (t : Ty)
    (h : (ArrayType.getChecked loc e n diags).1 = some t) : t = .array e n := by
  cases hv : isRTLValueType e <;>
    simp [ArrayType.getChecked, ArrayType.verifyConstructionInvariants, hv, emitError,
      failed, ArrayType.get] at h
  exact h.symm

/-- A successful `InOutType::getChecked` returns the inout type of its key. -/
theorem InOutType.getChecked_some_inout (loc : Location) (e : Ty)
    (diags : List Diagnostic) (t : Ty)
    (h : (InOutType.getChecked loc e diags).1 = some t) : t = .inout e := by
  cases hv : isRTLValueType e <;>
    simp [InOutType.getChecked, InOutType.verifyConstructionInvariants, hv, emitError,
      failed, InOutType.get] at h
  exact h.symm

/-- Distinct `int64_t` values convert to distinct `size_t` values. -/
theorem toSizeT_inj_int64 (a b : Int) (ha : -(2 ^ 63) ≤ a) (ha2 : a ≤ (int64Max : Int))
    (hb : -(2 ^ 63) ≤ b) (hb2 : b ≤ (int64Max : Int)) (h : toSizeT a = toSizeT b) : a = b := by
  have h64 : ((int64Max : Nat) : Int) = 2 ^ 63 - 1 := by decide
  unfold toSizeT at h
  omega

/-- A successful `ArrayType::parse` returns the array type of the shape read. -/
theorem ArrayType.parse_some_array (p : DialectAsmParser) (s s1 : ParserState) (d : Int)
    (e t : Ty) (hs : ArrayType.parseShape p s = (some ([d], e), s1))
    (h : (ArrayType.parse p s).1 = some t) : t = .array e (toSizeT d) := by
  cases hv : isRTLValueType e <;>
    simp [ArrayType.parse, hs, ArrayType.verifyConstructionInvariants, hv, emitError,
      failed, ArrayType.get] at h
  exact h.symm

/-- A successful `InOutType::parse` returns the inout type of the shape read. -/
theorem InOutType.parse_some_inout (p : DialectAsmParser) (s s1 : ParserState)
    (e t : Ty) (hs : InOutType.parseShape p s = (some e, s1))
    (h : (InOutType.parse p s).1 = some t) : t = .inout e := by
  cases hv : isRTLValueType e <;>
    simp [InOutType.parse, hs, InOutType.verifyConstructionInvariants, hv, emitError,
      failed, InOutType.get] at h
  exact h.symm

/-- The instance a construction returns is the first one held under the
descriptor asked for. -/
theorem MLIRContext.getOrCreate_indexOf (ctxt : MLIRContext) (t : Ty) :
    (ctxt.getOrCreate t).1 = (ctxt.getOrCreate t).2.instances.indexOf t ∧
      t ∈ (ctxt.getOrCreate t).2.instances := by
  unfold MLIRContext.getOrCreate
  by_cases h : t ∈ ctxt.instances
  · simp [h]
  · simp only [h, if_false]
    refine ⟨?_, by simp⟩
    rw [List.indexOf_append_of_not_mem h]
    simp

/-- A construction only adds to the registry. -/
theorem MLIRContext.getOrCreate_extends (ctxt : MLIRContext) (t : Ty) :
    ctxt.instances <+: (ctxt.getOrCreate t).2.instances := by
  unfold MLIRContext.getOrCreate
  by_cases h : t ∈ ctxt.instances
  · simp [h]
  · simp [h]

/-- A construction never puts a second instance under a descriptor. -/
theorem MLIRContext.getOrCreate_nodup (ctxt : MLIRContext) (t : Ty)
    (hn : ctxt.instances.Nodup) : (ctxt.getOrCreate t).2.instances.Nodup := by
  unfold MLIRContext.getOrCreate
  by_cases h : t ∈ ctxt.instances
  · simpa [h] using hn
  · simp only [h, if_false]
    exact List.Nodup.append hn (List.nodup_singleton t)
      (by simpa [List.disjoint_singleton] using h)

/-- A later context holds every earlier instance in its place. -/
theorem MLIRContext.Later.instances_extend (a b : MLIRContext) (h : MLIRContext.Later a b) :
    a.instances <+: b.instances := by
  induction h with
  | refl => exact List.prefix_refl _
  | step later t _ ih => exact List.IsPrefix.trans ih (MLIRContext.getOrCreate_extends later t)

/-- Every context reached from a registry without duplicates has none. -/
theorem MLIRContext.Later.instances_nodup (a b : MLIRContext) (h : MLIRContext.Later a b)
    (hn : a.instances.Nodup) : b.instances.Nodup := by
  induction h with
  | refl => exact hn
  | step later t _ ih => exact MLIRContext.getOrCreate_nodup later t ih

/-- Being later is transitive. -/
theorem MLIRContext.Later.transitive (a b c : MLIRContext) (h1 : MLIRContext.Later a b)
    (h2 : MLIRContext.Later b c) : MLIRContext.Later a c := by
  induction h2 with
  | refl => exact h1
  | step later t _ ih => exact MLIRContext.Later.step a later t ih

/-- Adding new, distinct descriptors one by one gives a later context. -/
theorem MLIRContext.Later.of_append_nodup (ts : List Ty) :
    ∀ ctxt : MLIRContext, (ctxt.instances ++ ts).Nodup →
      MLIRContext.Later ctxt ⟨ctxt.instances ++ ts⟩ := by
  induction ts with
  | nil => intro ctxt _; simpa using MLIRContext.Later.refl ctxt
  | cons t rest ih =>
    intro ctxt hn
    have hnot : t ∉ ctxt.instances := by
      intro hmem
      have := List.nodup_append.1 hn
      exact this.2.2 hmem (List.mem_cons_self t rest)
    have hstep : (ctxt.getOrCreate t).2 = ⟨ctxt.instances ++ [t]⟩ := by
      simp [MLIRContext.getOrCreate, hnot]
    have h1 : MLIRContext.Later ctxt ⟨ctxt.instances ++ [t]⟩ := by
      rw [← hstep]
      exact MLIRContext.Later.step ctxt ctxt t (MLIRContext.Later.refl ctxt)
    have h2 := ih ⟨ctxt.instances ++ [t]⟩ (by simpa using hn)
    have h3 : (⟨(ctxt.instances ++ [t]) ++ rest⟩ : MLIRContext) = ⟨ctxt.instances ++ t :: rest⟩ := by
      simp
    rw [h3] at h2
    exact MLIRContext.Later.transitive _ _ _ h1 h2

/-- The instance a construction returned is, in every later context, the first
and only place its descriptor is looked up at. -/
theorem MLIRContext.constructed_indexOf (ctxt final : MLIRContext) (t : Ty)
    (hlater : MLIRContext.Later (ctxt.getOrCreate t).2 final) :
    (ctxt.getOrCreate t).1 = final.instances.indexOf t ∧ t ∈ final.instances := by
  obtain ⟨rest, hrest⟩ := MLIRContext.Later.instances_extend _ _ hlater
  obtain ⟨hidx, hmem⟩ := MLIRContext.getOrCreate_indexOf ctxt t
  rw [← hrest, List.indexOf_append_of_mem hmem]
  exact ⟨hidx, List.mem_append_left _ hmem⟩

/-- Two constructed instances are the same exactly when their descriptors are
equal. -/
theorem MLIRContext.constructed_eq_iff (c1 c2 final : MLIRContext) (t u : Ty)
    (h1 : MLIRContext.Later (c1.getOrCreate t).2 final)
    (h2 : MLIRContext.Later (c2.getOrCreate u).2 final) :
    (c1.getOrCreate t).1 = (c2.getOrCreate u).1 ↔ t = u := by
  obtain ⟨hi, hm⟩ := MLIRContext.constructed_indexOf c1 final t h1
  obtain ⟨hj, hn⟩ := MLIRContext.constructed_indexOf c2 final u h2
  rw [hi, hj]
  exact List.indexOf_inj hm hn

/-- A constructed instance is held under its descriptor in every later
context. -/
theorem MLIRContext.constructed_descriptorOf (ctxt final : MLIRContext) (t : Ty)
    (hlater : MLIRContext.Later (ctxt.getOrCreate t).2 final) :
    final.descriptorOf (ctxt.getOrCreate t).1 = some t := by
  obtain ⟨hi, hm⟩ := MLIRContext.constructed_indexOf ctxt final t hlater
  rw [hi]
  exact List.getElem?_indexOf hm

/-- A later request for the descriptor of a constructed instance returns that
instance and creates nothing. -/
theorem MLIRContext.getOrCreate_again (ctxt later : MLIRContext) (t : Ty)
    (hlater : MLIRContext.Later (ctxt.getOrCreate t).2 later) :
    later.getOrCreate t = ((ctxt.getOrCreate t).1, later) := by
  obtain ⟨hi, hm⟩ := MLIRContext.constructed_indexOf ctxt later t hlater
  rw [hi]
  simp [MLIRContext.getOrCreate, hm]

/-- In a context reached from the empty registry two instances are the same
exactly when they are held under equal descriptors. -/
theorem MLIRContext.instance_eq_iff (ctxt : MLIRContext)
    (hreach : MLIRContext.Later ⟨[]⟩ ctxt) (i j : TypeInstance) (t u : Ty)
    (hi : ctxt.descriptorOf i = some t) (hj : ctxt.descriptorOf j = some u) :
    i = j ↔ t = u := by
  have hn : ctxt.instances.Nodup :=
    MLIRContext.Later.instances_nodup ⟨[]⟩ ctxt hreach List.nodup_nil
  constructor
  · intro h
    subst h
    rw [hi] at hj
    exact Option.some.inj hj
  · intro h
    subst h
    unfold MLIRContext.descriptorOf at hi hj
    have hlt : i < ctxt.instances.length := by
      rcases Nat.lt_or_ge i ctxt.instances.length with hlt | hge
      · exact hlt
      · rw [List.getElem?_eq_none hge] at hi
        cases hi
    exact List.getElem?_inj hlt hn (hi.trans hj.symm)

/-- A successful `getChecked` in a context is `get` of the array descriptor,
on an element that is a value type. -/
theorem ArrayType.getCheckedIn_some_array (ctxt c1 : MLIRContext) (loc : Location) (e : Ty)
    (n : Nat) (d d1 : List Diagnostic) (i : TypeInstance)
    (h : ArrayType.getCheckedIn ctxt loc e n d = (some i, c1, d1)) :
    isRTLValueType e = true ∧ i = (ctxt.getOrCreate (.array e n)).1 ∧
      c1 = (ctxt.getOrCreate (.array e n)).2 := by
  cases hv : isRTLValueType e <;>
    simp [ArrayType.getCheckedIn, ArrayType.verifyConstructionInvariants, hv, emitError,
      failed, ArrayType.getIn, ArrayType.get] at h
  exact ⟨rfl, h.1.symm, h.2.1.symm⟩

/-- A successful `getChecked` in a context is `get` of the inout descriptor,
on an element that is a value type. -/
theorem InOutType.getCheckedIn_some_inout (ctxt c1 : MLIRContext) (loc : Location) (e : Ty)
    (d d1 : List Diagnostic) (i : TypeInstance)
    (h : InOutType.getCheckedIn ctxt loc e d = (some i, c1, d1)) :
    isRTLValueType e = true ∧ i = (ctxt.getOrCreate (.inout e)).1 ∧
      c1 = (ctxt.getOrCreate (.inout e)).2 := by
  cases hv : isRTLValueType e <;>
    simp [InOutType.getCheckedIn, InOutType.verifyConstructionInvariants, hv, emitError,
      failed, InOutType.getIn, InOutType.get] at h
  exact ⟨rfl, h.1.symm, h.2.1.symm⟩

/-- A successful `ArrayType::parse` in a context is `get` of the array
descriptor made of the shape read. -/
theorem ArrayType.parseIn_some_array (ctxt c1 : MLIRContext) (p : DialectAsmParser)
    (s s1 s2 : ParserState) (k : Int) (e : Ty) (i : TypeInstance)
    (hs : ArrayType.parseShape p s = (some ([k], e), s1))
    (h : ArrayType.parseIn ctxt p s = (some i, c1, s2)) :
    isRTLValueType e = true ∧ i = (ctxt.getOrCreate (.array e (toSizeT k))).1 ∧
      c1 = (ctxt.getOrCreate (.array e (toSizeT k))).2 := by
  cases hv : isRTLValueType e <;>
    simp [ArrayType.parseIn, hs, ArrayType.verifyConstructionInvariants, hv, emitError,
      failed, ArrayType.getIn, ArrayType.get] at h
  exact ⟨rfl, h.1.symm, h.2.1.symm⟩

/-- A successful `InOutType::parse` in a context is `get` of the inout
descriptor made of the shape read. -/
theorem InOutType.parseIn_some_inout (ctxt c1 : MLIRContext) (p : DialectAsmParser)
    (s s1 s2 : ParserState) (e : Ty) (i : TypeInstance)
    (hs : InOutType.parseShape p s = (some e, s1))
    (h : InOutType.parseIn ctxt p s = (some i, c1, s2)) :
    isRTLValueType e = true ∧ i = (ctxt.getOrCreate (.inout e)).1 ∧
      c1 = (ctxt.getOrCreate (.inout e)).2 := by
  cases hv : isRTLValueType e <;>
    simp [InOutType.parseIn, hs, InOutType.verifyConstructionInvariants, hv, emitError,
      failed, InOutType.getIn, InOutType.get] at h
  exact ⟨rfl, h.1.symm, h.2.1.symm⟩

/-- The type `ArrayType::parse` returns is the descriptor of the instance it
returns in a context, and it fails in a context exactly when it fails. -/
theorem ArrayType.parseIn_parse (ctxt : MLIRContext) (p : DialectAsmParser)
    (s : ParserState) :
    (ArrayType.parseIn ctxt p s).2.2 = (ArrayType.parse p s).2 ∧
    match (ArrayType.parse p s).1 with
    | none => (ArrayType.parseIn ctxt p s).1 = none ∧ (ArrayType.parseIn ctxt p s).2.1 = ctxt
    | some t => (ArrayType.parseIn ctxt p s).1 = some (ctxt.getOrCreate t).1 ∧
        (ArrayType.parseIn ctxt p s).2.1 = (ctxt.getOrCreate t).2 := by
  unfold ArrayType.parseIn ArrayType.parse
  cases hs : ArrayType.parseShape p s with
  | mk r s1 =>
    cases r with
    | none => simp
    | some shape =>
      obtain ⟨dims, inner⟩ := shape
      by_cases hd : dims.length = 1
      · cases hv : isRTLValueType inner <;>
          simp [hd, ArrayType.verifyConstructionInvariants, hv, emitError, failed,
            ArrayType.getIn]
      · simp [hd]

/-- The type `InOutType::parse` returns is the descriptor of the instance it
returns in a context, and it fails in a context exactly when it fails. -/
theorem InOutType.parseIn_parse_inout (ctxt : MLIRContext) (p : DialectAsmParser)
    (s : ParserState) :
    (InOutType.parseIn ctxt p s).2.2 = (InOutType.parse p s).2 ∧
    match (InOutType.parse p s).1 with
    | none => (InOutType.parseIn ctxt p s).1 = none ∧ (InOutType.parseIn ctxt p s).2.1 = ctxt
    | some t => (InOutType.parseIn ctxt p s).1 = some (ctxt.getOrCreate t).1 ∧
        (InOutType.parseIn ctxt p s).2.1 = (ctxt.getOrCreate t).2 := by
  unfold InOutType.parseIn InOutType.parse
  cases hs : InOutType.parseShape p s with
  | mk r s1 =>
    cases r with
    | none => simp
    | some inner =>
      cases hv : isRTLValueType inner <;>
        simp [InOutType.verifyConstructionInvariants, hv, emitError, failed, InOutType.getIn]

/-- C7: successful constructions in one context, made at any times, directly
(`getChecked`) or through `parse`, return the same canonical instance exactly
when their structural descriptors are equal: two arrays when element type and
size are equal, two inout types when the element types are equal, and an
array is never the instance of an inout type.  The instance stays held under
its descriptor; with the element types held as instances, two arrays are the
same instance exactly when their elements are the same instance and the sizes
are equal; and a later request for an equal descriptor returns the existing
instance and creates none. -/
theorem construction_identity_iff_descriptor (final : MLIRContext)
    (e1 e2 e3 e4 e5 e6 e7 e8 : Ty) (n1 n2 : Nat) (k5 k6 : Int)
    (loc1 loc2 loc3 loc4 : Location) (d1 d2 d3 d4 o1 o2 o3 o4 : List Diagnostic)
    (p5 p6 p7 p8 : DialectAsmParser)
    (s5 s5a s5b s6 s6a s6b s7 s7a s7b s8 s8a s8b : ParserState)
    (c1 c2 c3 c4 c5 c6 c7 c8 a1 a2 a3 a4 a5 a6 a7 a8 : MLIRContext)
    (i1 i2 i3 i4 i5 i6 i7 i8 : TypeInstance)
    (hreach : MLIRContext.Later ⟨[]⟩ final)
    (h1 : ArrayType.getCheckedIn c1 loc1 e1 n1 d1 = (some i1, a1, o1))
    (l1 : MLIRContext.Later a1 final)
    (h2 : ArrayType.getCheckedIn c2 loc2 e2 n2 d2 = (some i2, a2, o2))
    (l2 : MLIRContext.Later a2 final)
    (h3 : InOutType.getCheckedIn c3 loc3 e3 d3 = (some i3, a3, o3))
    (l3 : MLIRContext.Later a3 final)
    (h4 : InOutType.getCheckedIn c4 loc4 e4 d4 = (some i4, a4, o4))
    (l4 : MLIRContext.Later a4 final)
    (hs5 : ArrayType.parseShape p5 s5 = (some ([k5], e5), s5a))
    (h5 : ArrayType.parseIn c5 p5 s5 = (some i5, a5, s5b))
    (l5 : MLIRContext.Later a5 final)
    (hs6 : ArrayType.parseShape p6 s6 = (some ([k6], e6), s6a))
    (h6 : ArrayType.parseIn c6 p6 s6 = (some i6, a6, s6b))
    (l6 : MLIRContext.Later a6 final)
    (hs7 : InOutType.parseShape p7 s7 = (some e7, s7a))
    (h7 : InOutType.parseIn c7 p7 s7 = (some i7, a7, s7b))
    (l7 : MLIRContext.Later a7 final)
    (hs8 : InOutType.parseShape p8 s8 = (some e8, s8a))
    (h8 : InOutType.parseIn c8 p8 s8 = (some i8, a8, s8b))
    (l8 : MLIRContext.Later a8 final)
    (hk5 : -(2 ^ 63) ≤ k5 ∧ k5 ≤ (int64Max : Int))
    (hk6 : -(2 ^ 63) ≤ k6 ∧ k6 ≤ (int64Max : Int)) :
    (i1 = i2 ↔ e1 = e2 ∧ n1 = n2) ∧ (i3 = i4 ↔ e3 = e4) ∧ i1 ≠ i3 ∧
    (i5 = i6 ↔ e5 = e6 ∧ k5 = k6) ∧ (i7 = i8 ↔ e7 = e8) ∧ i5 ≠ i7 ∧
    (i1 = i5 ↔ e1 = e5 ∧ n1 = toSizeT k5) ∧ (i3 = i7 ↔ e3 = e7) ∧
    i1 ≠ i7 ∧ i5 ≠ i3 ∧
    (final.descriptorOf i1 = some (.array e1 n1) ∧
      final.descriptorOf i3 = some (.inout e3) ∧
      final.descriptorOf i5 = some (.array e5 (toSizeT k5)) ∧
      final.descriptorOf i7 = some (.inout e7)) ∧
    (∀ j1 j2, final.descriptorOf j1 = some e1 → final.descriptorOf j2 = some e2 →
      (i1 = i2 ↔ j1 = j2 ∧ n1 = n2)) ∧
    (∀ j3 j4, final.descriptorOf j3 = some e3 → final.descriptorOf j4 = some e4 →
      (i3 = i4 ↔ j3 = j4)) ∧
    (∀ later loc d, MLIRContext.Later a1 later →
      ArrayType.getCheckedIn later loc e1 n1 d = (some i1, later, d)) ∧
    (∀ later loc d, MLIRContext.Later a3 later →
      InOutType.getCheckedIn later loc e3 d = (some i3, later, d)) := by
  obtain ⟨v1, r1, q1⟩ := ArrayType.getCheckedIn_some_array _ _ _ _ _ _ _ _ h1
  obtain ⟨-, r2, q2⟩ := ArrayType.getCheckedIn_some_array _ _ _ _ _ _ _ _ h2
  obtain ⟨v3, r3, q3⟩ := InOutType.getCheckedIn_some_inout _ _ _ _ _ _ _ h3
  obtain ⟨-, r4, q4⟩ := InOutType.getCheckedIn_some_inout _ _ _ _ _ _ _ h4
  obtain ⟨-, r5, q5⟩ := ArrayType.parseIn_some_array _ _ _ _ _ _ _ _ _ hs5 h5
  obtain ⟨-, r6, q6⟩ := ArrayType.parseIn_some_array _ _ _ _ _ _ _ _ _ hs6 h6
  obtain ⟨-, r7, q7⟩ := InOutType.parseIn_some_inout _ _ _ _ _ _ _ _ hs7 h7
  obtain ⟨-, r8, q8⟩ := InOutType.parseIn_some_inout _ _ _ _ _ _ _ _ hs8 h8
  subst q1 q2 q3 q4 q5 q6 q7 q8 r1 r2 r3 r4 r5 r6 r7 r8
  have hinj : toSizeT k5 = toSizeT k6 ↔ k5 = k6 :=
    ⟨toSizeT_inj_int64 k5 k6 hk5.1 hk5.2 hk6.1 hk6.2, fun h => by rw [h]⟩
  have g1 := MLIRContext.constructed_descriptorOf _ _ _ l1
  have g3 := MLIRContext.constructed_descriptorOf _ _ _ l3
  have g5 := MLIRContext.constructed_descriptorOf _ _ _ l5
  have g7 := MLIRContext.constructed_descriptorOf _ _ _ l7
  have arr : (c1.getOrCreate (.array e1 n1)).1 = (c2.getOrCreate (.array e2 n2)).1 ↔
      e1 = e2 ∧ n1 = n2 := by
    rw [MLIRContext.constructed_eq_iff _ _ _ _ _ l1 l2]
    simp
  have io : (c3.getOrCreate (.inout e3)).1 = (c4.getOrCreate (.inout e4)).1 ↔ e3 = e4 := by
    rw [MLIRContext.constructed_eq_iff _ _ _ _ _ l3 l4]
    simp
  refine ⟨arr, io, ?_, ?_, ?_, ?_, ?_, ?_, ?_, ?_, ⟨g1, g3, g5, g7⟩, ?_, ?_, ?_, ?_⟩
  · rw [Ne, MLIRContext.constructed_eq_iff _ _ _ _ _ l1 l3]
    simp
  · rw [MLIRContext.constructed_eq_iff _ _ _ _ _ l5 l6]
    simp [hinj]
  · rw [MLIRContext.constructed_eq_iff _ _ _ _ _ l7 l8]
    simp
  · rw [Ne, MLIRContext.constructed_eq_iff _ _ _ _ _ l5 l7]
    simp
  · rw [MLIRContext.constructed_eq_iff _ _ _ _ _ l1 l5]
    simp
  · rw [MLIRContext.constructed_eq_iff _ _ _ _ _ l3 l7]
    simp
  · rw [Ne, MLIRContext.constructed_eq_iff _ _ _ _ _ l1 l7]
    simp
  · rw [Ne, MLIRContext.constructed_eq_iff _ _ _ _ _ l5 l3]
    simp
  · intro j1 j2 hj1 hj2
    rw [arr, MLIRContext.instance_eq_iff final hreach j1 j2 e1 e2 hj1 hj2]
  · intro j3 j4 hj3 hj4
    rw [io, MLIRContext.instance_eq_iff final hreach j3 j4 e3 e4 hj3 hj4]
  · intro later loc d hl
    simp [ArrayType.getCheckedIn, ArrayType.verifyConstructionInvariants, v1, failed,
      ArrayType.getIn, ArrayType.get, MLIRContext.getOrCreate_again _ _ _ hl]
  · intro later loc d hl
    simp [InOutType.getCheckedIn, InOutType.verifyConstructionInvariants, v3, failed,
      InOutType.getIn, InOutType.get, MLIRContext.getOrCreate_again _ _ _ hl]

/-- Witness of C7: in a context that starts empty, `i8` and `i16` are
registered, then `array<4xi8>`, `array<5xi8>`, `inout<i8>` and `inout<i16>`
are requested directly, one after the other, and then each is parsed by the
host parser: the parsed types are the instances 2, 3, 4 and 5 made before,
and `i8` is instance 0. -/
theorem construction_identity_iff_descriptor_witness :
    ArrayType.getCheckedIn ⟨[.integer 8 .Signless, .integer 16 .Signless]⟩ 0
        (.integer 8 .Signless) 4 [] =
      (some 2, ⟨[.integer 8 .Signless, .integer 16 .Signless,
        .array (.integer 8 .Signless) 4]⟩, []) ∧
    InOutType.getCheckedIn
        ⟨[.integer 8 .Signless, .integer 16 .Signless, .array (.integer 8 .Signless) 4,
          .array (.integer 8 .Signless) 5]⟩ 2 (.integer 8 .Signless) [] =
      (some 4, ⟨[.integer 8 .Signless, .integer 16 .Signless,
        .array (.integer 8 .Signless) 4, .array (.integer 8 .Signless) 5,
        .inout (.integer 8 .Signless)]⟩, []) ∧
    ArrayType.parseIn
        ⟨[.integer 8 .Signless, .integer 16 .Signless, .array (.integer 8 .Signless) 4,
          .array (.integer 8 .Signless) 5, .inout (.integer 8 .Signless),
          .inout (.integer 16 .Signless)]⟩
        (Host.mkParser int64Max 0 (Host.parseTypeWith (Host.parseDialectType int64Max 3)))
        ⟨"<4xi8>".toList, 5, []⟩ =
      (some 2, ⟨[.integer 8 .Signless, .integer 16 .Signless,
        .array (.integer 8 .Signless) 4, .array (.integer 8 .Signless) 5,
        .inout (.integer 8 .Signless), .inout (.integer 16 .Signless)]⟩, ⟨[], 11, []⟩) ∧
    ((2 : TypeInstance) = 3 ↔ Ty.integer 8 .Signless = Ty.integer 8 .Signless ∧ 4 = 5) ∧
    ((4 : TypeInstance) = 5 ↔ Ty.integer 8 .Signless = Ty.integer 16 .Signless) ∧
    (2 : TypeInstance) ≠ 4 ∧
    ((2 : TypeInstance) = 2 ↔
      Ty.integer 8 .Signless = Ty.integer 8 .Signless ∧ 4 = toSizeT 4) ∧
    ((2 : TypeInstance) = 3 ↔ (0 : TypeInstance) = 0 ∧ 4 = 5) :=
  have h := construction_identity_iff_descriptor
    ⟨[.integer 8 .Signless, .integer 16 .Signless, .array (.integer 8 .Signless) 4,
      .array (.integer 8 .Signless) 5, .inout (.integer 8 .Signless),
      .inout (.integer 16 .Signless)]⟩
    (.integer 8 .Signless) (.integer 8 .Signless) (.integer 8 .Signless) (.integer 16 .Signless)
    (.integer 8 .Signless) (.integer 8 .Signless) (.integer 8 .Signless) (.integer 16 .Signless)
    4 5 4 5 0 1 2 3 [] [] [] [] [] [] [] []
    (Host.mkParser int64Max 0 (Host.parseTypeWith (Host.parseDialectType int64Max 3)))
    (Host.mkParser int64Max 0 (Host.parseTypeWith (Host.parseDialectType int64Max 3)))
    (Host.mkParser int64Max 0 (Host.parseTypeWith (Host.parseDialectType int64Max 3)))
    (Host.mkParser int64Max 0 (Host.parseTypeWith (Host.parseDialectType int64Max 3)))
    ⟨"<4xi8>".toList, 5, []⟩ ⟨[], 11, []⟩ ⟨[], 11, []⟩
    ⟨"<5xi8>".toList, 5, []⟩ ⟨[], 11, []⟩ ⟨[], 11, []⟩
    ⟨"<i8>".toList, 5, []⟩ ⟨[], 9, []⟩ ⟨[], 9, []⟩
    ⟨"<i16>".toList, 5, []⟩ ⟨[], 10, []⟩ ⟨[], 10, []⟩
    ⟨[.integer 8 .Signless, .integer 16 .Signless]⟩
    ⟨[.integer 8 .Signless, .integer 16 .Signless, .array (.integer 8 .Signless) 4]⟩
    ⟨[.integer 8 .Signless, .integer 16 .Signless, .array (.integer 8 .Signless) 4,
      .array (.integer 8 .Signless) 5]⟩
    ⟨[.integer 8 .Signless, .integer 16 .Signless, .array (.integer 8 .Signless) 4,
      .array (.integer 8 .Signless) 5, .inout (.integer 8 .Signless)]⟩
    ⟨[.integer 8 .Signless, .integer 16 .Signless, .array (.integer 8 .Signless) 4,
      .array (.integer 8 .Signless) 5, .inout (.integer 8 .Signless),
      .inout (.integer 16 .Signless)]⟩
    ⟨[.integer 8 .Signless, .integer 16 .Signless, .array (.integer 8 .Signless) 4,
      .array (.integer 8 .Signless) 5, .inout (.integer 8 .Signless),
      .inout (.integer 16 .Signless)]⟩
    ⟨[.integer 8 .Signless, .integer 16 .Signless, .array (.integer 8 .Signless) 4,
      .array (.integer 8 .Signless) 5, .inout (.integer 8 .Signless),
      .inout (.integer 16 .Signless)]⟩
    ⟨[.integer 8 .Signless, .integer 16 .Signless, .array (.integer 8 .Signless) 4,
      .array (.integer 8 .Signless) 5, .inout (.integer 8 .Signless),
      .inout (.integer 16 .Signless)]⟩
    ⟨[.integer 8 .Signless, .integer 16 .Signless, .array (.integer 8 .Signless) 4]⟩
    ⟨[.integer 8 .Signless, .integer 16 .Signless, .array (.integer 8 .Signless) 4,
      .array (.integer 8 .Signless) 5]⟩
    ⟨[.integer 8 .Signless, .integer 16 .Signless, .array (.integer 8 .Signless) 4,
      .array (.integer 8 .Signless) 5, .inout (.integer 8 .Signless)]⟩
    ⟨[.integer 8 .Signless, .integer 16 .Signless, .array (.integer 8 .Signless) 4,
      .array (.integer 8 .Signless) 5, .inout (.integer 8 .Signless),
      .inout (.integer 16 .Signless)]⟩
    ⟨[.integer 8 .Signless, .integer 16 .Signless, .array (.integer 8 .Signless) 4,
      .array (.integer 8 .Signless) 5, .inout (.integer 8 .Signless),
      .inout (.integer 16 .Signless)]⟩
    ⟨[.integer 8 .Signless, .integer 16 .Signless, .array (.integer 8 .Signless) 4,
      .array (.integer 8 .Signless) 5, .inout (.integer 8 .Signless),
      .inout (.integer 16 .Signless)]⟩
    ⟨[.integer 8 .Signless, .integer 16 .Signless, .array (.integer 8 .Signless) 4,
      .array (.integer 8 .Signless) 5, .inout (.integer 8 .Signless),
      .inout (.integer 16 .Signless)]⟩
    ⟨[.integer 8 .Signless, .integer 16 .Signless, .array (.integer 8 .Signless) 4,
      .array (.integer 8 .Signless) 5, .inout (.integer 8 .Signless),
      .inout (.integer 16 .Signless)]⟩
    2 3 4 5 2 3 4 5
    (MLIRContext.Later.of_append_nodup
      [.integer 8 .Signless, .integer 16 .Signless, .array (.integer 8 .Signless) 4,
        .array (.integer 8 .Signless) 5, .inout (.integer 8 .Signless),
        .inout (.integer 16 .Signless)] ⟨[]⟩ (by decide))
    (by decide)
    (MLIRContext.Later.of_append_nodup
      [.array (.integer 8 .Signless) 5, .inout (.integer 8 .Signless),
        .inout (.integer 16 .Signless)]
      ⟨[.integer 8 .Signless, .integer 16 .Signless, .array (.integer 8 .Signless) 4]⟩
      (by decide))
    (by decide)
    (MLIRContext.Later.of_append_nodup
      [.inout (.integer 8 .Signless), .inout (.integer 16 .Signless)]
      ⟨[.integer 8 .Signless, .integer 16 .Signless, .array (.integer 8 .Signless) 4,
        .array (.integer 8 .Signless) 5]⟩ (by decide))
    (by decide)
    (MLIRContext.Later.of_append_nodup [.inout (.integer 16 .Signless)]
      ⟨[.integer 8 .Signless, .integer 16 .Signless, .array (.integer 8 .Signless) 4,
        .array (.integer 8 .Signless) 5, .inout (.integer 8 .Signless)]⟩ (by decide))
    (by decide) (MLIRContext.Later.refl _)
    (by decide) (by decide) (MLIRContext.Later.refl _)
    (by decide) (by decide) (MLIRContext.Later.refl _)
    (by decide) (by decide) (MLIRContext.Later.refl _)
    (by decide) (by decide) (MLIRContext.Later.refl _)
    (by decide) (by decide)
  ⟨by decide, by decide, by decide, h.1, h.2.1, h.2.2.1, h.2.2.2.2.2.2.1,
    h.2.2.2.2.2.2.2.2.2.2.2.1 0 0 (by decide) (by decide)⟩

/-! ### Struct members -/

/-- C8: `getTypeByField` returns its struct argument itself: on the struct
with the single member `a : i8` and the name `a` it returns the struct, not
`i8` (the type of the first member named `a`, which the disabled
`StructType::getElement` finds), and for the absent name `b` it still returns
the struct; it returns its first argument whatever the name. -/
theorem getTypeByField_returns_struct :
    getTypeByField (.struct [.mk "a" (.integer 8 .Signless)]) "a" =
      .struct [.mk "a" (.integer 8 .Signless)] ∧
    getTypeByField (.struct [.mk "a" (.integer 8 .Signless)]) "a" ≠ .integer 8 .Signless ∧
    (StructType.getElement [.mk "a" (.integer 8 .Signless)] "a").map FieldInfo.type =
      some (.integer 8 .Signless) ∧
    StructType.getElement [.mk "a" (.integer 8 .Signless)] "b" = none ∧
    getTypeByField (.struct [.mk "a" (.integer 8 .Signless)]) "b" =
      .struct [.mk "a" (.integer 8 .Signless)] ∧
    (∀ structVal fieldName, getTypeByField structVal fieldName = structVal) := by
  refine ⟨rfl, by decide, by decide, by decide, rfl, fun _ _ => rfl⟩

/-- The member comparison is equality of members. -/
theorem FieldInfo.eq_iff (a b : FieldInfo) : FieldInfo.eq a b = true ↔ a = b := by
  cases a; cases b
  simp [FieldInfo.eq, FieldInfo.name, FieldInfo.type]

/-- The sequence comparison is equality of sequences. -/
theorem FieldInfo.arrayRefEq_iff (xs : List FieldInfo) :
    ∀ ys, FieldInfo.arrayRefEq xs ys = true ↔ xs = ys := by
  induction xs with
  | nil => intro ys; cases ys <;> simp [FieldInfo.arrayRefEq]
  | cons a as ih =>
    intro ys
    cases ys with
    | nil => simp [FieldInfo.arrayRefEq]
    | cons b bs => simp [FieldInfo.arrayRefEq, FieldInfo.eq_iff, ih]

/-- C9: two `FieldInfo` are equal exactly when names and types are equal; two
member sequences are equal exactly when they have the same length and are
equal position by position; swapping two distinct members gives an unequal
sequence; equal sequences have equal hashes. -/
theorem fieldInfo_sequence_equality (hashing : Hashing) (a b c d : FieldInfo)
    (xs ys us vs before between after : List FieldInfo)
    (hcd : FieldInfo.eq c d = false)
    (huv : FieldInfo.arrayRefEq us vs = true) :
    (FieldInfo.eq a b = true ↔ a.name = b.name ∧ a.type = b.type) ∧
    (FieldInfo.arrayRefEq xs ys = true ↔
      xs.length = ys.length ∧ List.Forall₂ (fun x y => FieldInfo.eq x y = true) xs ys) ∧
    FieldInfo.arrayRefEq (before ++ (c :: (between ++ (d :: after))))
      (before ++ (d :: (between ++ (c :: after)))) = false ∧
    FieldInfo.hashKey hashing us = FieldInfo.hashKey hashing vs := by
  refine ⟨?_, ?_, ?_, ?_⟩
  · simp [FieldInfo.eq]
  · constructor
    · intro h
      rw [FieldInfo.arrayRefEq_iff] at h
      subst h
      refine ⟨rfl, ?_⟩
      induction xs with
      | nil => exact List.Forall₂.nil
      | cons x xs ih => exact List.Forall₂.cons ((FieldInfo.eq_iff x x).2 rfl) ih
    · rintro ⟨-, h⟩
      rw [FieldInfo.arrayRefEq_iff]
      induction h with
      | nil => rfl
      | cons hxy _ ih => rw [(FieldInfo.eq_iff _ _).1 hxy, ih]
  · cases h : FieldInfo.arrayRefEq (before ++ (c :: (between ++ (d :: after))))
      (before ++ (d :: (between ++ (c :: after)))) with
    | false => rfl
    | true =>
      rw [FieldInfo.arrayRefEq_iff] at h
      have h2 := List.append_cancel_left h
      have h3 : c = d := (List.cons.inj h2).1
      rw [(FieldInfo.eq_iff c d).2 h3] at hcd
      cases hcd
  · rw [(FieldInfo.arrayRefEq_iff us vs).1 huv]

/-- Witness of C9: members `a : i8` and `b : i1`, in the two orders. -/
theorem fieldInfo_sequence_equality_witness :
    FieldInfo.eq (.mk "a" (.integer 8 .Signless)) (.mk "b" (.integer 1 .Signless)) = false ∧
    FieldInfo.arrayRefEq [.mk "a" (.integer 8 .Signless), .mk "b" (.integer 1 .Signless)]
      [.mk "a" (.integer 8 .Signless), .mk "b" (.integer 1 .Signless)] = true ∧
    FieldInfo.arrayRefEq
      ([] ++ (.mk "a" (.integer 8 .Signless) :: ([] ++ (.mk "b" (.integer 1 .Signless) :: []))))
      ([] ++ (.mk "b" (.integer 1 .Signless) :: ([] ++ (.mk "a" (.integer 8 .Signless) :: []))))
      = false ∧
    FieldInfo.hashKey ⟨String.length, Ty.depth, fun x y => 31 * x + y, List.sum⟩
      [.mk "a" (.integer 8 .Signless), .mk "b" (.integer 1 .Signless)] =
    FieldInfo.hashKey ⟨String.length, Ty.depth, fun x y => 31 * x + y, List.sum⟩
      [.mk "a" (.integer 8 .Signless), .mk "b" (.integer 1 .Signless)] :=
  have h := fieldInfo_sequence_equality
    ⟨String.length, Ty.depth, fun x y => 31 * x + y, List.sum⟩
    (.mk "a" (.integer 8 .Signless)) (.mk "a" (.integer 8 .Signless))
    (.mk "a" (.integer 8 .Signless)) (.mk "b" (.integer 1 .Signless))
    [] [] [.mk "a" (.integer 8 .Signless), .mk "b" (.integer 1 .Signless)]
    [.mk "a" (.integer 8 .Signless), .mk "b" (.integer 1 .Signless)] [] [] []
    (by decide) (by decide)
  ⟨by decide, by decide, h.2.2.1, h.2.2.2⟩

end RTL

namespace LLHD

/-- C10: each of the six operation kinds exposes exactly the rules of its
rows of the spec table, in table order; nine rules in all, each registered
under the kind it rewrites and under no other. -/
theorem registered_patterns_match_table :
    (∀ kind, (getCanonicalizationPatterns kind).map Pattern.ruleName = specRulesOf kind) ∧
    getCanonicalizationPatterns .XorOp = [.XorAllBitsSet] ∧
    getCanonicalizationPatterns .NotOp = [.NotOfEq, .NotOfNeq] ∧
    getCanonicalizationPatterns .EqOp = [.BooleanEqToXor] ∧
    getCanonicalizationPatterns .NeqOp = [.BooleanNeqToXor] ∧
    getCanonicalizationPatterns .DynExtractSliceOp =
      [.DynExtractSliceWithConstantOpStart, .DynExtractSliceWithLLHDConstOpStart] ∧
    getCanonicalizationPatterns .DynExtractElementOp =
      [.DynExtractElementWithConstantOpIndex, .DynExtractElementWithLLHDConstOpIndex] ∧
    ((OpKind.all.map getCanonicalizationPatterns).flatten.map
      (fun pattern => (pattern.rootKind, pattern.ruleName)) =
      specRuleTable.map (fun row => (some row.1, row.2))) ∧
    (OpKind.all.map getCanonicalizationPatterns).flatten.length = 9 ∧
    (OpKind.all.map getCanonicalizationPatterns).flatten.Nodup ∧
    (∀ kind other, (getCanonicalizationPatterns kind).all
      (fun pattern => decide (pattern.rootKind = some kind) &&
        (decide (other = kind) || !(getCanonicalizationPatterns other).contains pattern))
      = true) := by
  refine ⟨?_, rfl, rfl, rfl, rfl, rfl, rfl, by decide, by decide, by decide, ?_⟩
  · intro kind; cases kind <;> decide
  · intro kind other; cases kind <;> cases other <;> decide

/-! ### What the rules compute, and termination -/

/-- XOR with the all-ones constant of the width is the complement. -/
theorem xor_allOnes_eq_sub (w x : Nat) (h : x < 2 ^ w) :
    x ^^^ (2 ^ w - 1) = 2 ^ w - 1 - x := by
  apply Nat.eq_of_testBit_eq
  intro i
  have hsub : 2 ^ w - 1 - x = 2 ^ w - (x + 1) := by omega
  rw [hsub, Nat.testBit_two_pow_sub_succ h, Nat.testBit_xor, Nat.testBit_two_pow_sub_one]
  by_cases hi : i < w
  · simp [hi]
  · have hle : w ≤ i := Nat.le_of_not_lt hi
    have hx : x < 2 ^ i := Nat.lt_of_lt_of_le h (Nat.pow_le_pow_right (by decide) hle)
    simp [hi, Nat.testBit_lt_two_pow hx]

/-- A constant with every bit set is an integer constant whose literal is
`2^w - 1`. -/
theorem Value.isAllBitsSetConstant_eq (v : Value) (h : v.isAllBitsSetConstant = true) :
    ∃ kind w, v = .constant kind (2 ^ w - 1) (.integer w) := by
  cases v with
  | constant kind value type =>
    cases type with
    | integer w =>
      simp [Value.isAllBitsSetConstant] at h
      exact ⟨kind, w, by rw [h]⟩
    | other name => simp [Value.isAllBitsSetConstant] at h
  | _ => simp [Value.isAllBitsSetConstant] at h

/-- A well-typed value of an integer type computes a number of that width. -/
theorem Value.eval_lt (sem : ExtractSemantics) (env : Nat → Nat) (v : Value) :
    ∀ w, v.wellTyped = true → v.getType = .integer w → v.eval sem env < 2 ^ w := by
  induction v with
  | blockArgument index type =>
    intro w _ ht
    simp only [Value.getType] at ht
    simp only [Value.eval, ht, IRType.truncate]
    exact Nat.mod_lt _ (Nat.pos_pow_of_pos w (by decide))
  | constant kind value type =>
    intro w hwt ht
    simp only [Value.getType] at ht
    subst ht
    simpa [Value.wellTyped, Value.eval] using hwt
  | xor a b iha ihb =>
    intro w hwt ht
    simp only [Value.wellTyped, Bool.and_eq_true, decide_eq_true_eq] at hwt
    simp only [Value.getType] at ht
    simp only [Value.eval, evalXor]
    exact Nat.xor_lt_two_pow (iha w hwt.1.2 ht) (ihb w hwt.2 (hwt.1.1 ▸ ht))
  | not a _ =>
    intro w _ ht
    simp only [Value.getType] at ht
    simp only [Value.eval, evalNot, ht, IRType.width]
    have : 0 < 2 ^ w := Nat.pos_pow_of_pos w (by decide)
    omega
  | eq a b _ _ =>
    intro w _ ht
    simp only [Value.getType, IRType.integer.injEq] at ht
    subst ht
    simp only [Value.eval, evalEq]
    split <;> decide
  | neq a b _ _ =>
    intro w _ ht
    simp only [Value.getType, IRType.integer.injEq] at ht
    subst ht
    simp only [Value.eval, evalNeq]
    split <;> decide
  | dynExtractSlice t s ty _ _ =>
    intro w _ ht
    simp only [Value.getType] at ht
    simp only [Value.eval, ht, IRType.truncate]
    exact Nat.mod_lt _ (Nat.pos_pow_of_pos w (by decide))
  | dynExtractElement t s ty _ _ =>
    intro w _ ht
    simp only [Value.getType] at ht
    simp only [Value.eval, ht, IRType.truncate]
    exact Nat.mod_lt _ (Nat.pos_pow_of_pos w (by decide))
  | extractSlice t k ty _ =>
    intro w _ ht
    simp only [Value.getType] at ht
    simp only [Value.eval, ht, IRType.truncate]
    exact Nat.mod_lt _ (Nat.pos_pow_of_pos w (by decide))
  | extractElement t k ty _ =>
    intro w _ ht
    simp only [Value.getType] at ht
    simp only [Value.eval, ht, IRType.truncate]
    exact Nat.mod_lt _ (Nat.pos_pow_of_pos w (by decide))

/-- The single-bit identities behind the EQ and NEQ rules. -/
theorem evalEq_single_bit (a b : Nat) (ha : a < 2) (hb : b < 2) :
    evalEq a b = evalNot 1 (evalXor a b) ∧ evalNeq a b = evalXor a b := by
  have ha2 : a = 0 ∨ a = 1 := by omega
  have hb2 : b = 0 ∨ b = 1 := by omega
  rcases ha2 with rfl | rfl <;> rcases hb2 with rfl | rfl <;> decide

/-- NOT of EQ is NEQ and NOT of NEQ is EQ. -/
theorem evalNot_evalEq (a b : Nat) :
    evalNot 1 (evalEq a b) = evalNeq a b ∧ evalNot 1 (evalNeq a b) = evalEq a b := by
  by_cases h : a = b <;> simp [evalNot, evalEq, evalNeq, h]

/-- A rule application keeps the graph well typed, keeps the type of the
value, and keeps the number the value computes. -/
theorem Pattern.matchAndRewrite_sound (pattern : Pattern) (op op2 : Value)
    (h : pattern.matchAndRewrite op = some op2) (hwt : op.wellTyped = true) :
    op2.wellTyped = true ∧ op2.getType = op.getType ∧
      ∀ sem env, op2.eval sem env = op.eval sem env := by
  cases pattern with
  | XorAllBitsSet =>
    cases op with
    | xor lhs rhs =>
      simp only [Value.wellTyped, Bool.and_eq_true, decide_eq_true_eq] at hwt
      simp only [Pattern.matchAndRewrite, XorAllBitsSet.matchAndRewrite] at h
      split at h
      · rename_i hr
        obtain ⟨kind, w, rfl⟩ := Value.isAllBitsSetConstant_eq rhs hr
        simp only [Option.some.injEq] at h
        subst h
        have ht : lhs.getType = .integer w := hwt.1.1
        refine ⟨hwt.1.2, rfl, fun sem env => ?_⟩
        simp only [Value.eval, evalNot, evalXor, ht, IRType.width]
        exact (xor_allOnes_eq_sub w _ (Value.eval_lt sem env lhs w hwt.1.2 ht)).symm
      · split at h
        · rename_i hl
          obtain ⟨kind, w, rfl⟩ := Value.isAllBitsSetConstant_eq lhs hl
          simp only [Option.some.injEq] at h
          subst h
          have ht : rhs.getType = .integer w := hwt.1.1.symm
          refine ⟨hwt.2, ht, fun sem env => ?_⟩
          simp only [Value.eval, evalNot, evalXor, ht, IRType.width]
          rw [Nat.xor_comm]
          exact (xor_allOnes_eq_sub w _ (Value.eval_lt sem env rhs w hwt.2 ht)).symm
        · cases h
    | _ => simp [Pattern.matchAndRewrite, XorAllBitsSet.matchAndRewrite] at h
  | NotOfEq =>
    cases op with
    | not operand =>
      cases operand with
      | eq a b =>
        simp only [Pattern.matchAndRewrite, NotOfEq.matchAndRewrite, Option.some.injEq] at h
        subst h
        refine ⟨by simpa [Value.wellTyped] using hwt, rfl, fun sem env => ?_⟩
        simp only [Value.eval, Value.getType, IRType.width]
        exact ((evalNot_evalEq _ _).1).symm
      | _ => simp [Pattern.matchAndRewrite, NotOfEq.matchAndRewrite] at h
    | _ => simp [Pattern.matchAndRewrite, NotOfEq.matchAndRewrite] at h
  | NotOfNeq =>
    cases op with
    | not operand =>
      cases operand with
      | neq a b =>
        simp only [Pattern.matchAndRewrite, NotOfNeq.matchAndRewrite, Option.some.injEq] at h
        subst h
        refine ⟨by simpa [Value.wellTyped] using hwt, rfl, fun sem env => ?_⟩
        simp only [Value.eval, Value.getType, IRType.width]
        exact ((evalNot_evalEq _ _).2).symm
      | _ => simp [Pattern.matchAndRewrite, NotOfNeq.matchAndRewrite] at h
    | _ => simp [Pattern.matchAndRewrite, NotOfNeq.matchAndRewrite] at h
  | BooleanEqToXor =>
    cases op with
    | eq a b =>
      simp only [Value.wellTyped, Bool.and_eq_true, decide_eq_true_eq] at hwt
      simp only [Pattern.matchAndRewrite, BooleanEqToXor.matchAndRewrite] at h
      split at h
      · rename_i hty
        simp only [Option.some.injEq] at h
        subst h
        refine ⟨by simp [Value.wellTyped, hwt.1.1, hwt.1.2, hwt.2], by simp [Value.getType, hty.1],
          fun sem env => ?_⟩
        simp only [Value.eval, Value.getType, hty.1, IRType.width]
        exact ((evalEq_single_bit _ _ (Value.eval_lt sem env a 1 hwt.1.2 hty.1)
          (Value.eval_lt sem env b 1 hwt.2 hty.2)).1).symm
      · cases h
    | _ => simp [Pattern.matchAndRewrite, BooleanEqToXor.matchAndRewrite] at h
  | BooleanNeqToXor =>
    cases op with
    | neq a b =>
      simp only [Value.wellTyped, Bool.and_eq_true, decide_eq_true_eq] at hwt
      simp only [Pattern.matchAndRewrite, BooleanNeqToXor.matchAndRewrite] at h
      split at h
      · rename_i hty
        simp only [Option.some.injEq] at h
        subst h
        refine ⟨by simp [Value.wellTyped, hwt.1.1, hwt.1.2, hwt.2], by simp [Value.getType, hty.1],
          fun sem env => ?_⟩
        simp only [Value.eval]
        exact ((evalEq_single_bit _ _ (Value.eval_lt sem env a 1 hwt.1.2 hty.1)
          (Value.eval_lt sem env b 1 hwt.2 hty.2)).2).symm
      · cases h
    | _ => simp [Pattern.matchAndRewrite, BooleanNeqToXor.matchAndRewrite] at h
  | DynExtractSliceWithConstantOpStart =>
    cases op with
    | dynExtractSlice t s ty =>
      cases s with
      | constant kind value type =>
        simp only [Pattern.matchAndRewrite, DynExtractSliceWithStart.matchAndRewrite] at h
        split at h
        · simp only [Option.some.injEq] at h
          subst h
          simp only [Value.wellTyped, Bool.and_eq_true] at hwt
          exact ⟨hwt.1, rfl, fun sem env => rfl⟩
        · cases h
      | _ => simp [Pattern.matchAndRewrite, DynExtractSliceWithStart.matchAndRewrite] at h
    | _ => simp [Pattern.matchAndRewrite, DynExtractSliceWithStart.matchAndRewrite] at h
  | DynExtractSliceWithLLHDConstOpStart =>
    cases op with
    | dynExtractSlice t s ty =>
      cases s with
      | constant kind value type =>
        simp only [Pattern.matchAndRewrite, DynExtractSliceWithStart.matchAndRewrite] at h
        split at h
        · simp only [Option.some.injEq] at h
          subst h
          simp only [Value.wellTyped, Bool.and_eq_true] at hwt
          exact ⟨hwt.1, rfl, fun sem env => rfl⟩
        · cases h
      | _ => simp [Pattern.matchAndRewrite, DynExtractSliceWithStart.matchAndRewrite] at h
    | _ => simp [Pattern.matchAndRewrite, DynExtractSliceWithStart.matchAndRewrite] at h
  | DynExtractElementWithConstantOpIndex =>
    cases op with
    | dynExtractElement t s ty =>
      cases s with
      | constant kind value type =>
        simp only [Pattern.matchAndRewrite, DynExtractElementWithIndex.matchAndRewrite] at h
        split at h
        · simp only [Option.some.injEq] at h
          subst h
          simp only [Value.wellTyped, Bool.and_eq_true] at hwt
          exact ⟨hwt.1, rfl, fun sem env => rfl⟩
        · cases h
      | _ => simp [Pattern.matchAndRewrite, DynExtractElementWithIndex.matchAndRewrite] at h
    | _ => simp [Pattern.matchAndRewrite, DynExtractElementWithIndex.matchAndRewrite] at h
  | DynExtractElementWithLLHDConstOpIndex =>
    cases op with
    | dynExtractElement t s ty =>
      cases s with
      | constant kind value type =>
        simp only [Pattern.matchAndRewrite, DynExtractElementWithIndex.matchAndRewrite] at h
        split at h
        · simp only [Option.some.injEq] at h
          subst h
          simp only [Value.wellTyped, Bool.and_eq_true] at hwt
          exact ⟨hwt.1, rfl, fun sem env => rfl⟩
        · cases h
      | _ => simp [Pattern.matchAndRewrite, DynExtractElementWithIndex.matchAndRewrite] at h
    | _ => simp [Pattern.matchAndRewrite, DynExtractElementWithIndex.matchAndRewrite] at h

/-- One rule application anywhere in a well-typed graph keeps it well typed,
keeps the type of the value and keeps the number it computes. -/
theorem Step.preserves_value (a b : Value) (h : Step a b) :
    a.wellTyped = true →
      b.wellTyped = true ∧ b.getType = a.getType ∧
        ∀ sem env, b.eval sem env = a.eval sem env := by
  induction h with
  | root kind pattern op op2 _ _ hm =>
    intro hwt
    exact Pattern.matchAndRewrite_sound pattern op op2 hm hwt
  | xorLhs a a2 b _ ih =>
    intro hwt
    simp only [Value.wellTyped, Bool.and_eq_true, decide_eq_true_eq] at hwt
    obtain ⟨h1, h2, h3⟩ := ih hwt.1.2
    refine ⟨by simp [Value.wellTyped, h1, h2, hwt.1.1, hwt.2], by simp [Value.getType, h2],
      fun sem env => by simp [Value.eval, h3]⟩
  | xorRhs a b b2 _ ih =>
    intro hwt
    simp only [Value.wellTyped, Bool.and_eq_true, decide_eq_true_eq] at hwt
    obtain ⟨h1, h2, h3⟩ := ih hwt.2
    refine ⟨by simp [Value.wellTyped, h1, h2, hwt.1.1, hwt.1.2], rfl,
      fun sem env => by simp [Value.eval, h3]⟩
  | notOperand a a2 _ ih =>
    intro hwt
    simp only [Value.wellTyped] at hwt
    obtain ⟨h1, h2, h3⟩ := ih hwt
    refine ⟨by simp [Value.wellTyped, h1], by simp [Value.getType, h2],
      fun sem env => by simp [Value.eval, h2, h3]⟩
  | eqLhs a a2 b _ ih =>
    intro hwt
    simp only [Value.wellTyped, Bool.and_eq_true, decide_eq_true_eq] at hwt
    obtain ⟨h1, h2, h3⟩ := ih hwt.1.2
    refine ⟨by simp [Value.wellTyped, h1, h2, hwt.1.1, hwt.2], rfl,
      fun sem env => by simp [Value.eval, h3]⟩
  | eqRhs a b b2 _ ih =>
    intro hwt
    simp only [Value.wellTyped, Bool.and_eq_true, decide_eq_true_eq] at hwt
    obtain ⟨h1, h2, h3⟩ := ih hwt.2
    refine ⟨by simp [Value.wellTyped, h1, h2, hwt.1.1, hwt.1.2], rfl,
      fun sem env => by simp [Value.eval, h3]⟩
  | neqLhs a a2 b _ ih =>
    intro hwt
    simp only [Value.wellTyped, Bool.and_eq_true, decide_eq_true_eq] at hwt
    obtain ⟨h1, h2, h3⟩ := ih hwt.1.2
    refine ⟨by simp [Value.wellTyped, h1, h2, hwt.1.1, hwt.2], rfl,
      fun sem env => by simp [Value.eval, h3]⟩
  | neqRhs a b b2 _ ih =>
    intro hwt
    simp only [Value.wellTyped, Bool.and_eq_true, decide_eq_true_eq] at hwt
    obtain ⟨h1, h2, h3⟩ := ih hwt.2
    refine ⟨by simp [Value.wellTyped, h1, h2, hwt.1.1, hwt.1.2], rfl,
      fun sem env => by simp [Value.eval, h3]⟩
  | dynSliceTarget t t2 s ty _ ih =>
    intro hwt
    simp only [Value.wellTyped, Bool.and_eq_true] at hwt
    obtain ⟨h1, _, h3⟩ := ih hwt.1
    refine ⟨by simp [Value.wellTyped, h1, hwt.2], rfl, fun sem env => by simp [Value.eval, h3]⟩
  | dynSliceStart t s s2 ty _ ih =>
    intro hwt
    simp only [Value.wellTyped, Bool.and_eq_true] at hwt
    obtain ⟨h1, _, h3⟩ := ih hwt.2
    refine ⟨by simp [Value.wellTyped, h1, hwt.1], rfl, fun sem env => by simp [Value.eval, h3]⟩
  | dynElementTarget t t2 s ty _ ih =>
    intro hwt
    simp only [Value.wellTyped, Bool.and_eq_true] at hwt
    obtain ⟨h1, _, h3⟩ := ih hwt.1
    refine ⟨by simp [Value.wellTyped, h1, hwt.2], rfl, fun sem env => by simp [Value.eval, h3]⟩
  | dynElementIndex t s s2 ty _ ih =>
    intro hwt
    simp only [Value.wellTyped, Bool.and_eq_true] at hwt
    obtain ⟨h1, _, h3⟩ := ih hwt.2
    refine ⟨by simp [Value.wellTyped, h1, hwt.1], rfl, fun sem env => by simp [Value.eval, h3]⟩
  | sliceTarget t t2 k ty _ ih =>
    intro hwt
    simp only [Value.wellTyped] at hwt
    obtain ⟨h1, _, h3⟩ := ih hwt
    refine ⟨by simp [Value.wellTyped, h1], rfl, fun sem env => by simp [Value.eval, h3]⟩
  | elementTarget t t2 k ty _ ih =>
    intro hwt
    simp only [Value.wellTyped] at hwt
    obtain ⟨h1, _, h3⟩ := ih hwt
    refine ⟨by simp [Value.wellTyped, h1], rfl, fun sem env => by simp [Value.eval, h3]⟩

/-- A sequence of rule applications in a well-typed graph keeps it well
typed and keeps the number the value computes. -/
theorem Steps.preserve_value (a b : Value) (h : Steps a b) :
    a.wellTyped = true →
      b.wellTyped = true ∧ b.getType = a.getType ∧
        ∀ sem env, b.eval sem env = a.eval sem env := by
  induction h with
  | refl a => intro hwt; exact ⟨hwt, rfl, fun _ _ => rfl⟩
  | step a b c hab _ ih =>
    intro hwt
    obtain ⟨h1, h2, h3⟩ := Step.preserves_value a b hab hwt
    obtain ⟨k1, k2, k3⟩ := ih h1
    exact ⟨k1, k2.trans h2, fun sem env => (k3 sem env).trans (h3 sem env)⟩

/-- Every value weighs at least one. -/
theorem Value.weight_pos (v : Value) : 0 < v.weight := by
  cases v <;> simp only [Value.weight] <;> omega

/-- A rule replaces an operation by a lighter one. -/
theorem Pattern.matchAndRewrite_weight (pattern : Pattern) (op op2 : Value)
    (h : pattern.matchAndRewrite op = some op2) : op2.weight < op.weight := by
  cases pattern with
  | XorAllBitsSet =>
    cases op with
    | xor lhs rhs =>
      simp only [Pattern.matchAndRewrite, XorAllBitsSet.matchAndRewrite] at h
      have hl := Value.weight_pos lhs
      have hr := Value.weight_pos rhs
      split at h
      · simp only [Option.some.injEq] at h
        subst h
        simp only [Value.weight]
        omega
      · split at h
        · simp only [Option.some.injEq] at h
          subst h
          simp only [Value.weight]
          omega
        · cases h
    | _ => simp [Pattern.matchAndRewrite, XorAllBitsSet.matchAndRewrite] at h
  | NotOfEq =>
    cases op with
    | not operand =>
      cases operand with
      | eq a b =>
        simp only [Pattern.matchAndRewrite, NotOfEq.matchAndRewrite, Option.some.injEq] at h
        subst h
        simp only [Value.weight]
        omega
      | _ => simp [Pattern.matchAndRewrite, NotOfEq.matchAndRewrite] at h
    | _ => simp [Pattern.matchAndRewrite, NotOfEq.matchAndRewrite] at h
  | NotOfNeq =>
    cases op with
    | not operand =>
      cases operand with
      | neq a b =>
        simp only [Pattern.matchAndRewrite, NotOfNeq.matchAndRewrite, Option.some.injEq] at h
        subst h
        simp only [Value.weight]
        omega
      | _ => simp [Pattern.matchAndRewrite, NotOfNeq.matchAndRewrite] at h
    | _ => simp [Pattern.matchAndRewrite, NotOfNeq.matchAndRewrite] at h
  | BooleanEqToXor =>
    cases op with
    | eq a b =>
      simp only [Pattern.matchAndRewrite, BooleanEqToXor.matchAndRewrite] at h
      split at h
      · simp only [Option.some.injEq] at h
        subst h
        simp only [Value.weight]
        omega
      · cases h
    | _ => simp [Pattern.matchAndRewrite, BooleanEqToXor.matchAndRewrite] at h
  | BooleanNeqToXor =>
    cases op with
    | neq a b =>
      simp only [Pattern.matchAndRewrite, BooleanNeqToXor.matchAndRewrite] at h
      split at h
      · simp only [Option.some.injEq] at h
        subst h
        simp only [Value.weight]
        omega
      · cases h
    | _ => simp [Pattern.matchAndRewrite, BooleanNeqToXor.matchAndRewrite] at h
  | DynExtractSliceWithConstantOpStart =>
    cases op with
    | dynExtractSlice t s ty =>
      cases s with
      | constant kind value type =>
        simp only [Pattern.matchAndRewrite, DynExtractSliceWithStart.matchAndRewrite] at h
        split at h
        · simp only [Option.some.injEq] at h
          subst h
          simp only [Value.weight]
          omega
        · cases h
      | _ => simp [Pattern.matchAndRewrite, DynExtractSliceWithStart.matchAndRewrite] at h
    | _ => simp [Pattern.matchAndRewrite, DynExtractSliceWithStart.matchAndRewrite] at h
  | DynExtractSliceWithLLHDConstOpStart =>
    cases op with
    | dynExtractSlice t s ty =>
      cases s with
      | constant kind value type =>
        simp only [Pattern.matchAndRewrite, DynExtractSliceWithStart.matchAndRewrite] at h
        split at h
        · simp only [Option.some.injEq] at h
          subst h
          simp only [Value.weight]
          omega
        · cases h
      | _ => simp [Pattern.matchAndRewrite, DynExtractSliceWithStart.matchAndRewrite] at h
    | _ => simp [Pattern.matchAndRewrite, DynExtractSliceWithStart.matchAndRewrite] at h
  | DynExtractElementWithConstantOpIndex =>
    cases op with
    | dynExtractElement t s ty =>
      cases s with
      | constant kind value type =>
        simp only [Pattern.matchAndRewrite, DynExtractElementWithIndex.matchAndRewrite] at h
        split at h
        · simp only [Option.some.injEq] at h
          subst h
          simp only [Value.weight]
          omega
        · cases h
      | _ => simp [Pattern.matchAndRewrite, DynExtractElementWithIndex.matchAndRewrite] at h
    | _ => simp [Pattern.matchAndRewrite, DynExtractElementWithIndex.matchAndRewrite] at h
  | DynExtractElementWithLLHDConstOpIndex =>
    cases op with
    | dynExtractElement t s ty =>
      cases s with
      | constant kind value type =>
        simp only [Pattern.matchAndRewrite, DynExtractElementWithIndex.matchAndRewrite] at h
        split at h
        · simp only [Option.some.injEq] at h
          subst h
          simp only [Value.weight]
          omega
        · cases h
      | _ => simp [Pattern.matchAndRewrite, DynExtractElementWithIndex.matchAndRewrite] at h
    | _ => simp [Pattern.matchAndRewrite, DynExtractElementWithIndex.matchAndRewrite] at h

/-- Every rule application makes the graph lighter. -/
theorem Step.weight_lt (a b : Value) (h : Step a b) : b.weight < a.weight := by
  induction h with
  | root kind pattern op op2 _ _ hm => exact Pattern.matchAndRewrite_weight pattern op op2 hm
  | _ => simp only [Value.weight]; omega

/-- The rewrite relation is well founded: there is no infinite sequence of
rule applications. -/
theorem Step.wellFounded : WellFounded (fun b a : Value => Step a b) :=
  Subrelation.wf (fun {b a} (h : Step a b) => Step.weight_lt a b h)
    (InvImage.wf Value.weight Nat.lt_wfRel.wf)

/-- No rule application is possible in a canonical graph. -/
theorem Value.isCanonical_no_step (a b : Value) (h : Step a b) : a.isCanonical = false := by
  induction h with
  | root kind pattern op op2 hk hp hm =>
    have hc : canonicalize op ≠ none := by
      simp only [canonicalize, hk, applyPatterns]
      intro hnone
      rw [List.findSome?_eq_none_iff] at hnone
      rw [hnone pattern hp] at hm
      cases hm
    cases op with
    | blockArgument i ty => simp [Value.opKind] at hk
    | constant k v ty => simp [Value.opKind] at hk
    | extractSlice t k ty => simp [Value.opKind] at hk
    | extractElement t k ty => simp [Value.opKind] at hk
    | xor a b =>
      cases hcan : canonicalize (.xor a b) with
      | none => exact absurd hcan hc
      | some r => simp [Value.isCanonical, hcan]
    | not a =>
      cases hcan : canonicalize (.not a) with
      | none => exact absurd hcan hc
      | some r => simp [Value.isCanonical, hcan]
    | eq a b =>
      cases hcan : canonicalize (.eq a b) with
      | none => exact absurd hcan hc
      | some r => simp [Value.isCanonical, hcan]
    | neq a b =>
      cases hcan : canonicalize (.neq a b) with
      | none => exact absurd hcan hc
      | some r => simp [Value.isCanonical, hcan]
    | dynExtractSlice t s ty =>
      cases hcan : canonicalize (.dynExtractSlice t s ty) with
      | none => exact absurd hcan hc
      | some r => simp [Value.isCanonical, hcan]
    | dynExtractElement t s ty =>
      cases hcan : canonicalize (.dynExtractElement t s ty) with
      | none => exact absurd hcan hc
      | some r => simp [Value.isCanonical, hcan]
  | _ => simp_all [Value.isCanonical]

/-- A visit that rewrites the operation is a rule application. -/
theorem canonicalize_step (op op2 : Value) (h : canonicalize op = some op2) : Step op op2 := by
  unfold canonicalize at h
  cases hk : op.opKind with
  | none => rw [hk] at h; cases h
  | some kind =>
    rw [hk] at h
    obtain ⟨pattern, hp, hm⟩ := List.exists_of_findSome?_eq_some h
    exact Step.root kind pattern op op2 hk hp hm

/-- A graph that is not canonical admits a rule application. -/
theorem Value.exists_step_of_not_canonical (a : Value) :
    a.isCanonical = false → ∃ b, Step a b := by
  induction a with
  | blockArgument i ty => intro h; simp [Value.isCanonical] at h
  | constant k v ty => intro h; simp [Value.isCanonical] at h
  | xor a b iha ihb =>
    intro h
    cases hc : canonicalize (.xor a b) with
    | some r => exact ⟨r, canonicalize_step _ _ hc⟩
    | none =>
      cases ha : a.isCanonical with
      | false => obtain ⟨a2, hs⟩ := iha ha; exact ⟨_, Step.xorLhs a a2 b hs⟩
      | true =>
        cases hb : b.isCanonical with
        | false => obtain ⟨b2, hs⟩ := ihb hb; exact ⟨_, Step.xorRhs a b b2 hs⟩
        | true => simp [Value.isCanonical, hc, ha, hb] at h
  | not a iha =>
    intro h
    cases hc : canonicalize (.not a) with
    | some r => exact ⟨r, canonicalize_step _ _ hc⟩
    | none =>
      cases ha : a.isCanonical with
      | false => obtain ⟨a2, hs⟩ := iha ha; exact ⟨_, Step.notOperand a a2 hs⟩
      | true => simp [Value.isCanonical, hc, ha] at h
  | eq a b iha ihb =>
    intro h
    cases hc : canonicalize (.eq a b) with
    | some r => exact ⟨r, canonicalize_step _ _ hc⟩
    | none =>
      cases ha : a.isCanonical with
      | false => obtain ⟨a2, hs⟩ := iha ha; exact ⟨_, Step.eqLhs a a2 b hs⟩
      | true =>
        cases hb : b.isCanonical with
        | false => obtain ⟨b2, hs⟩ := ihb hb; exact ⟨_, Step.eqRhs a b b2 hs⟩
        | true => simp [Value.isCanonical, hc, ha, hb] at h
  | neq a b iha ihb =>
    intro h
    cases hc : canonicalize (.neq a b) with
    | some r => exact ⟨r, canonicalize_step _ _ hc⟩
    | none =>
      cases ha : a.isCanonical with
      | false => obtain ⟨a2, hs⟩ := iha ha; exact ⟨_, Step.neqLhs a a2 b hs⟩
      | true =>
        cases hb : b.isCanonical with
        | false => obtain ⟨b2, hs⟩ := ihb hb; exact ⟨_, Step.neqRhs a b b2 hs⟩
        | true => simp [Value.isCanonical, hc, ha, hb] at h
  | dynExtractSlice t s ty iht ihs =>
    intro h
    cases hc : canonicalize (.dynExtractSlice t s ty) with
    | some r => exact ⟨r, canonicalize_step _ _ hc⟩
    | none =>
      cases ha : t.isCanonical with
      | false => obtain ⟨t2, hs⟩ := iht ha; exact ⟨_, Step.dynSliceTarget t t2 s ty hs⟩
      | true =>
        cases hb : s.isCanonical with
        | false => obtain ⟨s2, hs⟩ := ihs hb; exact ⟨_, Step.dynSliceStart t s s2 ty hs⟩
        | true => simp [Value.isCanonical, hc, ha, hb] at h
  | dynExtractElement t s ty iht ihs =>
    intro h
    cases hc : canonicalize (.dynExtractElement t s ty) with
    | some r => exact ⟨r, canonicalize_step _ _ hc⟩
    | none =>
      cases ha : t.isCanonical with
      | false => obtain ⟨t2, hs⟩ := iht ha; exact ⟨_, Step.dynElementTarget t t2 s ty hs⟩
      | true =>
        cases hb : s.isCanonical with
        | false => obtain ⟨s2, hs⟩ := ihs hb; exact ⟨_, Step.dynElementIndex t s s2 ty hs⟩
        | true => simp [Value.isCanonical, hc, ha, hb] at h
  | extractSlice t k ty iht =>
    intro h
    simp only [Value.isCanonical] at h
    obtain ⟨t2, hs⟩ := iht h
    exact ⟨_, Step.sliceTarget t t2 k ty hs⟩
  | extractElement t k ty iht =>
    intro h
    simp only [Value.isCanonical] at h
    obtain ⟨t2, hs⟩ := iht h
    exact ⟨_, Step.elementTarget t t2 k ty hs⟩

/-- Every graph reaches a canonical graph by rule applications. -/
theorem Value.reaches_canonical : ∀ (n : Nat) (a : Value), a.weight ≤ n →
    ∃ b, Steps a b ∧ b.isCanonical = true := by
  intro n
  induction n with
  | zero =>
    intro a h
    have := Value.weight_pos a
    omega
  | succ k ih =>
    intro a h
    cases hc : a.isCanonical with
    | true => exact ⟨a, Steps.refl a, hc⟩
    | false =>
      obtain ⟨a2, hs⟩ := Value.exists_step_of_not_canonical a hc
      have hw := Step.weight_lt a a2 hs
      obtain ⟨b, hb1, hb2⟩ := ih a2 (by omega)
      exact ⟨b, Steps.step a a2 b hs hb1, hb2⟩

/-- Along a sequence of rule applications the weight falls at every step. -/
theorem Step.chain_weight (f : Nat → Value) (h : ∀ n, Step (f n) (f (n + 1))) :
    ∀ n, (f n).weight + n ≤ (f 0).weight := by
  intro n
  induction n with
  | zero => simp
  | succ k ih =>
    have := Step.weight_lt _ _ (h k)
    omega

/-- A rule never matches its own output. -/
theorem Pattern.no_rematch (pattern : Pattern) (op op2 : Value)
    (h : pattern.matchAndRewrite op = some op2) : pattern.matchAndRewrite op2 = none := by
  cases pattern with
  | XorAllBitsSet =>
    cases op with
    | xor lhs rhs =>
      simp only [Pattern.matchAndRewrite, XorAllBitsSet.matchAndRewrite] at h
      split at h
      · simp only [Option.some.injEq] at h; subst h; rfl
      · split at h
        · simp only [Option.some.injEq] at h; subst h; rfl
        · cases h
    | _ => simp [Pattern.matchAndRewrite, XorAllBitsSet.matchAndRewrite] at h
  | NotOfEq =>
    cases op with
    | not operand =>
      cases operand with
      | eq a b =>
        simp only [Pattern.matchAndRewrite, NotOfEq.matchAndRewrite, Option.some.injEq] at h
        subst h; rfl
      | _ => simp [Pattern.matchAndRewrite, NotOfEq.matchAndRewrite] at h
    | _ => simp [Pattern.matchAndRewrite, NotOfEq.matchAndRewrite] at h
  | NotOfNeq =>
    cases op with
    | not operand =>
      cases operand with
      | neq a b =>
        simp only [Pattern.matchAndRewrite, NotOfNeq.matchAndRewrite, Option.some.injEq] at h
        subst h; rfl
      | _ => simp [Pattern.matchAndRewrite, NotOfNeq.matchAndRewrite] at h
    | _ => simp [Pattern.matchAndRewrite, NotOfNeq.matchAndRewrite] at h
  | BooleanEqToXor =>
    cases op with
    | eq a b =>
      simp only [Pattern.matchAndRewrite, BooleanEqToXor.matchAndRewrite] at h
      split at h
      · simp only [Option.some.injEq] at h; subst h; rfl
      · cases h
    | _ => simp [Pattern.matchAndRewrite, BooleanEqToXor.matchAndRewrite] at h
  | BooleanNeqToXor =>
    cases op with
    | neq a b =>
      simp only [Pattern.matchAndRewrite, BooleanNeqToXor.matchAndRewrite] at h
      split at h
      · simp only [Option.some.injEq] at h; subst h; rfl
      · cases h
    | _ => simp [Pattern.matchAndRewrite, BooleanNeqToXor.matchAndRewrite] at h
  | DynExtractSliceWithConstantOpStart =>
    cases op with
    | dynExtractSlice t s ty =>
      cases s with
      | constant kind value type =>
        simp only [Pattern.matchAndRewrite, DynExtractSliceWithStart.matchAndRewrite] at h
        split at h
        · simp only [Option.some.injEq] at h; subst h; rfl
        · cases h
      | _ => simp [Pattern.matchAndRewrite, DynExtractSliceWithStart.matchAndRewrite] at h
    | _ => simp [Pattern.matchAndRewrite, DynExtractSliceWithStart.matchAndRewrite] at h
  | DynExtractSliceWithLLHDConstOpStart =>
    cases op with
    | dynExtractSlice t s ty =>
      cases s with
      | constant kind value type =>
        simp only [Pattern.matchAndRewrite, DynExtractSliceWithStart.matchAndRewrite] at h
        split at h
        · simp only [Option.some.injEq] at h; subst h; rfl
        · cases h
      | _ => simp [Pattern.matchAndRewrite, DynExtractSliceWithStart.matchAndRewrite] at h
    | _ => simp [Pattern.matchAndRewrite, DynExtractSliceWithStart.matchAndRewrite] at h
  | DynExtractElementWithConstantOpIndex =>
    cases op with
    | dynExtractElement t s ty =>
      cases s with
      | constant kind value type =>
        simp only [Pattern.matchAndRewrite, DynExtractElementWithIndex.matchAndRewrite] at h
        split at h
        · simp only [Option.some.injEq] at h; subst h; rfl
        · cases h
      | _ => simp [Pattern.matchAndRewrite, DynExtractElementWithIndex.matchAndRewrite] at h
    | _ => simp [Pattern.matchAndRewrite, DynExtractElementWithIndex.matchAndRewrite] at h
  | DynExtractElementWithLLHDConstOpIndex =>
    cases op with
    | dynExtractElement t s ty =>
      cases s with
      | constant kind value type =>
        simp only [Pattern.matchAndRewrite, DynExtractElementWithIndex.matchAndRewrite] at h
        split at h
        · simp only [Option.some.injEq] at h; subst h; rfl
        · cases h
      | _ => simp [Pattern.matchAndRewrite, DynExtractElementWithIndex.matchAndRewrite] at h
    | _ => simp [Pattern.matchAndRewrite, DynExtractElementWithIndex.matchAndRewrite] at h

/-- The NOT rules have disjoint preconditions. -/
theorem NotOfEq.disjoint_NotOfNeq (op : Value) :
    ((NotOfEq.matchAndRewrite op).isSome && (NotOfNeq.matchAndRewrite op).isSome) = false := by
  cases op with
  | not operand =>
    cases operand <;> simp [NotOfEq.matchAndRewrite, NotOfNeq.matchAndRewrite]
  | _ => simp [NotOfEq.matchAndRewrite]

/-- The two slice rules have disjoint preconditions. -/
theorem DynExtractSliceWithStart.disjoint_kinds (op : Value) :
    ((DynExtractSliceWithStart.matchAndRewrite .ConstantOp op).isSome &&
      (DynExtractSliceWithStart.matchAndRewrite .LLHDConstOp op).isSome) = false := by
  cases op with
  | dynExtractSlice t s ty =>
    cases s with
    | constant kind value type =>
      cases kind <;> simp [DynExtractSliceWithStart.matchAndRewrite]
    | _ => simp [DynExtractSliceWithStart.matchAndRewrite]
  | _ => simp [DynExtractSliceWithStart.matchAndRewrite]

/-- The two element rules have disjoint preconditions. -/
theorem DynExtractElementWithIndex.disjoint_index_kinds (op : Value) :
    ((DynExtractElementWithIndex.matchAndRewrite .ConstantOp op).isSome &&
      (DynExtractElementWithIndex.matchAndRewrite .LLHDConstOp op).isSome) = false := by
  cases op with
  | dynExtractElement t s ty =>
    cases s with
    | constant kind value type =>
      cases kind <;> simp [DynExtractElementWithIndex.matchAndRewrite]
    | _ => simp [DynExtractElementWithIndex.matchAndRewrite]
  | _ => simp [DynExtractElementWithIndex.matchAndRewrite]

/-- At most one rule of a kind's list matches an operation. -/
theorem Pattern.unique_match (kind : OpKind) (op : Value) (p q : Pattern)
    (hp : p ∈ getCanonicalizationPatterns kind) (hq : q ∈ getCanonicalizationPatterns kind)
    (h1 : (p.matchAndRewrite op).isSome = true) (h2 : (q.matchAndRewrite op).isSome = true) :
    p = q := by
  have hn := NotOfEq.disjoint_NotOfNeq op
  have hs := DynExtractSliceWithStart.disjoint_kinds op
  have he := DynExtractElementWithIndex.disjoint_index_kinds op
  cases kind <;>
    simp only [getCanonicalizationPatterns, XorOp.getCanonicalizationPatterns,
      NotOp.getCanonicalizationPatterns, EqOp.getCanonicalizationPatterns,
      NeqOp.getCanonicalizationPatterns, DynExtractSliceOp.getCanonicalizationPatterns,
      DynExtractElementOp.getCanonicalizationPatterns, List.nil_append, List.mem_cons,
      List.mem_singleton, List.not_mem_nil, or_false] at hp hq <;>
    rcases hp with rfl | rfl <;> rcases hq with rfl | rfl <;>
    first
      | rfl
      | (simp only [Pattern.matchAndRewrite] at h1 h2; simp [h1, h2] at hn hs he)

/-- When at most one element of a list matches, the first match does not
depend on the order of the list. -/
theorem findSome_perm_of_unique {α β : Type} (f : α → Option β) (l1 l2 : List α)
    (hperm : l1.Perm l2)
    (huniq : ∀ a b, a ∈ l2 → b ∈ l2 → (f a).isSome = true → (f b).isSome = true → a = b) :
    l1.findSome? f = l2.findSome? f := by
  cases h2 : l2.findSome? f with
  | none =>
    rw [List.findSome?_eq_none_iff] at h2 ⊢
    intro x hx
    exact h2 x (hperm.mem_iff.1 hx)
  | some r =>
    obtain ⟨a, ha, hfa⟩ := List.exists_of_findSome?_eq_some h2
    cases h1 : l1.findSome? f with
    | none =>
      rw [List.findSome?_eq_none_iff] at h1
      rw [h1 a (hperm.mem_iff.2 ha)] at hfa
      cases hfa
    | some r1 =>
      obtain ⟨b, hb, hfb⟩ := List.exists_of_findSome?_eq_some h1
      have hab : a = b := huniq a b ha (hperm.mem_iff.1 hb) (by simp [hfa]) (by simp [hfb])
      subst hab
      rw [hfa] at hfb
      exact hfb.symm

/-! ### The rules -/

/-- C11: the NOT rules rewrite `not(eq(a,b))` to `neq(a,b)` and
`not(neq(a,b))` to `eq(a,b)`, on the same operands in the same order;
negating the output of one and applying the other gives back the operation
of the original kind on the original operands. -/
theorem not_rules_swap_eq_and_neq (a b : Value) :
    Pattern.matchAndRewrite .NotOfEq (.not (.eq a b)) = some (.neq a b) ∧
    Pattern.matchAndRewrite .NotOfNeq (.not (.neq a b)) = some (.eq a b) ∧
    canonicalize (.not (.eq a b)) = some (.neq a b) ∧
    canonicalize (.not (.neq a b)) = some (.eq a b) ∧
    (Pattern.matchAndRewrite .NotOfEq (.not (.eq a b))).bind
      (fun result => Pattern.matchAndRewrite .NotOfNeq (.not result)) = some (.eq a b) ∧
    (Pattern.matchAndRewrite .NotOfNeq (.not (.neq a b))).bind
      (fun result => Pattern.matchAndRewrite .NotOfEq (.not result)) = some (.neq a b) ∧
    (canonicalize (.not (.eq a b))).bind (fun result => canonicalize (.not result)) =
      some (.eq a b) ∧
    (canonicalize (.not (.neq a b))).bind (fun result => canonicalize (.not result)) =
      some (.neq a b) := by
  refine ⟨rfl, rfl, rfl, rfl, rfl, rfl, rfl, rfl⟩

/-- C12: every logical rule replaces an operation by one that computes the
same value: `xor(x, all-ones) = not(x)` at every width, `not(eq(a,b)) =
neq(a,b)` and `not(neq(a,b)) = eq(a,b)`, and on single bits `eq(a,b) =
not(xor(a,b))` and `neq(a,b) = xor(a,b)`; so the replacement a rule builds
computes what the operation computed, in every well-typed graph. -/
theorem logical_rules_preserve_value (w x a b c d : Nat) (hx : x < 2 ^ w)
    (hc : c < 2) (hd : d < 2) :
    evalXor x (2 ^ w - 1) = evalNot w x ∧
    evalXor (2 ^ w - 1) x = evalNot w x ∧
    evalNot 1 (evalEq a b) = evalNeq a b ∧
    evalNot 1 (evalNeq a b) = evalEq a b ∧
    evalEq c d = evalNot 1 (evalXor c d) ∧
    evalNeq c d = evalXor c d ∧
    (∀ (pattern : Pattern) (op op2 : Value) (sem : ExtractSemantics) (env : Nat → Nat),
      pattern.matchAndRewrite op = some op2 → op.wellTyped = true →
        op2.eval sem env = op.eval sem env ∧ op2.getType = op.getType) := by
  refine ⟨xor_allOnes_eq_sub w x hx, ?_, (evalNot_evalEq a b).1, (evalNot_evalEq a b).2,
    (evalEq_single_bit c d hc hd).1, (evalEq_single_bit c d hc hd).2, ?_⟩
  · simp only [evalXor, evalNot]
    rw [Nat.xor_comm]
    exact xor_allOnes_eq_sub w x hx
  · intro pattern op op2 sem env hm hwt
    obtain ⟨_, h2, h3⟩ := Pattern.matchAndRewrite_sound pattern op op2 hm hwt
    exact ⟨h3 sem env, h2⟩

/-- Witness of C12: width 8 and `x = 0x5A`, single bits 1 and 0. -/
theorem logical_rules_preserve_value_witness :
    90 < 2 ^ 8 ∧ 1 < 2 ∧ 0 < 2 ∧
    evalXor 90 (2 ^ 8 - 1) = evalNot 8 90 ∧
    evalNot 1 (evalEq 7 7) = evalNeq 7 7 ∧
    evalEq 1 0 = evalNot 1 (evalXor 1 0) ∧
    evalNeq 1 0 = evalXor 1 0 :=
  have h := logical_rules_preserve_value 8 90 7 7 1 0 (by decide) (by decide) (by decide)
  ⟨by decide, by decide, by decide, h.1, h.2.2.1, h.2.2.2.2.1, h.2.2.2.2.2.1⟩

/-- C13 fails as stated: with `x = eq(a, b)` (a single-bit value) and `c` the
single-bit constant 1, `xor(x, c)` canonicalizes to `not(x)`, and
canonicalizing `not(x)` again rewrites it to `neq(a, b)`. -/
theorem xor_result_rewritten_again :
    (Value.constant .LLHDConstOp 1 (.integer 1)).isAllBitsSetConstant = true ∧
    (Value.constant .LLHDConstOp 1 (.integer 1)).getType =
      (Value.eq (.blockArgument 0 (.integer 8)) (.blockArgument 1 (.integer 8))).getType ∧
    canonicalize (.xor (.eq (.blockArgument 0 (.integer 8)) (.blockArgument 1 (.integer 8)))
        (.constant .LLHDConstOp 1 (.integer 1))) =
      some (.not (.eq (.blockArgument 0 (.integer 8)) (.blockArgument 1 (.integer 8)))) ∧
    canonicalize (.not (.eq (.blockArgument 0 (.integer 8)) (.blockArgument 1 (.integer 8)))) =
      some (.neq (.blockArgument 0 (.integer 8)) (.blockArgument 1 (.integer 8))) ∧
    canonicalize (.not (.eq (.blockArgument 0 (.integer 8)) (.blockArgument 1 (.integer 8)))) ≠
      none := by
  decide

/-- C13, as the rules have it: for every value `x` and every constant with
every bit set, `xor(x, c)` canonicalizes to `not(x)`; canonicalizing the
result again changes nothing when the operand is not itself the result of an
EQ or NEQ, and then the graph of `not(y)` is canonical when that of `y` is. -/
theorem xor_all_bits_set_fixed_point (x y : Value) (kind : ConstantKind) (w : Nat)
    (hy : y.isEqOrNeq = false) :
    canonicalize (.xor x (.constant kind (2 ^ w - 1) (.integer w))) = some (.not x) ∧
    canonicalize (.xor y (.constant kind (2 ^ w - 1) (.integer w))) = some (.not y) ∧
    canonicalize (.not y) = none ∧
    (Value.not y).isCanonical = y.isCanonical := by
  have hxor : ∀ v : Value,
      canonicalize (.xor v (.constant kind (2 ^ w - 1) (.integer w))) = some (.not v) := by
    intro v
    simp [canonicalize, Value.opKind, applyPatterns, getCanonicalizationPatterns,
      XorOp.getCanonicalizationPatterns, Pattern.matchAndRewrite,
      XorAllBitsSet.matchAndRewrite, Value.isAllBitsSetConstant]
  have hnot : canonicalize (.not y) = none := by
    cases y <;>
      simp [Value.isEqOrNeq] at hy <;>
      simp [canonicalize, Value.opKind, applyPatterns, getCanonicalizationPatterns,
        NotOp.getCanonicalizationPatterns, Pattern.matchAndRewrite,
        NotOfEq.matchAndRewrite, NotOfNeq.matchAndRewrite]
  refine ⟨hxor x, hxor y, hnot, ?_⟩
  simp [Value.isCanonical, hnot]

/-- Witness of C13 (amended): `xor(x, 0xFF)` on a block argument `x : i8`. -/
theorem xor_all_bits_set_fixed_point_witness :
    (Value.blockArgument 0 (.integer 8)).isEqOrNeq = false ∧
    canonicalize (.xor (.blockArgument 0 (.integer 8))
      (.constant .ConstantOp (2 ^ 8 - 1) (.integer 8))) =
      some (.not (.blockArgument 0 (.integer 8))) ∧
    canonicalize (.not (.blockArgument 0 (.integer 8))) = none :=
  have h := xor_all_bits_set_fixed_point (.blockArgument 0 (.integer 8))
    (.blockArgument 0 (.integer 8)) .ConstantOp 8 rfl
  ⟨rfl, h.1, h.2.2.1⟩

/-- C14: a dynamic slice (element) extraction whose start (index) operand is
a constant with literal `k`, generic or of the dialect, canonicalizes to the
static-start slice (static-index element) extraction at `k` on the same
target, with the result type of the original operation. -/
theorem dynamic_extraction_folds_to_static (target : Value) (k : Nat)
    (constantType resultType : IRType) :
    canonicalize (.dynExtractSlice target (.constant .ConstantOp k constantType) resultType) =
      some (.extractSlice target k resultType) ∧
    canonicalize (.dynExtractSlice target (.constant .LLHDConstOp k constantType) resultType) =
      some (.extractSlice target k resultType) ∧
    canonicalize (.dynExtractElement target (.constant .ConstantOp k constantType) resultType) =
      some (.extractElement target k resultType) ∧
    canonicalize (.dynExtractElement target (.constant .LLHDConstOp k constantType) resultType) =
      some (.extractElement target k resultType) ∧
    Pattern.matchAndRewrite .DynExtractSliceWithConstantOpStart
        (.dynExtractSlice target (.constant .ConstantOp k constantType) resultType) =
      some (.extractSlice target k resultType) ∧
    Pattern.matchAndRewrite .DynExtractSliceWithLLHDConstOpStart
        (.dynExtractSlice target (.constant .LLHDConstOp k constantType) resultType) =
      some (.extractSlice target k resultType) ∧
    Pattern.matchAndRewrite .DynExtractElementWithConstantOpIndex
        (.dynExtractElement target (.constant .ConstantOp k constantType) resultType) =
      some (.extractElement target k resultType) ∧
    Pattern.matchAndRewrite .DynExtractElementWithLLHDConstOpIndex
        (.dynExtractElement target (.constant .LLHDConstOp k constantType) resultType) =
      some (.extractElement target k resultType) ∧
    (Value.extractSlice target k resultType).getType =
      (Value.dynExtractSlice target (.constant .ConstantOp k constantType) resultType).getType ∧
    (Value.extractElement target k resultType).getType =
      (Value.dynExtractElement target (.constant .ConstantOp k constantType)
        resultType).getType := by
  refine ⟨rfl, rfl, rfl, rfl, rfl, rfl, rfl, rfl, rfl, rfl⟩

/-- C15 fails as stated: from `not(eq(a, b))` on single-bit `a`, `b`, visiting
the NOT first ends in `xor(a, b)`, visiting the EQ first ends in
`not(not(xor(a, b)))`; both graphs are canonical (no rule applies anywhere)
and they differ. -/
theorem canonical_forms_differ :
    Steps (.not (.eq (.blockArgument 0 (.integer 1)) (.blockArgument 1 (.integer 1))))
      (.xor (.blockArgument 0 (.integer 1)) (.blockArgument 1 (.integer 1))) ∧
    Steps (.not (.eq (.blockArgument 0 (.integer 1)) (.blockArgument 1 (.integer 1))))
      (.not (.not (.xor (.blockArgument 0 (.integer 1)) (.blockArgument 1 (.integer 1))))) ∧
    (Value.xor (.blockArgument 0 (.integer 1)) (.blockArgument 1 (.integer 1))).isCanonical
      = true ∧
    (Value.not (.not (.xor (.blockArgument 0 (.integer 1))
      (.blockArgument 1 (.integer 1))))).isCanonical = true ∧
    (∀ c, ¬ Step (.xor (.blockArgument 0 (.integer 1)) (.blockArgument 1 (.integer 1))) c) ∧
    (∀ c, ¬ Step (.not (.not (.xor (.blockArgument 0 (.integer 1))
      (.blockArgument 1 (.integer 1))))) c) ∧
    Value.xor (.blockArgument 0 (.integer 1)) (.blockArgument 1 (.integer 1)) ≠
      Value.not (.not (.xor (.blockArgument 0 (.integer 1)) (.blockArgument 1 (.integer 1)))) ∧
    (Value.not (.eq (.blockArgument 0 (.integer 1))
      (.blockArgument 1 (.integer 1)))).wellTyped = true := by
  refine ⟨?_, ?_, by decide, by decide, ?_, ?_, by decide, by decide⟩
  · exact Steps.step _ _ _
      (Step.root .NotOp .NotOfEq _ _ rfl (by decide) rfl)
      (Steps.step _ _ _ (Step.root .NeqOp .BooleanNeqToXor _ _ rfl (by decide) rfl)
        (Steps.refl _))
  · exact Steps.step _ _ _
      (Step.notOperand _ _ (Step.root .EqOp .BooleanEqToXor _ _ rfl (by decide) rfl))
      (Steps.refl _)
  · intro c hc
    have := Value.isCanonical_no_step _ _ hc
    revert this
    decide
  · intro c hc
    have := Value.isCanonical_no_step _ _ hc
    revert this
    decide

/-- C15, as the rules have it: in a well-typed graph any two sequences of
rule applications from the same graph, maximal or not, end in graphs that are
well typed, have the same type and compute the same value for all inputs
(not necessarily in the same graph). -/
theorem rewrite_sequences_agree_on_value (t t1 t2 : Value) (hwt : t.wellTyped = true)
    (h1 : Steps t t1) (h2 : Steps t t2) :
    t1.wellTyped = true ∧ t2.wellTyped = true ∧ t1.getType = t2.getType ∧
    ∀ (sem : ExtractSemantics) (env : Nat → Nat), t1.eval sem env = t2.eval sem env := by
  obtain ⟨a1, a2, a3⟩ := Steps.preserve_value t t1 h1 hwt
  obtain ⟨b1, b2, b3⟩ := Steps.preserve_value t t2 h2 hwt
  exact ⟨a1, b1, a2.trans b2.symm, fun sem env => (a3 sem env).trans (b3 sem env).symm⟩

/-- Witness of C15 (amended): the two canonical forms of `not(eq(a, b))` on
single bits compute the same value. -/
theorem rewrite_sequences_agree_on_value_witness :
    (Value.not (.eq (.blockArgument 0 (.integer 1))
      (.blockArgument 1 (.integer 1)))).wellTyped = true ∧
    Steps (.not (.eq (.blockArgument 0 (.integer 1)) (.blockArgument 1 (.integer 1))))
      (.xor (.blockArgument 0 (.integer 1)) (.blockArgument 1 (.integer 1))) ∧
    Steps (.not (.eq (.blockArgument 0 (.integer 1)) (.blockArgument 1 (.integer 1))))
      (.not (.not (.xor (.blockArgument 0 (.integer 1)) (.blockArgument 1 (.integer 1))))) ∧
    ∀ (sem : ExtractSemantics) (env : Nat → Nat),
      (Value.xor (.blockArgument 0 (.integer 1)) (.blockArgument 1 (.integer 1))).eval sem env =
      (Value.not (.not (.xor (.blockArgument 0 (.integer 1))
        (.blockArgument 1 (.integer 1))))).eval sem env :=
  have s1 : Steps (.not (.eq (.blockArgument 0 (.integer 1)) (.blockArgument 1 (.integer 1))))
      (.xor (.blockArgument 0 (.integer 1)) (.blockArgument 1 (.integer 1))) :=
    Steps.step _ _ _ (Step.root .NotOp .NotOfEq _ _ rfl (by decide) rfl)
      (Steps.step _ _ _ (Step.root .NeqOp .BooleanNeqToXor _ _ rfl (by decide) rfl)
        (Steps.refl _))
  have s2 : Steps (.not (.eq (.blockArgument 0 (.integer 1)) (.blockArgument 1 (.integer 1))))
      (.not (.not (.xor (.blockArgument 0 (.integer 1)) (.blockArgument 1 (.integer 1))))) :=
    Steps.step _ _ _
      (Step.notOperand _ _ (Step.root .EqOp .BooleanEqToXor _ _ rfl (by decide) rfl))
      (Steps.refl _)
  ⟨by decide, s1, s2,
   (rewrite_sequences_agree_on_value _ _ _ (by decide) s1 s2).2.2.2⟩

/-- C16: at most one rule of a kind's rule list matches an operation: the
NOT rules, the two slice rules and the two element rules have pairwise
disjoint preconditions; so a visit gives the same outcome whatever the order
of the list. -/
theorem at_most_one_rule_matches (op : Value) (kind : OpKind) (order : List Pattern)
    (hperm : order.Perm (getCanonicalizationPatterns kind)) :
    ((getCanonicalizationPatterns kind).filter
      (fun pattern => (pattern.matchAndRewrite op).isSome)).length ≤ 1 ∧
    applyPatterns order op = applyPatterns (getCanonicalizationPatterns kind) op ∧
    ((Pattern.matchAndRewrite .NotOfEq op).isSome &&
      (Pattern.matchAndRewrite .NotOfNeq op).isSome) = false ∧
    ((Pattern.matchAndRewrite .DynExtractSliceWithConstantOpStart op).isSome &&
      (Pattern.matchAndRewrite .DynExtractSliceWithLLHDConstOpStart op).isSome) = false ∧
    ((Pattern.matchAndRewrite .DynExtractElementWithConstantOpIndex op).isSome &&
      (Pattern.matchAndRewrite .DynExtractElementWithLLHDConstOpIndex op).isSome) = false := by
  have hn := NotOfEq.disjoint_NotOfNeq op
  have hs := DynExtractSliceWithStart.disjoint_kinds op
  have he := DynExtractElementWithIndex.disjoint_index_kinds op
  refine ⟨?_, ?_, hn, hs, he⟩
  · cases kind
    · exact List.length_filter_le _ _
    · simp only [getCanonicalizationPatterns, NotOp.getCanonicalizationPatterns,
        List.nil_append, Pattern.matchAndRewrite, List.filter]
      cases h1 : (NotOfEq.matchAndRewrite op).isSome <;>
        cases h2 : (NotOfNeq.matchAndRewrite op).isSome <;> simp [h1, h2] at hn ⊢
    · exact List.length_filter_le _ _
    · exact List.length_filter_le _ _
    · simp only [getCanonicalizationPatterns, DynExtractSliceOp.getCanonicalizationPatterns,
        List.nil_append, Pattern.matchAndRewrite, List.filter]
      cases h1 : (DynExtractSliceWithStart.matchAndRewrite .ConstantOp op).isSome <;>
        cases h2 : (DynExtractSliceWithStart.matchAndRewrite .LLHDConstOp op).isSome <;>
        simp [h1, h2] at hs ⊢
    · simp only [getCanonicalizationPatterns, DynExtractElementOp.getCanonicalizationPatterns,
        List.nil_append, Pattern.matchAndRewrite, List.filter]
      cases h1 : (DynExtractElementWithIndex.matchAndRewrite .ConstantOp op).isSome <;>
        cases h2 : (DynExtractElementWithIndex.matchAndRewrite .LLHDConstOp op).isSome <;>
        simp [h1, h2] at he ⊢
  · exact findSome_perm_of_unique _ _ _ hperm
      (fun p q hp hq h1 h2 => Pattern.unique_match kind op p q hp hq h1 h2)

/-- Witness of C16: the NOT rules offered in the reverse order to
`not(neq(a, b))`. -/
theorem at_most_one_rule_matches_witness :
    [Pattern.NotOfNeq, Pattern.NotOfEq].Perm (getCanonicalizationPatterns .NotOp) ∧
    applyPatterns [Pattern.NotOfNeq, Pattern.NotOfEq]
        (.not (.neq (.blockArgument 0 (.integer 8)) (.blockArgument 1 (.integer 8)))) =
      applyPatterns (getCanonicalizationPatterns .NotOp)
        (.not (.neq (.blockArgument 0 (.integer 8)) (.blockArgument 1 (.integer 8)))) ∧
    ((getCanonicalizationPatterns .NotOp).filter
      (fun pattern => (pattern.matchAndRewrite
        (.not (.neq (.blockArgument 0 (.integer 8))
          (.blockArgument 1 (.integer 8))))).isSome)).length ≤ 1 :=
  have hperm : [Pattern.NotOfNeq, Pattern.NotOfEq].Perm (getCanonicalizationPatterns .NotOp) :=
    List.Perm.swap _ _ _
  have h := at_most_one_rule_matches
    (.not (.neq (.blockArgument 0 (.integer 8)) (.blockArgument 1 (.integer 8)))) .NotOp
    [Pattern.NotOfNeq, Pattern.NotOfEq] hperm
  ⟨hperm, h.2.1, h.1⟩

/-- C17: rewriting with the rule set always ends: every rule application
makes the graph lighter, so there is no infinite sequence of rule
applications; no rule matches its own output; and every graph reaches, by
rule applications, a canonical graph, on which no rule applies any more. -/
theorem rewriting_terminates :
    WellFounded (fun b a : Value => Step a b) ∧
    (∀ a b, Step a b → b.weight < a.weight) ∧
    (∀ f : Nat → Value, ¬ ∀ n, Step (f n) (f (n + 1))) ∧
    (∀ (pattern : Pattern) (op op2 : Value),
      pattern.matchAndRewrite op = some op2 → pattern.matchAndRewrite op2 = none) ∧
    (∀ a, ∃ b, Steps a b ∧ b.isCanonical = true ∧ canonicalize b = none ∧
      ∀ c, ¬ Step b c) := by
  refine ⟨Step.wellFounded, Step.weight_lt, ?_, Pattern.no_rematch, ?_⟩
  · intro f hf
    have h := Step.chain_weight f hf ((f 0).weight + 1)
    omega
  · intro a
    obtain ⟨b, hb1, hb2⟩ := Value.reaches_canonical a.weight a (Nat.le_refl _)
    refine ⟨b, hb1, hb2, ?_, ?_⟩
    · cases hc : canonicalize b with
      | none => rfl
      | some r =>
        have := Value.isCanonical_no_step b r (canonicalize_step b r hc)
        rw [hb2] at this
        cases this
    · intro c hc
      have := Value.isCanonical_no_step b c hc
      rw [hb2] at this
      cases this

end LLHD

namespace RTL

/-! ### Invariants of constructed types -/

/-- A value type that the constructors can produce contains no inout type. -/
theorem Ty.valueType_no_inout :
    ∀ (m : Nat) (e : Ty), e.depth ≤ m → isRTLValueType e = true → e.constructible = true →
      e.containsInOut = false := by
  intro m
  induction m with
  | zero =>
    intro e hd hv hc
    cases e with
    | integer w sign => rfl
    | array e n => simp [Ty.depth] at hd
    | inout e => simp [isRTLValueType, Ty.dynCastInteger, Ty.isaArrayType] at hv
    | struct fs => simp [isRTLValueType, Ty.dynCastInteger, Ty.isaArrayType] at hv
    | other name => rfl
  | succ k ih =>
    intro e hd hv hc
    cases e with
    | integer w sign => rfl
    | array e n =>
      simp only [Ty.depth, Nat.add_le_add_iff_right] at hd
      simp only [Ty.constructible, Bool.and_eq_true, decide_eq_true_eq] at hc
      simp only [Ty.containsInOut]
      exact ih e hd hc.1.1 hc.1.2
    | inout e => simp [isRTLValueType, Ty.dynCastInteger, Ty.isaArrayType] at hv
    | struct fs => simp [isRTLValueType, Ty.dynCastInteger, Ty.isaArrayType] at hv
    | other name => rfl

/-- `ArrayType::getChecked` returns a type only on an element that
`verifyConstructionInvariants` accepts: a value type. -/
theorem ArrayType.getChecked_element_valid (loc : Location) (e : Ty) (n : Nat)
    (diags : List Diagnostic) (t : Ty)
    (h : (ArrayType.getChecked loc e n diags).1 = some t) :
    t = .array e n ∧ isRTLValueType e = true ∧
      ArrayType.verifyConstructionInvariants loc e n diags = (.success, diags) := by
  cases hv : isRTLValueType e <;>
    simp [ArrayType.getChecked, ArrayType.verifyConstructionInvariants, hv, emitError,
      failed, ArrayType.get] at h ⊢
  exact h.symm

/-- `InOutType::getChecked` returns a type only on an element that
`verifyConstructionInvariants` accepts: a value type. -/
theorem InOutType.getChecked_inout_element_valid (loc : Location) (e : Ty)
    (diags : List Diagnostic) (t : Ty)
    (h : (InOutType.getChecked loc e diags).1 = some t) :
    t = .inout e ∧ isRTLValueType e = true ∧
      InOutType.verifyConstructionInvariants loc e diags = (.success, diags) := by
  cases hv : isRTLValueType e <;>
    simp [InOutType.getChecked, InOutType.verifyConstructionInvariants, hv, emitError,
      failed, InOutType.get] at h ⊢
  exact h.symm

/-- `ArrayType::parse` returns a type only on one dimension and an element
that `verifyConstructionInvariants` accepts: a value type. -/
theorem ArrayType.parse_element_valid (p : DialectAsmParser) (s s1 : ParserState)
    (dims : List Int) (e t : Ty) (hs : ArrayType.parseShape p s = (some (dims, e), s1))
    (h : (ArrayType.parse p s).1 = some t) :
    t = .array e (toSizeT (dims.headD 0)) ∧ isRTLValueType e = true ∧ dims.length = 1 := by
  by_cases hd : dims.length = 1
  · cases hv : isRTLValueType e <;>
      simp [ArrayType.parse, hs, hd, ArrayType.verifyConstructionInvariants, hv, emitError,
        failed, ArrayType.get] at h ⊢
    exact h.symm
  · simp [ArrayType.parse, hs, hd] at h

/-- `InOutType::parse` returns a type only on an element that
`verifyConstructionInvariants` accepts: a value type. -/
theorem InOutType.parse_inout_element_valid (p : DialectAsmParser) (s s1 : ParserState)
    (e t : Ty) (hs : InOutType.parseShape p s = (some e, s1))
    (h : (InOutType.parse p s).1 = some t) :
    t = .inout e ∧ isRTLValueType e = true := by
  cases hv : isRTLValueType e <;>
    simp [InOutType.parse, hs, InOutType.verifyConstructionInvariants, hv, emitError,
      failed, InOutType.get] at h ⊢
  exact h.symm

/-- In an obtainable type that is a value type no inout type occurs, and in an
obtainable array or inout type none occurs below the outermost type. -/
theorem Ty.Obtainable.no_inout_below (t : Ty) (h : Ty.Obtainable t) :
    (isRTLValueType t = true → t.containsInOut = false) ∧
    (t.isaArrayType = true ∨ t.isaInOutType = true → t.hasNestedInOut = false) := by
  induction h with
  | integer w sign => simp [Ty.containsInOut, Ty.isaArrayType, Ty.isaInOutType]
  | other name => simp [Ty.containsInOut, Ty.isaArrayType, Ty.isaInOutType]
  | arrayChecked loc inner size diags result _ hres ih =>
    obtain ⟨rfl, hv, -⟩ := ArrayType.getChecked_element_valid _ _ _ _ _ hres
    simp only [Ty.containsInOut, Ty.hasNestedInOut]
    exact ⟨fun _ => ih.1 hv, fun _ => ih.1 hv⟩
  | arrayParsed p s s1 dims inner result hs _ hres ih =>
    obtain ⟨rfl, hv, -⟩ := ArrayType.parse_element_valid _ _ _ _ _ _ hs hres
    simp only [Ty.containsInOut, Ty.hasNestedInOut]
    exact ⟨fun _ => ih.1 hv, fun _ => ih.1 hv⟩
  | inoutChecked loc inner diags result _ hres ih =>
    obtain ⟨rfl, hv, -⟩ := InOutType.getChecked_inout_element_valid _ _ _ _ hres
    simp only [Ty.hasNestedInOut]
    refine ⟨fun h => ?_, fun _ => ih.1 hv⟩
    simp [isRTLValueType, Ty.dynCastInteger, Ty.isaArrayType] at h
  | inoutParsed p s s1 inner result hs _ hres ih =>
    obtain ⟨rfl, hv⟩ := InOutType.parse_inout_element_valid _ _ _ _ _ hs hres
    simp only [Ty.hasNestedInOut]
    refine ⟨fun h => ?_, fun _ => ih.1 hv⟩
    simp [isRTLValueType, Ty.dynCastInteger, Ty.isaArrayType] at h
  | struct fields _ _ =>
    simp [makeStruct, isRTLValueType, Ty.dynCastInteger, Ty.isaArrayType, Ty.isaInOutType]

/-- C18 fails as stated: the struct type with the single member
`a : inout<i8>` is obtainable from the constructors (`inout<i8>` from
`InOutType::getChecked`, the struct from `makeStruct`, which validates
nothing) and has an inout type as a member type; so does an inout type as a
member of a struct nested in a struct. -/
theorem struct_member_inout_constructible :
    (InOutType.getChecked 0 (.integer 8 .Signless) []).1 =
      some (.inout (.integer 8 .Signless)) ∧
    Ty.Obtainable (.inout (.integer 8 .Signless)) ∧
    Ty.Obtainable (makeStruct [.mk "a" (.inout (.integer 8 .Signless))]) ∧
    (makeStruct [.mk "a" (.inout (.integer 8 .Signless))]).hasNestedInOut = true ∧
    Ty.Obtainable
      (makeStruct [.mk "s" (makeStruct [.mk "a" (.inout (.integer 8 .Signless))])]) ∧
    (makeStruct [.mk "s" (makeStruct [.mk "a" (.inout (.integer 8 .Signless))])]).hasNestedInOut
      = true ∧
    (Ty.inout (.integer 8 .Signless)).constructible = true ∧
    (Ty.struct [.mk "a" (.inout (.integer 8 .Signless))]).constructible = true ∧
    (Ty.struct [.mk "a" (.inout (.integer 8 .Signless))]).hasNestedInOut = true ∧
    (Ty.struct [.mk "s" (.struct [.mk "a" (.inout (.integer 8 .Signless))])]).constructible
      = true ∧
    (Ty.struct [.mk "s" (.struct [.mk "a" (.inout (.integer 8 .Signless))])]).hasNestedInOut
      = true := by
  have hio : Ty.Obtainable (.inout (.integer 8 .Signless)) :=
    Ty.Obtainable.inoutChecked 0 (.integer 8 .Signless) [] _
      (Ty.Obtainable.integer 8 .Signless) (by decide)
  have hst : Ty.Obtainable (makeStruct [.mk "a" (.inout (.integer 8 .Signless))]) := by
    refine Ty.Obtainable.struct _ (fun field hf => ?_)
    rw [List.mem_singleton] at hf
    subst hf
    exact hio
  refine ⟨by decide, hio, hst, by decide, ?_, by decide, by decide, by decide, by decide,
    by decide, by decide⟩
  refine Ty.Obtainable.struct _ (fun field hf => ?_)
  rw [List.mem_singleton] at hf
  subst hf
  exact hst

/-- C18, as the code has it: in every array or inout type obtainable from the
constructors (`getChecked` or `parse`, on obtainable element types; struct
types from `makeStruct`) no inout type occurs below the outermost type, at any
depth: `verifyConstructionInvariants` lets only a value type through as the
element, a struct type is not a value type, and an obtainable value type
contains no inout type.  So whatever `getChecked` or `parse` returns on an
obtainable element has no inout type below its outermost type.  (Struct
members are not validated.) -/
theorem no_inout_below_array_or_inout (t : Ty) (hobtainable : Ty.Obtainable t)
    (hkind : t.isaArrayType = true ∨ t.isaInOutType = true) :
    t.hasNestedInOut = false ∧
    (∃ e, (t = .inout e ∨ ∃ n, t = .array e n) ∧ isRTLValueType e = true ∧
      e.containsInOut = false) ∧
    (∀ loc n diags r, (ArrayType.getChecked loc t n diags).1 = some r →
      r.hasNestedInOut = false) ∧
    (∀ loc diags r, (InOutType.getChecked loc t diags).1 = some r →
      r.hasNestedInOut = false) ∧
    (∀ p s s1 dims r, ArrayType.parseShape p s = (some (dims, t), s1) →
      (ArrayType.parse p s).1 = some r → r.hasNestedInOut = false) ∧
    (∀ p s s1 r, InOutType.parseShape p s = (some t, s1) →
      (InOutType.parse p s).1 = some r → r.hasNestedInOut = false) ∧
    (∀ loc diags, t.isaInOutType = true →
      (InOutType.getChecked loc t diags).1 = none ∧
      ∀ n, (ArrayType.getChecked loc t n diags).1 = none) := by
  have hmain := (Ty.Obtainable.no_inout_below t hobtainable).2 hkind
  refine ⟨hmain, ?_, ?_, ?_, ?_, ?_, ?_⟩
  · cases hobtainable with
    | integer w sign => simp [Ty.isaArrayType, Ty.isaInOutType] at hkind
    | other name => simp [Ty.isaArrayType, Ty.isaInOutType] at hkind
    | struct fields _ => simp [makeStruct, Ty.isaArrayType, Ty.isaInOutType] at hkind
    | arrayChecked loc inner size diags result hin hres =>
      obtain ⟨rfl, hv, -⟩ := ArrayType.getChecked_element_valid _ _ _ _ _ hres
      exact ⟨inner, Or.inr ⟨size, rfl⟩, hv, (Ty.Obtainable.no_inout_below inner hin).1 hv⟩
    | arrayParsed p s s1 dims inner result hs hin hres =>
      obtain ⟨rfl, hv, -⟩ := ArrayType.parse_element_valid _ _ _ _ _ _ hs hres
      exact ⟨inner, Or.inr ⟨_, rfl⟩, hv, (Ty.Obtainable.no_inout_below inner hin).1 hv⟩
    | inoutChecked loc inner diags result hin hres =>
      obtain ⟨rfl, hv, -⟩ := InOutType.getChecked_inout_element_valid _ _ _ _ hres
      exact ⟨inner, Or.inl rfl, hv, (Ty.Obtainable.no_inout_below inner hin).1 hv⟩
    | inoutParsed p s s1 inner result hs hin hres =>
      obtain ⟨rfl, hv⟩ := InOutType.parse_inout_element_valid _ _ _ _ _ hs hres
      exact ⟨inner, Or.inl rfl, hv, (Ty.Obtainable.no_inout_below inner hin).1 hv⟩
  · intro loc n diags r hres
    exact (Ty.Obtainable.no_inout_below r
      (Ty.Obtainable.arrayChecked loc t n diags r hobtainable hres)).2
      (Or.inl (by rw [(ArrayType.getChecked_element_valid _ _ _ _ _ hres).1]; rfl))
  · intro loc diags r hres
    exact (Ty.Obtainable.no_inout_below r
      (Ty.Obtainable.inoutChecked loc t diags r hobtainable hres)).2
      (Or.inr (by rw [(InOutType.getChecked_inout_element_valid _ _ _ _ hres).1]; rfl))
  · intro p s s1 dims r hs hres
    exact (Ty.Obtainable.no_inout_below r
      (Ty.Obtainable.arrayParsed p s s1 dims t r hs hobtainable hres)).2
      (Or.inl (by rw [(ArrayType.parse_element_valid _ _ _ _ _ _ hs hres).1]; rfl))
  · intro p s s1 r hs hres
    exact (Ty.Obtainable.no_inout_below r
      (Ty.Obtainable.inoutParsed p s s1 t r hs hobtainable hres)).2
      (Or.inr (by rw [(InOutType.parse_inout_element_valid _ _ _ _ _ hs hres).1]; rfl))
  · intro loc diags hio
    cases t with
    | inout e =>
      simp [InOutType.getChecked, InOutType.verifyConstructionInvariants,
        ArrayType.getChecked, ArrayType.verifyConstructionInvariants, isRTLValueType,
        Ty.dynCastInteger, Ty.isaArrayType, emitError, failed]
    | integer w sign => simp [Ty.isaInOutType] at hio
    | array e n => simp [Ty.isaInOutType] at hio
    | struct fs => simp [Ty.isaInOutType] at hio
    | other name => simp [Ty.isaInOutType] at hio

/-- Witness of C18 (amended): `inout<array<3 x array<2 x i8>>>`, obtained from
`i8` by `ArrayType::getChecked` twice and `InOutType::getChecked` once. -/
theorem no_inout_below_array_or_inout_witness :
    (ArrayType.getChecked 0 (.integer 8 .Signless) 2 []).1 =
      some (.array (.integer 8 .Signless) 2) ∧
    (ArrayType.getChecked 1 (.array (.integer 8 .Signless) 2) 3 []).1 =
      some (.array (.array (.integer 8 .Signless) 2) 3) ∧
    (InOutType.getChecked 2 (.array (.array (.integer 8 .Signless) 2) 3) []).1 =
      some (.inout (.array (.array (.integer 8 .Signless) 2) 3)) ∧
    Ty.Obtainable (.inout (.array (.array (.integer 8 .Signless) 2) 3)) ∧
    ((Ty.inout (.array (.array (.integer 8 .Signless) 2) 3)).isaArrayType = true ∨
      (Ty.inout (.array (.array (.integer 8 .Signless) 2) 3)).isaInOutType = true) ∧
    (Ty.inout (.array (.array (.integer 8 .Signless) 2) 3)).hasNestedInOut = false ∧
    (InOutType.getChecked 3 (.inout (.array (.array (.integer 8 .Signless) 2) 3)) []).1
      = none :=
  have hobt : Ty.Obtainable (.inout (.array (.array (.integer 8 .Signless) 2) 3)) :=
    Ty.Obtainable.inoutChecked 2 (.array (.array (.integer 8 .Signless) 2) 3) [] _
      (Ty.Obtainable.arrayChecked 1 (.array (.integer 8 .Signless) 2) 3 [] _
        (Ty.Obtainable.arrayChecked 0 (.integer 8 .Signless) 2 [] _
          (Ty.Obtainable.integer 8 .Signless) (by decide))
        (by decide))
      (by decide)
  have h := no_inout_below_array_or_inout
    (.inout (.array (.array (.integer 8 .Signless) 2) 3)) hobt (by decide)
  ⟨by decide, by decide, by decide, hobt, by decide, h.1,
    (h.2.2.2.2.2.2 3 [] (by decide)).1⟩

/-- C19 fails as stated: the text `array<0xi8>` parses to the array type of
size 0 over `i8`, without a diagnostic, and the validating constructor accepts
size 0 as well. -/
theorem zero_size_array_accepted :
    Host.parse int64Max "array<0xi8>".toList =
      (some (.array (.integer 8 .Signless) 0), ⟨[], 11, []⟩) ∧
    ArrayType.getChecked 0 (.integer 8 .Signless) 0 [] =
      (some (.array (.integer 8 .Signless) 0), []) ∧
    ArrayType.verifyConstructionInvariants 0 (.integer 8 .Signless) 0 [] = (.success, []) ∧
    (Ty.array (.integer 8 .Signless) 0).constructible = true ∧
    Host.print (.array (.integer 8 .Signless) 0) = some "array<0xi8>".toList := by
  decide

/-- C19, as the code has it: the size of an accepted array type is a
`size_t` with no further condition: an array type that `ArrayType::parse`
returns has a value-type element and a size below 2^64, and the validating
constructor accepts every size, 0 included, on a value-type element. -/
theorem accepted_array_size_unchecked (p : DialectAsmParser) (s : ParserState) (t e : Ty)
    (loc : Location) (diags : List Diagnostic)
    (hparse : (ArrayType.parse p s).1 = some t) (hvalue : isRTLValueType e = true) :
    (∃ inner n, t = .array inner n ∧ n < 2 ^ 64 ∧ isRTLValueType inner = true) ∧
    (∀ n, ArrayType.getChecked loc e n diags = (some (.array e n), diags)) ∧
    ArrayType.getChecked loc e 0 diags = (some (.array e 0), diags) ∧
    (∀ n, ArrayType.verifyConstructionInvariants loc e n diags = (.success, diags)) := by
  have hget : ∀ n, ArrayType.getChecked loc e n diags = (some (.array e n), diags) := by
    intro n
    simp [ArrayType.getChecked, ArrayType.verifyConstructionInvariants, hvalue, failed,
      ArrayType.get]
  refine ⟨?_, hget, hget 0, ?_⟩
  · unfold ArrayType.parse at hparse
    cases hs : ArrayType.parseShape p s with
    | mk r s1 =>
      rw [hs] at hparse
      cases r with
      | none => simp at hparse
      | some shape =>
        obtain ⟨dims, inner⟩ := shape
        simp only at hparse
        split at hparse
        · simp at hparse
        · cases hv : isRTLValueType inner with
          | false =>
            simp [ArrayType.verifyConstructionInvariants, hv, emitError, failed] at hparse
          | true =>
            simp [ArrayType.verifyConstructionInvariants, hv, failed, ArrayType.get] at hparse
            refine ⟨inner, toSizeT (dims.head?.getD 0), hparse.symm, ?_, hv⟩
            unfold toSizeT
            omega
  · intro n
    simp [ArrayType.verifyConstructionInvariants, hvalue]

/-- Witness of C19 (amended): the host parser on `<0xi8>`. -/
theorem accepted_array_size_unchecked_witness :
    (ArrayType.parse
        (Host.mkParser int64Max 0 (Host.parseTypeWith (Host.parseDialectType int64Max 3)))
        ⟨"<0xi8>".toList, 5, []⟩).1 = some (.array (.integer 8 .Signless) 0) ∧
    isRTLValueType (.integer 8 .Signless) = true ∧
    (∃ inner n, Ty.array (.integer 8 .Signless) 0 = .array inner n ∧ n < 2 ^ 64 ∧
      isRTLValueType inner = true) ∧
    ArrayType.getChecked 7 (.integer 8 .Signless) 0 [] =
      (some (.array (.integer 8 .Signless) 0), []) :=
  have h := accepted_array_size_unchecked
    (Host.mkParser int64Max 0 (Host.parseTypeWith (Host.parseDialectType int64Max 3)))
    ⟨"<0xi8>".toList, 5, []⟩ (.array (.integer 8 .Signless) 0) (.integer 8 .Signless) 7 []
    (by decide) (by decide)
  ⟨by decide, by decide, h.1, h.2.2.1⟩

end RTL
